import Mathlib

/-!
# nouveau nvkm: engine reference counting, falcon bootstrap, PMU message channel

A shallow embedding of `nvkm/core/engine.c`, `nvkm/engine/falcon.c` and
`nvkm/subdev/pmu/base.c`.

* C `int` fields are `Int`, wrapped to 32 bits by `s32` where the code does
  arithmetic on them; `u32` values are `Nat`, wrapped by `u32` where an
  addition could carry out of 32 bits.
* Effects on the outside world (register reads and writes, locking, calls into
  other layers, log lines) are recorded, in program order, as a list of `Event`.
* Values returned by the outside world (results of `nvkm_subdev_init`, of the
  engine hooks, of register reads) are inputs of the embedded functions.
-/

namespace Nvkm

/-! ## Effects -/

/-- Log lines of the embedded code that the development refers to. -/
inductive Msg where
  | unable_to_load_firmware_data
  | unable_to_load_firmware_code
  | core_allocation_failed
  | ucode_exceeds_falcon_limits
  deriving DecidableEq, Repr

/-- Segment tag of a firmware blob name: `"nouveau/nv%02x_fuc%03x"` followed
by nothing, by `d` or by `c`. -/
inductive Seg where
  | self
  | d
  | c
  deriving DecidableEq, Repr

/-- An observable effect of the embedded code. -/
inductive Event where
  | rd (addr val : Nat)
  | wr (addr val : Nat)
  | mutex_lock
  | mutex_unlock
  | subdev_init
  | subdev_fini (suspend : Bool)
  | ofuncs_init
  | func_oneinit
  | func_init
  | set_recv_message (message : Nat)
  | set_recv_process (process : Nat)
  | set_recv_data (data0 data1 : Nat)
  | wake_up
  | warn (process message data0 data1 : Nat)
  | error (msg : Msg)
  | request_firmware (seg : Seg)
  | gpuobj_new (size : Nat)
  | wo32 (offset val : Nat)
  | schedule_work
  | error_uas (stat addr : Nat)
  | info_wr32 (addr val : Nat)
  | error_intr (intr : Nat)
  deriving DecidableEq, Repr

/-- Whether an effect is a register write. -/
def Event.isWr : Event → Bool
  | .wr _ _ => true
  | _ => false

/-- Whether an effect is a register read. -/
def Event.isRd : Event → Bool
  | .rd _ _ => true
  | _ => false

/-! ## Machine integers and errno values -/

/-- Wrap to a C `int` (two's complement, 32 bits). -/
def s32 (x : Int) : Int := (x + 2147483648) % 4294967296 - 2147483648

/-- Wrap to a C `u32`. -/
def u32 (x : Nat) : Nat := x % 4294967296

def ENOMEM : Int := 12
def EBUSY : Int := 16
def ENODEV : Int := 19
def EINVAL : Int := 22
def ETIMEDOUT : Int := 110

/-! ## `core/engine.c` -/

/-- The hooks of `struct nvkm_engine_func` that `nvkm_engine_init` tests for
presence (`true` is a non-NULL function pointer). -/
structure nvkm_engine_func where
  oneinit : Bool
  init : Bool
  deriving DecidableEq, Repr

/-- The fields of `struct nvkm_engine` read or written by the embedded
functions: `usecount`, `func`, `subdev.oneinit`, and whether
`subdev.object.oclass` is non-NULL. -/
structure nvkm_engine where
  usecount : Int
  func : nvkm_engine_func
  subdev_oneinit : Bool
  oclass : Bool
  deriving DecidableEq, Repr

/-- A `struct nvkm_engine *` argument: `NULL` or the engine. -/
inductive engine_arg where
  | NULL
  | engine
  deriving DecidableEq, Repr

/-- A `struct nvkm_engine *` result: an argument handed back, or `ERR_PTR(ret)`. -/
inductive engine_ptr where
  | ptr (p : engine_arg)
  | ERR_PTR (ret : Int)
  deriving DecidableEq, Repr

/-- Function `nvkm_engine_unref(struct nvkm_engine **pengine)`, engine.c:28-39.
Returns the engine and the effects; `*pengine` is `NULL` afterwards in both
branches that matter (it was `NULL` already when the test fails). -/
def nvkm_engine_unref (pengine : engine_arg) (engine : nvkm_engine) :
    nvkm_engine × List Event :=
  match pengine with
  | .NULL => (engine, [])
  | .engine =>
    let usecount := s32 (engine.usecount - 1)
    let engine := { engine with usecount := usecount }
    if usecount = 0 then
      (engine, [.mutex_lock, .subdev_fini false, .mutex_unlock])
    else
      (engine, [.mutex_lock, .mutex_unlock])

/-- Function `nvkm_engine_ref(struct nvkm_engine *engine)`, engine.c:41-57.
`subdev_init` is the value `nvkm_subdev_init` returns if it is called. -/
def nvkm_engine_ref (subdev_init : Int) (arg : engine_arg) (engine : nvkm_engine) :
    engine_ptr × nvkm_engine × List Event :=
  match arg with
  | .NULL => (.ptr .NULL, engine, [])
  | .engine =>
    let usecount := s32 (engine.usecount + 1)
    let engine := { engine with usecount := usecount }
    if usecount = 1 then
      let ret := subdev_init
      if ret ≠ 0 then
        (.ERR_PTR ret, { engine with usecount := s32 (engine.usecount - 1) },
          [.mutex_lock, .subdev_init, .mutex_unlock])
      else
        (.ptr .engine, engine, [.mutex_lock, .subdev_init, .mutex_unlock])
    else
      (.ptr .engine, engine, [.mutex_lock, .mutex_unlock])

/-- One call of a sequence of acquire/release calls on one non-null engine;
a `ref` carries what `nvkm_subdev_init` would return to it. -/
inductive Call where
  | ref (subdev_init : Int)
  | unref
  deriving DecidableEq, Repr

/-- The record of one call: the call, `usecount` before and after, the
effects of the call and, for a `ref`, the pointer returned. -/
structure Step where
  call : Call
  pre : Int
  post : Int
  events : List Event
  result : Option engine_ptr
  deriving DecidableEq, Repr

/-- Run one call on the engine. -/
def engine_step (c : Call) (engine : nvkm_engine) : Step × nvkm_engine :=
  match c with
  | .ref r =>
    let out := nvkm_engine_ref r .engine engine
    (⟨c, engine.usecount, out.2.1.usecount, out.2.2, some out.1⟩, out.2.1)
  | .unref =>
    let out := nvkm_engine_unref .engine engine
    (⟨c, engine.usecount, out.1.usecount, out.2, none⟩, out.1)

/-- Run a sequence of calls, each on the engine the previous one left. -/
def engine_run : List Call → nvkm_engine → List Step
  | [], _ => []
  | c :: cs, engine =>
    let out := engine_step c engine
    out.1 :: engine_run cs out.2

/-- A freshly constructed engine (`kzalloc`ed, so `usecount` is 0). -/
def engine0 (func : nvkm_engine_func) (oclass : Bool) : nvkm_engine :=
  { usecount := 0, func := func, subdev_oneinit := false, oclass := oclass }

/-- The call is a `ref`. -/
def Call.isRef : Call → Bool
  | .ref _ => true
  | .unref => false

/-- The call is a `ref` whose `nvkm_subdev_init` would return 0. -/
def Call.initOk : Call → Bool
  | .ref r => r == 0
  | .unref => false

/-- Whether `nvkm_subdev_init` was invoked by the step and returned 0. -/
def Step.initSucceeded (s : Step) : Bool :=
  decide (Event.subdev_init ∈ s.events) && s.call.initOk

/-- The step moved `usecount` from 0 to 1. -/
def Step.zeroToOne (s : Step) : Bool :=
  decide (s.pre = 0) && decide (s.post = 1)

/-- What the callbacks reachable from `nvkm_engine_init` return when they are
called: `oclass->ofuncs->init`, `func->oneinit`, `func->init`. -/
structure Hooks where
  ofuncs_init : Int
  oneinit : Int
  init : Int
  deriving DecidableEq, Repr

/-- Function `nvkm_engine_init(struct nvkm_subdev *obj)`, engine.c:78-112. Returns `ret`,
the engine and the callbacks invoked (the `nvkm_trace` lines and the `ktime_get`
readings that only feed them are left out). -/
def nvkm_engine_init (hooks : Hooks) (engine : nvkm_engine) :
    Int × nvkm_engine × List Event :=
  let ret : Int := 0
  if engine.usecount = 0 then
    (ret, engine, [])
  else if engine.oclass then
    (hooks.ofuncs_init, engine, [.ofuncs_init])
  else if engine.func.oneinit && !engine.subdev_oneinit then
    let ret := hooks.oneinit
    if ret ≠ 0 then
      (ret, engine, [.func_oneinit])
    else
      let engine := { engine with subdev_oneinit := true }
      if engine.func.init then
        (hooks.init, engine, [.func_oneinit, .func_init])
      else
        (ret, engine, [.func_oneinit])
  else
    if engine.func.init then
      (hooks.init, engine, [.func_init])
    else
      (ret, engine, [])

/-- The record of one `nvkm_engine_init` call: the engine before, what the
callbacks return, the return value, the engine after and the callbacks invoked. -/
structure InitStep where
  pre : nvkm_engine
  hooks : Hooks
  ret : Int
  post : nvkm_engine
  events : List Event
  deriving DecidableEq, Repr

/-- Run a sequence of `nvkm_engine_init` calls, each on the engine the previous
one left. -/
def engine_init_run : List Hooks → nvkm_engine → List InitStep
  | [], _ => []
  | h :: hs, engine =>
    let out := nvkm_engine_init h engine
    ⟨engine, h, out.1, out.2.1, out.2.2⟩ :: engine_init_run hs out.2.1

/-- The one-time hook was invoked by the step and returned 0. -/
def InitStep.oneinitSucceeded (s : InitStep) : Bool :=
  decide (Event.func_oneinit ∈ s.events) && decide (s.hooks.oneinit = 0)

/-- The 32-bit range of a C `int`. -/
def InRange (x : Int) : Prop := -2147483648 ≤ x ∧ x < 2147483648

/-! ## The register port and the world around the driver

`nvkm_rd32`, `nvkm_wr32` and `nvkm_msec` are declared in headers outside the
embedded sources. The hardware is a script: the values that the successive
register reads return and, for each bounded poll, how many more times its body can
run before the 2000 ms are over. A run that needs a value the script does not
hold stops as `stuck`, keeping the effects it has had so far. -/

/-- The world of one driver object `σ`: what the hardware will answer
(`reads`, `polls`), the effects so far in program order, and the object. -/
structure World (σ : Type) where
  reads : List Nat
  polls : List Nat
  trace : List Event
  obj : σ
  deriving DecidableEq, Repr

/-- Result of running embedded code: it returned `a`, or it never returns
(the hardware stopped answering, or the caller sleeps for ever). -/
inductive Res (σ α : Type) where
  | ok (a : α) (w : World σ)
  | stuck (w : World σ)
  deriving DecidableEq, Repr

/-- The world a run ended in. -/
def Res.world {σ α : Type} : Res σ α → World σ
  | .ok _ w => w
  | .stuck w => w

/-- Embedded code: a function of the world. -/
def M (σ α : Type) : Type := World σ → Res σ α

/-- Sequencing: a stuck run stays stuck. -/
def M.bind {σ α β : Type} (m : M σ α) (f : α → M σ β) : M σ β := fun w =>
  match m w with
  | .ok a w1 => f a w1
  | .stuck w1 => .stuck w1

/-- Return a value without an effect. -/
def M.pure {σ α : Type} (a : α) : M σ α := fun w => .ok a w

instance {σ : Type} : Monad (M σ) where
  pure := M.pure
  bind := M.bind

/-- Record one effect. -/
def emit {σ : Type} (e : Event) : M σ Unit := fun w =>
  .ok () { w with trace := w.trace ++ [e] }

/-- The code never gets past this point. -/
def block {σ α : Type} : M σ α := fun w => .stuck w

/-- Read the driver object. -/
def get_obj {σ : Type} : M σ σ := fun w => .ok w.obj w

/-- Replace the driver object. -/
def set_obj {σ : Type} (o : σ) : M σ Unit := fun w => .ok () { w with obj := o }

/-- Modelled from the spec: `nvkm_rd32` (`read32(offset) -> u32`), a synchronous
register read; the value is the next one of the script. -/
def nvkm_rd32 {σ : Type} (addr : Nat) : M σ Nat := fun w =>
  match w.reads with
  | [] => .stuck w
  | v :: rest => .ok v { w with reads := rest, trace := w.trace ++ [.rd addr v] }

/-- Modelled from the spec: `nvkm_wr32` (`write32(offset, value)`), a synchronous
register write. -/
def nvkm_wr32 {σ : Type} (addr val : Nat) : M σ Unit := emit (.wr addr val)

/-- The loop of `nvkm_msec`: the body runs, and runs again while it has not
executed `break` (`cond` returned `true`) and the time is not over (`n` more
runs fit in). -/
def nvkm_msec_loop {σ : Type} (cond : M σ Bool) : Nat → M σ Int
  | 0 => do
    let done ← cond
    if done then pure 0 else pure (-ETIMEDOUT)
  | n + 1 => do
    let done ← cond
    if done then pure 0 else nvkm_msec_loop cond n

/-- Modelled from the spec: `nvkm_msec(device, 2000, body)`
(`poll(timeout_ms, predicate) -> elapsed | timeout_error`, busy-waits evaluating
the predicate until true or timeout). The result is non-negative (the time taken,
given as 0) when the body broke out and `-ETIMEDOUT` when the time ran out. -/
def nvkm_msec {σ : Type} (cond : M σ Bool) : M σ Int := fun w =>
  match w.polls with
  | [] => .stuck w
  | n :: polls => nvkm_msec_loop cond n { w with polls := polls }

/-- The data segment handshake
`do { nvkm_wr32(device, 0x10a580, code); } while (nvkm_rd32(device, 0x10a580) != code);`
on the script of read values: its effects, and the script left when it ends. -/
def spin (code : Nat) : List Nat → List Event × Option (List Nat)
  | [] => ([.wr 0x10a580 code], none)
  | v :: rest =>
    if v = code then
      ([.wr 0x10a580 code, .rd 0x10a580 v], some rest)
    else
      (.wr 0x10a580 code :: .rd 0x10a580 v :: (spin code rest).1, (spin code rest).2)

/-- Acquire data segment access (pmu/base.c:63-66 with code 1, 104-107 with code 2). -/
def acquire_data_segment {σ : Type} (code : Nat) : M σ Unit := fun w =>
  match (spin code w.reads).2 with
  | some rest => .ok () { w with reads := rest, trace := w.trace ++ (spin code w.reads).1 }
  | none => .stuck { w with reads := [], trace := w.trace ++ (spin code w.reads).1 }

/-! ## `subdev/pmu/base.c` -/

/-- Field `pmu->send`: the host to PMU ring descriptor. -/
structure pmu_send where
  base : Nat
  size : Nat
  deriving DecidableEq, Repr

/-- Field `pmu->recv`: the PMU to host ring descriptor and the pending-reply slot. -/
structure pmu_recv where
  base : Nat
  size : Nat
  process : Nat
  message : Nat
  data0 : Nat
  data1 : Nat
  deriving DecidableEq, Repr

/-- The fields of `struct nvkm_pmu` used by the message channel. -/
structure nvkm_pmu where
  send : pmu_send
  recv : pmu_recv
  deriving DecidableEq, Repr

/-- Assignment `pmu->recv.message = message;`. -/
def store_recv_message (message : Nat) : M nvkm_pmu Unit := do
  let pmu ← get_obj
  set_obj { pmu with recv := { pmu.recv with message := message } }
  emit (.set_recv_message message)

/-- Assignment `pmu->recv.process = process;`. -/
def store_recv_process (process : Nat) : M nvkm_pmu Unit := do
  let pmu ← get_obj
  set_obj { pmu with recv := { pmu.recv with process := process } }
  emit (.set_recv_process process)

/-- Assignments `pmu->recv.data[0] = data0; pmu->recv.data[1] = data1;`. -/
def store_recv_data (data0 data1 : Nat) : M nvkm_pmu Unit := do
  let pmu ← get_obj
  set_obj { pmu with recv := { pmu.recv with data0 := data0, data1 := data1 } }
  emit (.set_recv_data data0 data1)

/-- Function `nvkm_pmu_recv(struct work_struct *work)`, pmu/base.c:91-142. -/
def nvkm_pmu_recv : M nvkm_pmu Unit := do
  let addr ← nvkm_rd32 0x10a4cc
  let put ← nvkm_rd32 0x10a4c8
  if addr = put then
    pure ()
  else do
    acquire_data_segment 2
    let pmu ← get_obj
    nvkm_wr32 0x10a1c0 (0x02000000 ||| u32 (((addr &&& 0x07) <<< 4) + pmu.recv.base))
    let process ← nvkm_rd32 0x10a1c4
    let message ← nvkm_rd32 0x10a1c4
    let data0 ← nvkm_rd32 0x10a1c4
    let data1 ← nvkm_rd32 0x10a1c4
    nvkm_wr32 0x10a4cc (u32 (addr + 1) &&& 0x0f)
    nvkm_wr32 0x10a580 0x00000000
    let pmu ← get_obj
    if pmu.recv.process ≠ 0 ∧ process = pmu.recv.process ∧ message = pmu.recv.message then do
      store_recv_data data0 data1
      store_recv_process 0
      emit .wake_up
    else
      emit (.warn process message data0 data1)

/-- Statement `wait_event(pmu->recv.wait, (pmu->recv.process == 0))`, pmu/base.c:82. While
the sender sleeps the only code that changes `recv.process` is the receive
work, so the wait is: test the condition, and if it does not hold let the work
run once more; `work` is how many times the work runs before it is never
scheduled again. -/
def wait_event_recv : Nat → M nvkm_pmu Unit
  | 0 => do
    let pmu ← get_obj
    if pmu.recv.process = 0 then pure () else block
  | work + 1 => do
    let pmu ← get_obj
    if pmu.recv.process = 0 then
      pure ()
    else do
      nvkm_pmu_recv
      wait_event_recv work

/-- Function `nvkm_pmu_send(pmu, reply, process, message, data0, data1)`, pmu/base.c:36-89.
`reply` tells whether the reply buffer is non-NULL; the result is the return value
and what the call stored in `reply[0]`, `reply[1]`. -/
def nvkm_pmu_send (reply : Bool) (process message data0 data1 : Nat) (work : Nat) :
    M nvkm_pmu (Int × Option (Nat × Nat)) := do
  let addr ← nvkm_rd32 0x10a4a0
  let taken ← nvkm_msec (do
    let tmp ← nvkm_rd32 0x10a4b0
    pure (decide (tmp ≠ addr ^^^ 8)))
  if taken < 0 then
    pure (-EBUSY, none)
  else do
    if reply then do
      emit .mutex_lock
      store_recv_message message
      store_recv_process process
    acquire_data_segment 1
    let pmu ← get_obj
    nvkm_wr32 0x10a1c0 (0x01000000 ||| u32 (((addr &&& 0x07) <<< 4) + pmu.send.base))
    nvkm_wr32 0x10a1c4 process
    nvkm_wr32 0x10a1c4 message
    nvkm_wr32 0x10a1c4 data0
    nvkm_wr32 0x10a1c4 data1
    nvkm_wr32 0x10a4a0 (u32 (addr + 1) &&& 0x0f)
    nvkm_wr32 0x10a580 0x00000000
    if reply then do
      wait_event_recv work
      let pmu ← get_obj
      emit .mutex_unlock
      pure (0, some (pmu.recv.data0, pmu.recv.data1))
    else
      pure (0, none)

/-- The effects of a data segment handshake that reads the values `busy` (none
of them the code) and then the code. -/
def handshake (code : Nat) : List Nat → List Event
  | [] => [.wr 0x10a580 code, .rd 0x10a580 code]
  | v :: busy => .wr 0x10a580 code :: .rd 0x10a580 v :: handshake code busy

/-- The effects of `nvkm_pmu_recv` consuming one slot (pmu/base.c:99-119): the two
index reads, the handshake, the window pointer, the four word reads, the advance of
GET and the release of the window. -/
def recv_consume (base get put : Nat) (busy : List Nat)
    (process message data0 data1 : Nat) : List Event :=
  [.rd 0x10a4cc get, .rd 0x10a4c8 put] ++ handshake 2 busy ++
  [.wr 0x10a1c0 (0x02000000 ||| u32 (((get &&& 0x07) <<< 4) + base)),
   .rd 0x10a1c4 process, .rd 0x10a1c4 message, .rd 0x10a1c4 data0, .rd 0x10a1c4 data1,
   .wr 0x10a4cc (u32 (get + 1) &&& 0x0f),
   .wr 0x10a580 0]

/-- The tail of `nvkm_pmu_send` with a reply buffer, pmu/base.c:80-88: the wait
for the reply, the copy of the reply words, the unlock and `return 0`. -/
def send_wait_reply (work : Nat) : M nvkm_pmu (Int × Option (Nat × Nat)) := do
  wait_event_recv work
  let pmu ← get_obj
  emit .mutex_unlock
  pure (0, some (pmu.recv.data0, pmu.recv.data1))

/-- The effects of the ring-room wait of `nvkm_pmu_send` (pmu/base.c:44-51) that
reads PUT, then `busy` and then `g` from 0x10a4b0. -/
def send_room (put : Nat) (busy : List Nat) (g : Nat) : List Event :=
  .rd 0x10a4a0 put :: (busy.map (Event.rd 0x10a4b0) ++ [.rd 0x10a4b0 g])

/-- The effects of registering the waiter (pmu/base.c:57-61). -/
def send_key (reply : Bool) (process message : Nat) : List Event :=
  if reply then [.mutex_lock, .set_recv_message message, .set_recv_process process] else []

/-- The register writes of `nvkm_pmu_send` once the window is acquired
(pmu/base.c:68-78). -/
def send_packet (base put process message data0 data1 : Nat) : List Event :=
  [.wr 0x10a1c0 (0x01000000 ||| u32 (((put &&& 0x07) <<< 4) + base)),
   .wr 0x10a1c4 process, .wr 0x10a1c4 message, .wr 0x10a1c4 data0, .wr 0x10a1c4 data1,
   .wr 0x10a4a0 (u32 (put + 1) &&& 0x0f),
   .wr 0x10a580 0]

/-- The `pmu` object once the waiter is registered. -/
def with_key (reply : Bool) (process message : Nat) (pmu : nvkm_pmu) : nvkm_pmu :=
  if reply then
    { pmu with recv := { pmu.recv with message := message, process := process } }
  else pmu

/-- The part of `nvkm_pmu_send` after the waiter is registered, pmu/base.c:63-88,
with `addr` the PUT index read at entry. -/
def send_rest (reply : Bool) (addr process message data0 data1 : Nat) (work : Nat) :
    M nvkm_pmu (Int × Option (Nat × Nat)) := do
  acquire_data_segment 1
  let pmu ← get_obj
  nvkm_wr32 0x10a1c0 (0x01000000 ||| u32 (((addr &&& 0x07) <<< 4) + pmu.send.base))
  nvkm_wr32 0x10a1c4 process
  nvkm_wr32 0x10a1c4 message
  nvkm_wr32 0x10a1c4 data0
  nvkm_wr32 0x10a1c4 data1
  nvkm_wr32 0x10a4a0 (u32 (addr + 1) &&& 0x0f)
  nvkm_wr32 0x10a580 0x00000000
  if reply then do
    wait_event_recv work
    let pmu ← get_obj
    emit .mutex_unlock
    pure (0, some (pmu.recv.data0, pmu.recv.data1))
  else
    pure (0, none)

/-- Code that only adds effects: whatever the world, the effects it ends with are
those it started with followed by its own. -/
def Extends {σ α : Type} (m : M σ α) : Prop :=
  ∀ w : World σ, ∃ t, (m w).world.trace = w.trace ++ t

/-! ## `engine/falcon.c` -/

/-- Fields `falcon->code` and `falcon->data`: the image (`NULL` or its 32-bit words), its
size in bytes and the limit probed from the hardware. -/
structure falcon_seg where
  data : Option (List Nat)
  size : Nat
  limit : Nat
  deriving DecidableEq, Repr

/-- The fields of `struct nvkm_falcon` used by `_nvkm_falcon_init`; `core` is
`NULL` or the address of the GPU buffer (`falcon->core->addr`). -/
structure nvkm_falcon where
  addr : Nat
  version : Nat
  secret : Nat
  code : falcon_seg
  data : falcon_seg
  external : Bool
  core : Option Nat
  deriving DecidableEq, Repr

/-- A blob handed out by `request_firmware`: `fw->size` in bytes and `fw->data`
seen as 32-bit words, the way the falcon code indexes the copy. -/
structure firmware where
  size : Nat
  data : List Nat
  deriving DecidableEq, Repr

/-- What the collaborators of `_nvkm_falcon_init` answer: the result of
`nvkm_engine_init_old`, the chipset and card type of the device, the firmware
loader (the blob of each of the three names, or none when `request_firmware`
fails), whether `vmalloc` succeeds for the copy of each blob, and the result of
`nvkm_gpuobj_new` (its return value and the address of the buffer). -/
structure falcon_env where
  engine_init_old : Int
  chipset : Nat
  card_type : Nat
  request_firmware : Seg → Option firmware
  vmemdup_ok : Seg → Bool
  gpuobj_new : Int × Nat

/-- Modelled from the spec: `NV_C0` of `enum nv_card_type` (device.h is outside the
embedded sources); the card types are ordered by generation and the value is the
chipset family 0xc0. -/
def NV_C0 : Nat := 0xc0

/-- A register of the falcon: `base + offset` in `u32` arithmetic. -/
def reg (base offset : Nat) : Nat := u32 (base + offset)

/-- Record several effects. -/
def emits {σ : Type} (es : List Event) : M σ Unit := fun w =>
  .ok () { w with trace := w.trace ++ es }

/-- The effects of `for (i = i0; i < bound; i += step) body(i)`; `fuel` bounds the
number of rounds (`bound` rounds are enough when `step` is positive). -/
def for_loop (step : Nat) (body : Nat → List Event) : Nat → Nat → Nat → List Event
  | 0, _, _ => []
  | fuel + 1, i, bound =>
    if i < bound then body i ++ for_loop step body fuel (i + step) bound else []

/-- Word `data[i]` of an image (0 where the image has no such word). -/
def word (data : Option (List Nat)) (i : Nat) : Nat := (data.getD []).getD i 0

/-- Function `vmemdup(fw->data, fw->size)`: the copy, or `NULL` when `vmalloc` fails. -/
def vmemdup (ok : Bool) (fw : firmware) : Option (List Nat) :=
  if ok then some fw.data else none

/-- Stage "start it running", falcon.c:230-235. -/
def falcon_start : M nvkm_falcon Int := do
  let falcon ← get_obj
  let base := falcon.addr
  nvkm_wr32 (reg base 0x10c) 0x00000001
  nvkm_wr32 (reg base 0x104) 0x00000000
  nvkm_wr32 (reg base 0x100) 0x00000002
  nvkm_wr32 (reg base 0x048) 0x00000003
  pure 0

/-- Stage "upload data segment (if necessary), zeroing the remainder", falcon.c:215-228,
then the start. In both variants the first loop stops at once when there is a
core buffer, and the second loop goes on from the `i` the first one left. -/
def falcon_upload_data : M nvkm_falcon Int := do
  let falcon ← get_obj
  let base := falcon.addr
  let n := if falcon.core.isSome then 0 else falcon.data.size / 4
  if falcon.version < 3 then do
    nvkm_wr32 (reg base 0xff8) 0x00000000
    emits (for_loop 1 (fun i => [.wr (reg base 0xff4) (word falcon.data.data i)]) n 0 n)
    emits (for_loop 4 (fun _ => [.wr (reg base 0xff4) 0x00000000])
      falcon.data.limit n falcon.data.limit)
    falcon_start
  else do
    nvkm_wr32 (reg base 0x1c0) 0x01000000
    emits (for_loop 1 (fun i => [.wr (reg base 0x1c4) (word falcon.data.data i)]) n 0 n)
    emits (for_loop 1 (fun _ => [.wr (reg base 0x1c4) 0x00000000])
      (falcon.data.limit / 4) n (falcon.data.limit / 4))
    falcon_start

/-- Stage "upload firmware bootloader (or the full code segments)", falcon.c:184-213,
then the data upload. -/
def falcon_upload (env : falcon_env) : M nvkm_falcon Int := do
  let falcon ← get_obj
  let base := falcon.addr
  match falcon.core with
  | some core_addr => do
    if env.card_type < NV_C0 then
      nvkm_wr32 (reg base 0x618) 0x04000000
    else
      nvkm_wr32 (reg base 0x618) 0x00000114
    nvkm_wr32 (reg base 0x11c) 0
    nvkm_wr32 (reg base 0x110) (core_addr >>> 8)
    nvkm_wr32 (reg base 0x114) 0
    nvkm_wr32 (reg base 0x118) 0x00006610
    falcon_upload_data
  | none =>
    if falcon.code.size > falcon.code.limit ∨ falcon.data.size > falcon.data.limit then do
      emit (.error .ucode_exceeds_falcon_limits)
      pure (-EINVAL)
    else if falcon.version < 3 then do
      nvkm_wr32 (reg base 0xff8) 0x00100000
      emits (for_loop 1 (fun i => [.wr (reg base 0xff4) (word falcon.code.data i)])
        (falcon.code.size / 4) 0 (falcon.code.size / 4))
      falcon_upload_data
    else do
      nvkm_wr32 (reg base 0x180) 0x01000000
      emits (for_loop 1
        (fun i =>
          (if i &&& 0x3f = 0 then [Event.wr (reg base 0x188) (i >>> 6)] else []) ++
          [.wr (reg base 0x184) (word falcon.code.data i)])
        (falcon.code.size / 4) 0 (falcon.code.size / 4))
      falcon_upload_data

/-- Stage "ensure any self-bootstrapping firmware image is in vram", falcon.c:169-182,
then the upload. -/
def falcon_core (env : falcon_env) : M nvkm_falcon Int := do
  let falcon ← get_obj
  if falcon.data.data.isNone ∧ falcon.core.isNone then do
    emit (.gpuobj_new falcon.code.size)
    let ret := env.gpuobj_new.1
    if ret ≠ 0 then do
      emit (.error .core_allocation_failed)
      pure ret
    else do
      set_obj { falcon with core := some env.gpuobj_new.2 }
      emits (for_loop 4 (fun i => [.wo32 i (word falcon.code.data (i / 4))])
        falcon.code.size 0 falcon.code.size)
      falcon_upload env
  else
    falcon_upload env

/-- Stage "next step is to try and load static code/data segment firmware images",
falcon.c:131-164, then the core buffer. -/
def falcon_firmware_split (env : falcon_env) : M nvkm_falcon Int := do
  let falcon ← get_obj
  if falcon.code.data.isNone then do
    emit (.request_firmware .d)
    match env.request_firmware .d with
    | none => do
      emit (.error .unable_to_load_firmware_data)
      pure (-ENODEV)
    | some fw => do
      let falcon := { falcon with
        data := { falcon.data with data := vmemdup (env.vmemdup_ok .d) fw, size := fw.size } }
      set_obj falcon
      if falcon.data.data.isNone then
        pure (-ENOMEM)
      else do
        emit (.request_firmware .c)
        match env.request_firmware .c with
        | none => do
          emit (.error .unable_to_load_firmware_code)
          pure (-ENODEV)
        | some fw => do
          let falcon := { falcon with
            code := { falcon.code with
              data := vmemdup (env.vmemdup_ok .c) fw, size := fw.size } }
          set_obj falcon
          if falcon.code.data.isNone then
            pure (-ENOMEM)
          else
            falcon_core env
  else
    falcon_core env

/-- Stage "no default ucode provided by the engine implementation, try and locate a
self-bootstrapping firmware image for the engine", falcon.c:112-129, then the
split images. -/
def falcon_firmware (env : falcon_env) : M nvkm_falcon Int := do
  let falcon ← get_obj
  if falcon.code.data.isNone then do
    emit (.request_firmware .self)
    match env.request_firmware .self with
    | some fw =>
      set_obj { falcon with
        code := { falcon.code with
          data := vmemdup (env.vmemdup_ok .self) fw, size := fw.size },
        data := { falcon.data with data := none, size := 0 },
        external := true }
    | none =>
      set_obj { falcon with external := true }
    falcon_firmware_split env
  else
    falcon_firmware_split env

/-- Stages "wait for uc halted to be signalled before continuing" and "disable all
interrupts", falcon.c:93-110, then the firmware resolution. The results of the two
polls are discarded, as in the source. -/
def falcon_halt_wait (env : falcon_env) : M nvkm_falcon Int := do
  let falcon ← get_obj
  let base := falcon.addr
  if falcon.secret ≠ 0 ∧ falcon.version < 4 then do
    if falcon.version = 0 then do
      let _ ← nvkm_msec (do
        let v ← nvkm_rd32 (reg base 0x008)
        pure (decide (v &&& 0x00000010 ≠ 0)))
    else do
      let _ ← nvkm_msec (do
        let v ← nvkm_rd32 (reg base 0x180)
        pure (decide (v &&& 0x80000000 = 0)))
    nvkm_wr32 (reg base 0x004) 0x00000010
  nvkm_wr32 (reg base 0x014) 0xffffffff
  falcon_firmware env

/-- Function `_nvkm_falcon_init(struct nvkm_object *object)`, falcon.c:57-236 (the
`nvkm_debug` lines are left out): "enable engine, and determine its
capabilities", falcon.c:69-91, then the stages above. -/
def _nvkm_falcon_init (env : falcon_env) : M nvkm_falcon Int := do
  let ret := env.engine_init_old
  if ret ≠ 0 then
    pure ret
  else do
    let falcon ← get_obj
    let base := falcon.addr
    if env.chipset < 0xa3 ∨ env.chipset = 0xaa ∨ env.chipset = 0xac then
      set_obj { falcon with
        version := 0, secret := if falcon.addr = 0x087000 then 1 else 0 }
    else do
      let caps ← nvkm_rd32 (reg base 0x12c)
      set_obj { falcon with
        version := caps &&& 0x0000000f, secret := (caps &&& 0x00000030) >>> 4 }
    let caps ← nvkm_rd32 (reg base 0x108)
    let falcon ← get_obj
    set_obj { falcon with
      code := { falcon.code with limit := (caps &&& 0x000001ff) <<< 8 },
      data := { falcon.data with limit := (caps &&& 0x0003fe00) >>> 1 } }
    falcon_halt_wait env

/-- The blob asked for by a `request_firmware` effect. -/
def Event.requested : Event → Option Seg
  | .request_firmware seg => some seg
  | _ => none

/-- The blobs asked for, in order. -/
def requests (t : List Event) : List Seg := t.filterMap Event.requested

/-- Code that always returns, leaves the script and the object alone and only
adds effects satisfying `Q`. -/
def Emits {σ α : Type} (Q : Event → Prop) (m : M σ α) : Prop :=
  ∀ w : World σ, ∃ a t, m w = .ok a ⟨w.reads, w.polls, w.trace ++ t, w.obj⟩ ∧ ∀ e ∈ t, Q e

/-- The size check of falcon.c:195-196 fails on the falcon. -/
def exceeds_limits (falcon : nvkm_falcon) : Prop :=
  falcon.code.size > falcon.code.limit ∨ falcon.data.size > falcon.data.limit

instance (falcon : nvkm_falcon) : Decidable (exceeds_limits falcon) := by
  unfold exceeds_limits
  infer_instance

/-- The falcon after falcon.c:121-128 took the self-bootstrapping blob `fw`. -/
def with_self (falcon : nvkm_falcon) (ok : Bool) (fw : firmware) : nvkm_falcon :=
  { falcon with
    code := { falcon.code with data := vmemdup ok fw, size := fw.size },
    data := { falcon.data with data := none, size := 0 },
    external := true }

/-- The falcon after falcon.c:144-145 took the data blob `fw`. -/
def with_data (falcon : nvkm_falcon) (ok : Bool) (fw : firmware) : nvkm_falcon :=
  { falcon with data := { falcon.data with data := vmemdup ok fw, size := fw.size } }

/-- The falcon after falcon.c:159-160 took the code blob `fw`. -/
def with_code (falcon : nvkm_falcon) (ok : Bool) (fw : firmware) : nvkm_falcon :=
  { falcon with code := { falcon.code with data := vmemdup ok fw, size := fw.size } }

/-- The script answers the reads of `_nvkm_falcon_init`: there is a budget for
the halt poll and a value for each read the call can make (two capability reads
and at most one read per round of the poll). -/
def script_ok {σ : Type} (w : World σ) : Prop :=
  match w.polls with
  | [] => False
  | n :: _ => n + 3 ≤ w.reads.length

instance {σ : Type} (w : World σ) : Decidable (script_ok w) := by
  unfold script_ok
  split <;> infer_instance

/-- The value returned by a run that returned. -/
def Res.ret? {σ α : Type} : Res σ α → Option α
  | .ok a _ => some a
  | .stuck _ => none

/-- A loader that has no blob, with `vmalloc` and `nvkm_gpuobj_new` succeeding, on a
device of chipset 0xc0 whose engine powers up. -/
def env_no_blob : falcon_env :=
  { engine_init_old := 0, chipset := 0xc0, card_type := 0xc0,
    request_firmware := fun _ => none, vmemdup_ok := fun _ => true,
    gpuobj_new := (0, 0x1000) }

/-- The same with a self-bootstrapping blob of 8 bytes and nothing else. -/
def env_self_blob : falcon_env :=
  { env_no_blob with
    request_firmware := fun seg => match seg with
      | .self => some ⟨8, [0xf0, 0xf1]⟩
      | _ => none }

/-- The data port of the falcon: `base + 0xff4` before version 3, `base + 0x1c4`
from version 3 on (falcon.c:219, 225). -/
def data_port (falcon : nvkm_falcon) : Nat :=
  if falcon.version < 3 then reg falcon.addr 0xff4 else reg falcon.addr 0x1c4

/-- The write that opens the data upload (falcon.c:217, 223). -/
def data_select (falcon : nvkm_falcon) : Event :=
  if falcon.version < 3 then .wr (reg falcon.addr 0xff8) 0x00000000
  else .wr (reg falcon.addr 0x1c0) 0x01000000

/-- The number of words of the data image that the first loop of the data upload
writes (falcon.c:218, 224): none when there is a core buffer. -/
def data_words (falcon : nvkm_falcon) : Nat :=
  if falcon.core.isSome then 0 else falcon.data.size / 4

/-- The number of rounds of the zero-fill loop of the data upload: before version
3 the loop `for (; i < data.limit; i += 4)` of falcon.c:220, from version 3 on the
loop `for (; i < data.limit / 4; i++)` of falcon.c:226, both started at
`i = data_words`. -/
def zero_words (falcon : nvkm_falcon) : Nat :=
  if falcon.version < 3 then (falcon.data.limit - data_words falcon + 3) / 4
  else falcon.data.limit / 4 - data_words falcon

/-- A falcon of version `version` with a data image of two words (8 bytes), a code
image of one word, no core buffer and both limits `limit`. -/
def falcon_two_words (version limit : Nat) : nvkm_falcon :=
  { addr := 0x84000, version := version, secret := 0,
    code := ⟨some [0xc0de], 4, limit⟩, data := ⟨some [7, 9], 8, limit⟩,
    external := false, core := none }

/-- The environment `env_no_blob` on a chipset below 0xa3, where the init takes the
falcon to be of version 0. -/
def env_legacy : falcon_env := { env_no_blob with chipset := 0x98, card_type := 0x50 }

/-! ## The index arithmetic of the send ring -/

/-- The test that ends the ring-room wait of `nvkm_pmu_send` (pmu/base.c:48):
`tmp != (addr ^ 8)`, with `addr` the PUT index and `tmp` the GET index read from
0x10a4b0. -/
def room_check (put get : Nat) : Bool := decide (get ≠ put ^^^ 8)

/-- The slot a send writes: `addr & 0x07` (pmu/base.c:69). -/
def send_slot (put : Nat) : Nat := put &&& 0x07

/-- The index after a send or a consume: `(addr + 1) & 0x0f` (pmu/base.c:75, 116). -/
def next_index (addr : Nat) : Nat := u32 (addr + 1) &&& 0x0f

/-- The number of messages sent and not yet consumed: `(PUT - GET) mod 16`. -/
def occupancy (put get : Nat) : Nat := (put + 16 - get) % 16

/-- What happens to the indices `(PUT, GET)` of the send ring. -/
inductive RingOp where
  | send
  | consume
  deriving DecidableEq, Repr

/-- One step of the ring: a send advances PUT when the room check holds (and
else fails, leaving the ring alone); the consumer advances GET when GET != PUT
(the test of pmu/base.c:101 on its own ring) and else has nothing to do. -/
def ring_step (s : Nat × Nat) : RingOp → Nat × Nat
  | .send => if room_check s.1 s.2 = true then (next_index s.1, s.2) else s
  | .consume => if s.2 = s.1 then s else (s.1, next_index s.2)

/-- The indices are in range and at most 8 messages are unconsumed. -/
def RingInv (s : Nat × Nat) : Prop := s.1 < 16 ∧ s.2 < 16 ∧ occupancy s.1 s.2 ≤ 8

/-! ## The interrupt handler of `subdev/pmu/base.c` -/

/-- The complement `~x` of a `u32`. -/
def not32 (x : Nat) : Nat := 0xffffffff ^^^ u32 x

/-- Function `nvkm_pmu_intr(struct nvkm_subdev *subdev)`, pmu/base.c:144-181. The
arguments of the two log lines that read registers are read in the order they are
written, and the lines are recorded as `error_uas`, `info_wr32` and `error_intr`. -/
def nvkm_pmu_intr : M nvkm_pmu Unit := do
  let disp ← nvkm_rd32 0x10a01c
  let status ← nvkm_rd32 0x10a008
  let intr := status &&& disp &&& not32 (disp >>> 16)
  let intr ←
    if intr &&& 0x00000020 ≠ 0 then do
      let stat ← nvkm_rd32 0x10a16c
      if stat &&& 0x80000000 ≠ 0 then do
        let addr ← nvkm_rd32 0x10a168
        emit (.error_uas (stat &&& 0x00ffffff) addr)
        nvkm_wr32 0x10a16c 0x00000000
        pure (intr &&& not32 0x00000020)
      else
        pure intr
    else
      pure intr
  let intr ←
    if intr &&& 0x00000040 ≠ 0 then do
      emit .schedule_work
      nvkm_wr32 0x10a004 0x00000040
      pure (intr &&& not32 0x00000040)
    else
      pure intr
  let intr ←
    if intr &&& 0x00000080 ≠ 0 then do
      let addr ← nvkm_rd32 0x10a7a0
      let val ← nvkm_rd32 0x10a7a4
      emit (.info_wr32 addr val)
      nvkm_wr32 0x10a004 0x00000080
      pure (intr &&& not32 0x00000080)
    else
      pure intr
  if intr ≠ 0 then do
    emit (.error_intr intr)
    nvkm_wr32 0x10a004 intr
  else
    pure ()

/-- The interrupts seen by the handler: `status & disp & ~(disp >> 16)`
(pmu/base.c:150). -/
def intr_of (disp status : Nat) : Nat := status &&& disp &&& not32 (disp >>> 16)

/-- Whether the handler takes the fault path to its end: bit 0x20 of `intr` is set
and bit 31 of the fault status read from 0x10a16c is set (pmu/base.c:152-154). -/
def fault_taken (intr stat : Nat) : Bool :=
  decide (intr &&& 0x00000020 ≠ 0) && decide (stat &&& 0x80000000 ≠ 0)

/-- The values the handler reads after `disp` and `status`: the fault status and
the fault address when bit 0x20 is set, the two debug registers when bit 0x80 is. -/
def intr_reads (intr stat addr dbg_addr dbg_val : Nat) : List Nat :=
  (if intr &&& 0x00000020 ≠ 0 then
    stat :: (if stat &&& 0x80000000 ≠ 0 then [addr] else []) else []) ++
  (if intr &&& 0x00000080 ≠ 0 then [dbg_addr, dbg_val] else [])

/-- The effects of the fault block (pmu/base.c:152-161). -/
def intr_fault_part (intr stat addr : Nat) : List Event :=
  if intr &&& 0x00000020 ≠ 0 then
    .rd 0x10a16c stat ::
      (if stat &&& 0x80000000 ≠ 0 then
        [.rd 0x10a168 addr, .error_uas (stat &&& 0x00ffffff) addr, .wr 0x10a16c 0]
      else [])
  else []

/-- The effects of the message block (pmu/base.c:163-167). -/
def intr_recv_part (intr : Nat) : List Event :=
  if intr &&& 0x00000040 ≠ 0 then [.schedule_work, .wr 0x10a004 0x00000040] else []

/-- The effects of the debug block (pmu/base.c:169-175). -/
def intr_wr32_part (intr dbg_addr dbg_val : Nat) : List Event :=
  if intr &&& 0x00000080 ≠ 0 then
    [.rd 0x10a7a0 dbg_addr, .rd 0x10a7a4 dbg_val, .info_wr32 dbg_addr dbg_val,
     .wr 0x10a004 0x00000080]
  else []

/-- The value of `intr` after the fault block: `intr &= ~0x00000020` when the
fault path was taken to its end (pmu/base.c:159). -/
def intr_after_fault (intr stat : Nat) : Nat :=
  if fault_taken intr stat = true then intr &&& not32 0x00000020 else intr

/-- The value of `intr` after the message block (pmu/base.c:163-167). -/
def intr_after_recv (intr : Nat) : Nat :=
  if intr &&& 0x00000040 ≠ 0 then intr &&& not32 0x00000040 else intr

/-- The value of `intr` after the debug block (pmu/base.c:169-175). -/
def intr_after_wr32 (intr : Nat) : Nat :=
  if intr &&& 0x00000080 ≠ 0 then intr &&& not32 0x00000080 else intr

/-- The bits left for the last block (pmu/base.c:177-180). -/
def intr_rest (intr stat : Nat) : Nat :=
  intr_after_wr32 (intr_after_recv (intr_after_fault intr stat))

/-- The bits that the blocks before the last one deal with: 0x20 when the fault
path was taken to its end, and 0x40 and 0x80. -/
def intr_handled (intr stat : Nat) : Nat :=
  (if fault_taken intr stat = true then 0x00000020 else 0) ||| 0x00000040 ||| 0x00000080

/-- The effects of the last block. -/
def intr_rest_part (intr stat : Nat) : List Event :=
  if intr_rest intr stat ≠ 0 then
    [.error_intr (intr_rest intr stat), .wr 0x10a004 (intr_rest intr stat)]
  else []

/-- The bits that the handler has acknowledged (written to 0x10a004) or cleared at
the source (the write of 0 to 0x10a16c for the fault bit). -/
def intr_covered (intr stat : Nat) : Nat :=
  (if fault_taken intr stat = true then 0x00000020 else 0) |||
  (intr &&& 0x00000040) ||| (intr &&& 0x00000080) ||| intr_rest intr stat

/-! ## The startup of `subdev/pmu/base.c` -/

/-- Modelled from the spec: `nvkm_mask` (`mask32(offset, mask, value)`), a
read-modify-write of a register: the bits of `mask` are replaced by `val`; the
result is the value read. -/
def nvkm_mask {σ : Type} (addr mask val : Nat) : M σ Nat := do
  let temp ← nvkm_rd32 addr
  nvkm_wr32 addr ((temp &&& not32 mask) ||| val)
  pure temp

/-- The static firmware of `struct nvkm_pmu_impl`: `impl->code` and `impl->data`. -/
structure nvkm_pmu_impl where
  code : firmware
  data : firmware
  deriving DecidableEq, Repr

/-- Function `_nvkm_pmu_init(struct nvkm_object *object)`, pmu/base.c:195-263.
`subdev_init` is what `nvkm_subdev_init` returns; the three assignments of
function pointers (pmu/base.c:207-209) have no effect that is modelled. The
results of the first two polls are discarded, as in the source. -/
def _nvkm_pmu_init (subdev_init : Int) (impl : nvkm_pmu_impl) : M nvkm_pmu Int := do
  let ret := subdev_init
  if ret ≠ 0 then
    pure ret
  else do
    nvkm_wr32 0x10a014 0x0000ffff
    let _ ← nvkm_msec (do
      let v ← nvkm_rd32 0x10a04c
      pure (decide (v = 0)))
    let _ ← nvkm_mask 0x000200 0x00002000 0x00000000
    let _ ← nvkm_mask 0x000200 0x00002000 0x00002000
    let _ ← nvkm_rd32 0x000200
    let _ ← nvkm_msec (do
      let v ← nvkm_rd32 0x10a10c
      pure (decide (v &&& 0x00000006 = 0)))
    nvkm_wr32 0x10a1c0 0x01000000
    emits (for_loop 1 (fun i => [.wr 0x10a1c4 (impl.data.data.getD i 0)])
      (impl.data.size / 4) 0 (impl.data.size / 4))
    nvkm_wr32 0x10a180 0x01000000
    emits (for_loop 1
      (fun i =>
        (if i &&& 0x3f = 0 then [Event.wr 0x10a188 (i >>> 6)] else []) ++
        [.wr 0x10a184 (impl.code.data.getD i 0)])
      (impl.code.size / 4) 0 (impl.code.size / 4))
    nvkm_wr32 0x10a10c 0x00000000
    nvkm_wr32 0x10a104 0x00000000
    nvkm_wr32 0x10a100 0x00000002
    let taken ← nvkm_msec (do
      let v ← nvkm_rd32 0x10a4d0
      pure (decide (v ≠ 0)))
    if taken < 0 then
      pure (-EBUSY)
    else do
      let base ← nvkm_rd32 0x10a4d0
      let size ← nvkm_rd32 0x10a4d0
      let pmu ← get_obj
      set_obj { pmu with send := { base := base &&& 0x0000ffff, size := size >>> 16 } }
      let taken ← nvkm_msec (do
        let v ← nvkm_rd32 0x10a4dc
        pure (decide (v ≠ 0)))
      if taken < 0 then
        pure (-EBUSY)
      else do
        let base ← nvkm_rd32 0x10a4dc
        let size ← nvkm_rd32 0x10a4dc
        let pmu ← get_obj
        set_obj { pmu with recv := { pmu.recv with
          base := base &&& 0x0000ffff, size := size >>> 16 } }
        nvkm_wr32 0x10a010 0x000000e0
        pure 0

/-- A PMU firmware of one data word and one code word. -/
def impl_one_word : nvkm_pmu_impl := { code := ⟨4, [0xc0de]⟩, data := ⟨4, [0xda7a]⟩ }

/-- A `pmu` object before its first init (`kzalloc`ed). -/
def pmu0 : nvkm_pmu := ⟨⟨0, 0⟩, ⟨0, 0, 0, 0, 0, 0⟩⟩

/-- A falcon at 0x087000, which the init makes a secret one on a chipset below
0xa3 (falcon.c:74-77), with one code word and one data word, no core buffer. -/
def falcon_secret : nvkm_falcon :=
  { addr := 0x087000, version := 0, secret := 0,
    code := ⟨some [0xc0de], 4, 0⟩, data := ⟨some [0xda7a], 4, 0⟩,
    external := false, core := none }

/-! ## The probe of `engine/falcon.c` as a function of the script -/

/-- The capability word that the read of `base + 0x108` (falcon.c:84) takes from the
script: the first value on the chipsets of falcon.c:74-75, which do not read
`base + 0x12c`, the second value otherwise. -/
def probed_caps (env : falcon_env) (reads : List Nat) : Nat :=
  if env.chipset < 0xa3 ∨ env.chipset = 0xaa ∨ env.chipset = 0xac then reads.getD 0 0
  else reads.getD 1 0

/-- The falcon after "determine its capabilities", falcon.c:74-86, on the script
`reads`: version and secret level from the chipset or from `base + 0x12c`, the two
limits from `base + 0x108`. -/
def falcon_probed (env : falcon_env) (reads : List Nat) (falcon : nvkm_falcon) :
    nvkm_falcon :=
  { falcon with
    version :=
      if env.chipset < 0xa3 ∨ env.chipset = 0xaa ∨ env.chipset = 0xac then 0
      else reads.getD 0 0 &&& 0x0000000f,
    secret :=
      if env.chipset < 0xa3 ∨ env.chipset = 0xaa ∨ env.chipset = 0xac then
        (if falcon.addr = 0x087000 then 1 else 0)
      else (reads.getD 0 0 &&& 0x00000030) >>> 4,
    code := { falcon.code with limit := (probed_caps env reads &&& 0x000001ff) <<< 8 },
    data := { falcon.data with limit := (probed_caps env reads &&& 0x0003fe00) >>> 1 } }

/-- The register writes of falcon.c:93-110: the acknowledgement of the halt, when
the init waited for it, and the interrupt mask. -/
def halt_mask_writes (falcon : nvkm_falcon) : List Event :=
  (if falcon.secret ≠ 0 ∧ falcon.version < 4 then
    [Event.wr (reg falcon.addr 0x004) 0x00000010] else []) ++
  [.wr (reg falcon.addr 0x014) 0xffffffff]

/-- The register writes of the upload through a core buffer at `core_addr`
(falcon.c:185-192), of the data upload that follows it (falcon.c:215-228, zeros
only) and of the start (falcon.c:230-235). -/
def core_boot_writes (env : falcon_env) (falcon : nvkm_falcon) (core_addr : Nat) :
    List Event :=
  [.wr (reg falcon.addr 0x618) (if env.card_type < NV_C0 then 0x04000000 else 0x00000114),
   .wr (reg falcon.addr 0x11c) 0, .wr (reg falcon.addr 0x110) (core_addr >>> 8),
   .wr (reg falcon.addr 0x114) 0, .wr (reg falcon.addr 0x118) 0x00006610] ++
  (data_select falcon :: List.replicate (zero_words falcon) (.wr (data_port falcon) 0)) ++
  [.wr (reg falcon.addr 0x10c) 0x00000001, .wr (reg falcon.addr 0x104) 0x00000000,
   .wr (reg falcon.addr 0x100) 0x00000002, .wr (reg falcon.addr 0x048) 0x00000003]

/-! ## Theorems: engine reference counting -/

theorem s32_inRange (x : Int) : InRange (s32 x) := by
  unfold InRange s32
  omega

theorem s32_succ_eq_one {u : Int} (h : InRange u) : s32 (u + 1) = 1 ↔ u = 0 := by
  unfold InRange at h
  unfold s32
  omega

theorem s32_pred_succ {u : Int} (h : InRange u) : s32 (s32 (u + 1) - 1) = u := by
  unfold InRange at h
  unfold s32
  omega

theorem engine_step_inRange (c : Call) (e : nvkm_engine) :
    InRange (engine_step c e).2.usecount := by
  cases c with
  | ref r =>
    simp only [engine_step, nvkm_engine_ref]
    split_ifs <;> exact s32_inRange _
  | unref =>
    simp only [engine_step, nvkm_engine_unref]
    split_ifs <;> exact s32_inRange _

/-- What one call does, for an engine whose `usecount` is a C `int`. -/
theorem engine_step_spec (c : Call) (e : nvkm_engine) (h : InRange e.usecount) :
    let s := (engine_step c e).1
    s.call = c ∧ s.pre = e.usecount ∧ s.post = (engine_step c e).2.usecount ∧
    s.events.count .subdev_init = (if c.isRef = true ∧ s.pre = 0 then 1 else 0) ∧
    s.events.count (.subdev_fini false) =
      (if c.isRef = false ∧ s.post = 0 then 1 else 0) ∧
    Event.subdev_fini true ∉ s.events ∧
    s.initSucceeded = s.zeroToOne := by
  cases c with
  | ref r =>
    have h1 := s32_succ_eq_one h
    have h2 := s32_pred_succ h
    have h3 := s32_inRange (e.usecount + 1)
    simp only [engine_step, nvkm_engine_ref, Step.initSucceeded, Step.zeroToOne, Call.isRef,
      Call.initOk]
    have e1 : s32 1 = 1 := by decide
    have e0 : s32 0 = 0 := by decide
    by_cases hu : s32 (e.usecount + 1) = 1
    · have hz : e.usecount = 0 := h1.mp hu
      by_cases hr : r = 0
      · simp [hr, hz, e1]
      · simp [hr, hz, e1, e0]
    · have hz : ¬ e.usecount = 0 := fun hz => hu (h1.mpr hz)
      simp only [if_neg hu]
      simp [hz]
  | unref =>
    simp only [engine_step, nvkm_engine_unref, Step.initSucceeded, Step.zeroToOne, Call.isRef,
      Call.initOk]
    by_cases hu : s32 (e.usecount - 1) = 0
    · simp only [if_pos hu]
      simp [hu]
    · simp only [if_neg hu]
      simp only [hu]
      simp
      intro hz
      rw [hz]
      decide

/-- Every step of a run satisfies the one-call specification. -/
theorem engine_run_spec (calls : List Call) (e : nvkm_engine) (h : InRange e.usecount) :
    ∀ s ∈ engine_run calls e,
      s.events.count .subdev_init = (if s.call.isRef = true ∧ s.pre = 0 then 1 else 0) ∧
      s.events.count (.subdev_fini false) =
        (if s.call.isRef = false ∧ s.post = 0 then 1 else 0) ∧
      Event.subdev_fini true ∉ s.events ∧
      s.initSucceeded = s.zeroToOne := by
  induction calls generalizing e with
  | nil => intro s hs; simp [engine_run] at hs
  | cons c cs ih =>
    intro s hs
    simp only [engine_run, List.mem_cons] at hs
    rcases hs with rfl | hs
    · obtain ⟨hc, _, _, h1, h2, h3, h4⟩ := engine_step_spec c e h
      rw [hc]
      exact ⟨h1, h2, h3, h4⟩
    · exact ih _ (engine_step_inRange c e) s hs

/-- The steps of a run are the given calls, in order. -/
theorem engine_run_calls (calls : List Call) (e : nvkm_engine) :
    (engine_run calls e).map (fun s => s.call) = calls := by
  induction calls generalizing e with
  | nil => rfl
  | cons c cs ih =>
    simp only [engine_run, List.map_cons, ih]
    cases c <;> rfl

/-- Each step of a run starts from the `usecount` the previous step left. -/
theorem engine_run_chain (calls : List Call) (e : nvkm_engine) :
    (engine_run calls e).map (fun s => s.pre) =
      (e.usecount :: (engine_run calls e).map (fun s => s.post)).dropLast := by
  induction calls generalizing e with
  | nil => rfl
  | cons c cs ih =>
    have hpre : (engine_step c e).1.pre = e.usecount := by cases c <;> rfl
    have hpost : (engine_step c e).1.post = (engine_step c e).2.usecount := by cases c <;> rfl
    simp only [engine_run, List.map_cons, List.dropLast_cons₂, ih, hpre, hpost]

/-- C1: over any finite sequence of `nvkm_engine_ref` / `nvkm_engine_unref` calls on
one non-null engine starting at `usecount` 0, `nvkm_subdev_init` is invoked (once) by
exactly the `ref` calls made at `usecount` 0, `nvkm_subdev_fini(false)` is invoked
(once) by exactly the `unref` calls that bring `usecount` to 0, `nvkm_subdev_fini(true)`
is never invoked, and the number of succeeding init invocations is the number of
0 -> 1 transitions; `ref, ref, unref, unref` with a succeeding init invokes init on
the first call and fini on the last one only. (The statement does not need the
assumption that `unref` is never called at `usecount` 0.) -/
theorem c1_init_fini_on_transitions (func : nvkm_engine_func) (oclass : Bool)
    (calls : List Call) :
    (engine_run calls (engine0 func oclass)).map (fun s => s.call) = calls ∧
    (engine_run calls (engine0 func oclass)).map (fun s => s.pre) =
      ((0 : Int) :: (engine_run calls (engine0 func oclass)).map (fun s => s.post)).dropLast ∧
    (∀ s ∈ engine_run calls (engine0 func oclass),
      s.events.count .subdev_init = (if s.call.isRef = true ∧ s.pre = 0 then 1 else 0) ∧
      s.events.count (.subdev_fini false) =
        (if s.call.isRef = false ∧ s.post = 0 then 1 else 0) ∧
      Event.subdev_fini true ∉ s.events) ∧
    ((engine_run calls (engine0 func oclass)).filter Step.initSucceeded).length =
      ((engine_run calls (engine0 func oclass)).filter Step.zeroToOne).length ∧
    (engine_run [.ref 0, .ref 0, .unref, .unref] (engine0 func oclass)).map
        (fun s => (s.pre, s.events, s.post)) =
      [(0, [.mutex_lock, .subdev_init, .mutex_unlock], 1),
       (1, [.mutex_lock, .mutex_unlock], 2),
       (2, [.mutex_lock, .mutex_unlock], 1),
       (1, [.mutex_lock, .subdev_fini false, .mutex_unlock], 0)] := by
  have h0 : InRange (engine0 func oclass).usecount := by
    simp [InRange, engine0]
  have hs := engine_run_spec calls (engine0 func oclass) h0
  refine ⟨engine_run_calls calls _, engine_run_chain calls _, ?_, ?_, ?_⟩
  · intro s hmem
    obtain ⟨h1, h2, h3, _⟩ := hs s hmem
    exact ⟨h1, h2, h3⟩
  · congr 1
    apply List.filter_congr
    intro s hmem
    exact (hs s hmem).2.2.2
  · rfl

/-- C2: when `nvkm_subdev_init` fails with `ret` on an engine at `usecount` 0,
`nvkm_engine_ref` returns `ERR_PTR(ret)`, leaves the engine (so its `usecount`, 0)
as it was, and does not invoke `nvkm_subdev_fini`. -/
theorem c2_ref_init_failure (ret : Int) (e : nvkm_engine) (h0 : e.usecount = 0)
    (hret : ret ≠ 0) :
    (nvkm_engine_ref ret .engine e).1 = .ERR_PTR ret ∧
    (nvkm_engine_ref ret .engine e).2.1.usecount = e.usecount ∧
    (nvkm_engine_ref ret .engine e).2.1.usecount = 0 ∧
    (nvkm_engine_ref ret .engine e).2.1 = e ∧
    (∀ suspend, Event.subdev_fini suspend ∉ (nvkm_engine_ref ret .engine e).2.2) ∧
    (nvkm_engine_ref ret .engine e).2.2 = [.mutex_lock, .subdev_init, .mutex_unlock] := by
  have e1 : s32 1 = 1 := by decide
  have e0 : s32 0 = 0 := by decide
  obtain ⟨u, f, o, c⟩ := e
  simp only at h0
  subst h0
  simp [nvkm_engine_ref, e1, e0, hret]

theorem c2_ref_init_failure_witness :
    (nvkm_engine_ref (-19) .engine (engine0 ⟨true, true⟩ false)).1 = .ERR_PTR (-19) ∧
    (nvkm_engine_ref (-19) .engine (engine0 ⟨true, true⟩ false)).2.1.usecount = 0 :=
  have h := c2_ref_init_failure (-19) (engine0 ⟨true, true⟩ false) rfl (by decide)
  ⟨h.1, h.2.2.1⟩

/-! ## Theorems: one-time initialisation in `nvkm_engine_init` -/

/-- What one `nvkm_engine_init` call does on an engine with users, no legacy
object class and a one-time hook. -/
theorem nvkm_engine_init_spec (h : Hooks) (e : nvkm_engine) (hu : e.usecount ≠ 0)
    (ho : e.oclass = false) (h1 : e.func.oneinit = true) :
    let out := nvkm_engine_init h e
    out.2.1.usecount = e.usecount ∧ out.2.1.oclass = e.oclass ∧ out.2.1.func = e.func ∧
    (Event.func_oneinit ∈ out.2.2 ↔ e.subdev_oneinit = false) ∧
    out.2.2.count .func_oneinit ≤ 1 ∧
    (out.2.1.subdev_oneinit = true ↔
      e.subdev_oneinit = true ∨ (Event.func_oneinit ∈ out.2.2 ∧ h.oneinit = 0)) ∧
    (e.subdev_oneinit = false → h.oneinit ≠ 0 →
      out.1 = h.oneinit ∧ Event.func_init ∉ out.2.2 ∧ out.2.1.subdev_oneinit = false) ∧
    (e.subdev_oneinit = true ∨ h.oneinit = 0 →
      (Event.func_init ∈ out.2.2 ↔ e.func.init = true) ∧
      out.2.2.count .func_init ≤ 1 ∧
      out.1 = (if e.func.init = true then h.init else 0)) := by
  obtain ⟨u, ⟨fo, fi⟩, flag, oc⟩ := e
  simp only at hu ho h1
  subst ho h1
  cases flag <;> cases fi <;> by_cases hz : h.oneinit = 0 <;>
    simp [nvkm_engine_init, hu, hz]

/-- Once the flag is set, no later call of the run invokes the one-time hook,
and each of them runs `func->init` when the engine has one. -/
theorem engine_init_run_latched (hs : List Hooks) (e : nvkm_engine) (hu : e.usecount ≠ 0)
    (ho : e.oclass = false) (h1 : e.func.oneinit = true) (hf : e.subdev_oneinit = true) :
    ∀ s ∈ engine_init_run hs e,
      Event.func_oneinit ∉ s.events ∧ s.oneinitSucceeded = false ∧
      (e.func.init = true → Event.func_init ∈ s.events) := by
  induction hs generalizing e with
  | nil => intro s hmem; simp [engine_init_run] at hmem
  | cons h hs ih =>
    intro s hmem
    obtain ⟨k1, k2, k3, k4, _, k6, _, k8⟩ := nvkm_engine_init_spec h e hu ho h1
    simp only [engine_init_run, List.mem_cons] at hmem
    rcases hmem with rfl | hmem
    · have hno : Event.func_oneinit ∉ (nvkm_engine_init h e).2.2 := by
        rw [k4, hf]; simp
      refine ⟨hno, ?_, ?_⟩
      · simp [InitStep.oneinitSucceeded, hno]
      · intro hi
        exact (k8 (Or.inl hf)).1.mpr hi
    · have := ih (nvkm_engine_init h e).2.1 (k1 ▸ hu) (k2 ▸ ho) (k3 ▸ h1)
        (k6.mpr (Or.inl hf)) s hmem
      rw [k3] at this
      exact this

/-- Every call of a run satisfies the one-call specification, on an engine that
still has its users, no legacy class and its one-time hook. -/
theorem engine_init_run_spec (hs : List Hooks) (e : nvkm_engine) (hu : e.usecount ≠ 0)
    (ho : e.oclass = false) (h1 : e.func.oneinit = true) :
    ∀ s ∈ engine_init_run hs e,
      (Event.func_oneinit ∈ s.events ↔ s.pre.subdev_oneinit = false) ∧
      s.events.count .func_oneinit ≤ 1 ∧
      (s.post.subdev_oneinit = true ↔
        s.pre.subdev_oneinit = true ∨ s.oneinitSucceeded = true) ∧
      (s.pre.subdev_oneinit = false → s.hooks.oneinit ≠ 0 →
        s.ret = s.hooks.oneinit ∧ Event.func_init ∉ s.events ∧
        s.post.subdev_oneinit = false) ∧
      (s.pre.subdev_oneinit = true ∨ s.hooks.oneinit = 0 →
        (Event.func_init ∈ s.events ↔ e.func.init = true) ∧
        s.events.count .func_init ≤ 1 ∧
        s.ret = (if e.func.init = true then s.hooks.init else 0)) := by
  induction hs generalizing e with
  | nil => intro s hmem; simp [engine_init_run] at hmem
  | cons h hs ih =>
    intro s hmem
    obtain ⟨k1, k2, k3, k4, k5, k6, k7, k8⟩ := nvkm_engine_init_spec h e hu ho h1
    simp only [engine_init_run, List.mem_cons] at hmem
    rcases hmem with rfl | hmem
    · refine ⟨k4, k5, ?_, k7, k8⟩
      simp only [InitStep.oneinitSucceeded, Bool.and_eq_true, decide_eq_true_eq]
      exact k6
    · have := ih (nvkm_engine_init h e).2.1 (k1 ▸ hu) (k2 ▸ ho) (k3 ▸ h1) s hmem
      rw [k3] at this
      exact this

/-- The one-time hook succeeds at most once in a run, and after it has succeeded
it is not invoked again while `func->init` keeps running. -/
theorem engine_init_run_once (hs : List Hooks) (e : nvkm_engine) (hu : e.usecount ≠ 0)
    (ho : e.oclass = false) (h1 : e.func.oneinit = true) :
    ((engine_init_run hs e).filter InitStep.oneinitSucceeded).length ≤ 1 ∧
    (engine_init_run hs e).Pairwise (fun a b => a.oneinitSucceeded = true →
      Event.func_oneinit ∉ b.events ∧ b.post.subdev_oneinit = true ∧
      (e.func.init = true → Event.func_init ∈ b.events)) := by
  induction hs generalizing e with
  | nil => simp [engine_init_run]
  | cons h hs ih =>
    obtain ⟨k1, k2, k3, k4, k5, k6, k7, k8⟩ := nvkm_engine_init_spec h e hu ho h1
    have hu2 : (nvkm_engine_init h e).2.1.usecount ≠ 0 := k1 ▸ hu
    have ho2 : (nvkm_engine_init h e).2.1.oclass = false := k2 ▸ ho
    have h12 : (nvkm_engine_init h e).2.1.func.oneinit = true := k3 ▸ h1
    obtain ⟨i1, i2⟩ := ih (nvkm_engine_init h e).2.1 hu2 ho2 h12
    rw [k3] at i2
    simp only [engine_init_run]
    by_cases hsucc : InitStep.oneinitSucceeded
        ⟨e, h, (nvkm_engine_init h e).1, (nvkm_engine_init h e).2.1,
          (nvkm_engine_init h e).2.2⟩ = true
    · have hflag : (nvkm_engine_init h e).2.1.subdev_oneinit = true := by
        simp only [InitStep.oneinitSucceeded, Bool.and_eq_true, decide_eq_true_eq] at hsucc
        exact k6.mpr (Or.inr hsucc)
      have hl := engine_init_run_latched hs _ hu2 ho2 h12 hflag
      have hsp := engine_init_run_spec hs _ hu2 ho2 h12
      rw [k3] at hl
      constructor
      · rw [List.filter_cons_of_pos hsucc]
        have : (engine_init_run hs (nvkm_engine_init h e).2.1).filter
            InitStep.oneinitSucceeded = [] := by
          rw [List.filter_eq_nil_iff]
          intro s hmem
          simp [(hl s hmem).2.1]
        rw [this]
        simp
      · refine List.Pairwise.cons ?_ i2
        intro b hb _
        refine ⟨(hl b hb).1, ?_, (hl b hb).2.2⟩
        have hpre : b.pre.subdev_oneinit = true := by
          by_contra hne
          have hfalse : b.pre.subdev_oneinit = false := by
            cases hb2 : b.pre.subdev_oneinit
            · rfl
            · exact absurd hb2 hne
          exact (hl b hb).1 ((hsp b hb).1.mpr hfalse)
        exact (hsp b hb).2.2.1.mpr (Or.inl hpre)
    · constructor
      · rw [List.filter_cons_of_neg hsucc]
        exact i1
      · refine List.Pairwise.cons ?_ i2
        intro b _ hb
        exact absurd hb hsucc

/-- The calls of a run receive the given callback results in order, and each call
starts from the engine the previous one left. -/
theorem engine_init_run_chain (hs : List Hooks) (e : nvkm_engine) :
    (engine_init_run hs e).map (fun s => s.hooks) = hs ∧
    (engine_init_run hs e).map (fun s => s.pre) =
      (e :: (engine_init_run hs e).map (fun s => s.post)).dropLast := by
  induction hs generalizing e with
  | nil => exact ⟨rfl, rfl⟩
  | cons h hs ih =>
    obtain ⟨i1, i2⟩ := ih (nvkm_engine_init h e).2.1
    exact ⟨by simp only [engine_init_run, List.map_cons, i1],
      by simp only [engine_init_run, List.map_cons, List.dropLast_cons₂, i2]⟩

/-- C10: over any sequence of `nvkm_engine_init` calls on one engine with
`usecount > 0`, no legacy object class and a `func->oneinit` hook: a call invokes the
hook (once) iff `subdev.oneinit` is false at that call; the flag is true after a call
iff it was true before or the hook was invoked and returned 0 (so it is never
cleared); the hook succeeds at most once in the sequence and, after it has succeeded,
no later call invokes it while each later call still runs `func->init` (when the
engine has that callback); a failing hook makes the call return the hook's error
without running `func->init` and leaves the flag false. -/
theorem c10_oneinit_latched (e : nvkm_engine) (hs : List Hooks) (hu : 0 < e.usecount)
    (ho : e.oclass = false) (h1 : e.func.oneinit = true) :
    (engine_init_run hs e).map (fun s => s.hooks) = hs ∧
    (engine_init_run hs e).map (fun s => s.pre) =
      (e :: (engine_init_run hs e).map (fun s => s.post)).dropLast ∧
    (∀ s ∈ engine_init_run hs e,
      (Event.func_oneinit ∈ s.events ↔ s.pre.subdev_oneinit = false) ∧
      s.events.count .func_oneinit ≤ 1 ∧
      (s.post.subdev_oneinit = true ↔
        s.pre.subdev_oneinit = true ∨ s.oneinitSucceeded = true) ∧
      (s.pre.subdev_oneinit = false → s.hooks.oneinit ≠ 0 →
        s.ret = s.hooks.oneinit ∧ Event.func_init ∉ s.events ∧
        s.post.subdev_oneinit = false) ∧
      (s.pre.subdev_oneinit = true ∨ s.hooks.oneinit = 0 →
        (Event.func_init ∈ s.events ↔ e.func.init = true) ∧
        s.events.count .func_init ≤ 1 ∧
        s.ret = (if e.func.init = true then s.hooks.init else 0))) ∧
    ((engine_init_run hs e).filter InitStep.oneinitSucceeded).length ≤ 1 ∧
    (engine_init_run hs e).Pairwise (fun a b => a.oneinitSucceeded = true →
      Event.func_oneinit ∉ b.events ∧ b.post.subdev_oneinit = true ∧
      (e.func.init = true → Event.func_init ∈ b.events)) := by
  have hu0 : e.usecount ≠ 0 := by omega
  exact ⟨(engine_init_run_chain hs e).1, (engine_init_run_chain hs e).2,
    engine_init_run_spec hs e hu0 ho h1, (engine_init_run_once hs e hu0 ho h1).1,
    (engine_init_run_once hs e hu0 ho h1).2⟩

theorem c10_oneinit_latched_witness :
    (engine_init_run [⟨0, -5, 0⟩, ⟨0, 0, 0⟩, ⟨0, 0, 7⟩]
        ⟨1, ⟨true, true⟩, false, false⟩).map (fun s => (s.ret, s.events)) =
      [(-5, [.func_oneinit]), (0, [.func_oneinit, .func_init]), (7, [.func_init])] ∧
    ((engine_init_run [⟨0, -5, 0⟩, ⟨0, 0, 0⟩, ⟨0, 0, 7⟩]
        ⟨1, ⟨true, true⟩, false, false⟩).filter InitStep.oneinitSucceeded).length ≤ 1 :=
  ⟨by decide,
    (c10_oneinit_latched ⟨1, ⟨true, true⟩, false, false⟩ [⟨0, -5, 0⟩, ⟨0, 0, 0⟩, ⟨0, 0, 7⟩]
      (by decide) rfl rfl).2.2.2.1⟩

/-! ## Theorems: the register port -/

theorem bind_eq {σ α β : Type} (m : M σ α) (f : α → M σ β) (w : World σ) :
    (m >>= f) w = match m w with
      | .ok a w1 => f a w1
      | .stuck w1 => .stuck w1 := rfl

theorem pure_eq {σ α : Type} (a : α) (w : World σ) : (pure a : M σ α) w = .ok a w := rfl

/-- A handshake that reads `busy` and then the code succeeds with the effects
`handshake code busy`. -/
theorem spin_append (code : Nat) (busy rest : List Nat) (h : ∀ v ∈ busy, v ≠ code) :
    spin code (busy ++ code :: rest) = (handshake code busy, some rest) := by
  induction busy with
  | nil => simp [spin, handshake]
  | cons v busy ih =>
    have hv : v ≠ code := h v (List.mem_cons_self _ _)
    have ih2 := ih (fun x hx => h x (List.mem_cons_of_mem _ hx))
    simp [spin, handshake, hv, ih2]

theorem acquire_data_segment_append {σ : Type} (code : Nat) (busy rest polls : List Nat)
    (trace : List Event) (obj : σ) (h : ∀ v ∈ busy, v ≠ code) :
    acquire_data_segment code ⟨busy ++ code :: rest, polls, trace, obj⟩ =
      .ok () ⟨rest, polls, trace ++ handshake code busy, obj⟩ := by
  simp [acquire_data_segment, spin_append code busy rest h]

/-- A poll whose body reads one register and breaks when `p` holds of the value:
it ends without a timeout when a value satisfying `p` is read within the budget. -/
theorem nvkm_msec_loop_break {σ : Type} (addr : Nat) (p : Nat → Bool) (n : Nat)
    (busy : List Nat) (g : Nat) (rest polls : List Nat) (trace : List Event) (obj : σ)
    (hbusy : ∀ v ∈ busy, p v = false) (hg : p g = true) (hlen : busy.length ≤ n) :
    nvkm_msec_loop (nvkm_rd32 addr >>= fun tmp => pure (p tmp)) n
        (⟨busy ++ g :: rest, polls, trace, obj⟩ : World σ) =
      .ok 0 ⟨rest, polls, trace ++ (busy.map (Event.rd addr) ++ [.rd addr g]), obj⟩ := by
  induction n generalizing busy trace with
  | zero =>
    have : busy = [] := List.length_eq_zero.mp (Nat.le_zero.mp hlen)
    subst this
    simp [nvkm_msec_loop, bind_eq, nvkm_rd32, pure_eq, hg]
  | succ n ih =>
    cases busy with
    | nil => simp [nvkm_msec_loop, bind_eq, nvkm_rd32, pure_eq, hg]
    | cons v busy =>
      have hv : p v = false := hbusy v (List.mem_cons_self _ _)
      have ih2 := ih busy (trace ++ [.rd addr v])
        (fun x hx => hbusy x (List.mem_cons_of_mem _ hx))
        (by simpa using hlen)
      simp [nvkm_msec_loop, bind_eq, nvkm_rd32, pure_eq, hv, ih2]

/-- The same poll times out when every run of its body within the budget reads a
value that does not satisfy `p`. -/
theorem nvkm_msec_loop_timeout {σ : Type} (addr : Nat) (p : Nat → Bool) (n : Nat)
    (busy rest polls : List Nat) (trace : List Event) (obj : σ)
    (hbusy : ∀ v ∈ busy, p v = false) (hlen : busy.length = n + 1) :
    nvkm_msec_loop (nvkm_rd32 addr >>= fun tmp => pure (p tmp)) n
        (⟨busy ++ rest, polls, trace, obj⟩ : World σ) =
      .ok (-ETIMEDOUT) ⟨rest, polls, trace ++ busy.map (Event.rd addr), obj⟩ := by
  induction n generalizing busy trace with
  | zero =>
    match busy, hlen, hbusy with
    | [v], _, hbusy =>
      have hv : p v = false := hbusy v (List.mem_cons_self _ _)
      simp [nvkm_msec_loop, bind_eq, nvkm_rd32, pure_eq, hv]
  | succ n ih =>
    match busy, hlen, hbusy with
    | v :: busy, hlen, hbusy =>
      have hv : p v = false := hbusy v (List.mem_cons_self _ _)
      have ih2 := ih busy (trace ++ [.rd addr v])
        (fun x hx => hbusy x (List.mem_cons_of_mem _ hx))
        (by simpa using hlen)
      simp [nvkm_msec_loop, bind_eq, nvkm_rd32, pure_eq, hv, ih2]

/-- A handshake consists of register accesses only. -/
theorem handshake_port (code : Nat) (busy : List Nat) :
    ∀ e ∈ handshake code busy, (e.isRd || e.isWr) = true := by
  induction busy with
  | nil => intro e he; simp [handshake] at he; rcases he with rfl | rfl <;> rfl
  | cons v busy ih =>
    intro e he
    simp only [handshake, List.mem_cons] at he
    rcases he with rfl | rfl | he
    · rfl
    · rfl
    · exact ih e he

/-- Consuming a slot consists of register accesses only. -/
theorem recv_consume_port (base get put : Nat) (busy : List Nat)
    (process message data0 data1 : Nat) :
    ∀ e ∈ recv_consume base get put busy process message data0 data1,
      (e.isRd || e.isWr) = true := by
  intro e he
  simp only [recv_consume, List.mem_append, List.mem_cons, List.mem_singleton,
    List.not_mem_nil, or_false] at he
  rcases he with ((rfl | rfl) | he) | he
  · rfl
  · rfl
  · exact handshake_port 2 busy e he
  · rcases he with rfl | rfl | rfl | rfl | rfl | rfl | rfl <;> rfl

theorem nvkm_rd32_cons {σ : Type} (addr v : Nat) (rest polls : List Nat)
    (trace : List Event) (obj : σ) :
    nvkm_rd32 addr (⟨v :: rest, polls, trace, obj⟩ : World σ) =
      .ok v ⟨rest, polls, trace ++ [.rd addr v], obj⟩ := rfl

theorem nvkm_msec_cons {σ : Type} (cond : M σ Bool) (n : Nat) (reads polls : List Nat)
    (trace : List Event) (obj : σ) :
    nvkm_msec cond (⟨reads, n :: polls, trace, obj⟩ : World σ) =
      nvkm_msec_loop cond n ⟨reads, polls, trace, obj⟩ := rfl

/-! ## Theorems: the PMU message channel -/

/-- C5: when `nvkm_pmu_recv` reads a message (GET != PUT) while no reply is pending
(`recv.process == 0`) or whose (process, message) differs from the pending key in
at least one field, it returns normally with the whole `pmu` object (pending key and
stored reply words included) unchanged; its effects are those of consuming the slot
(GET advanced by one) followed by exactly one warning carrying the four words, and
no waiter is woken. -/
theorem c5_unsolicited_only_warns (w : World nvkm_pmu)
    (get put process message data0 data1 : Nat) (busy rest : List Nat)
    (hreads : w.reads = get :: put :: (busy ++ 2 :: process :: message :: data0 :: data1 :: rest))
    (hbusy : ∀ v ∈ busy, v ≠ 2) (hne : get ≠ put)
    (hkey : w.obj.recv.process = 0 ∨ process ≠ w.obj.recv.process ∨
      message ≠ w.obj.recv.message) :
    nvkm_pmu_recv w = .ok () { w with
      reads := rest,
      trace := w.trace ++ (recv_consume w.obj.recv.base get put busy process message data0 data1
        ++ [Event.warn process message data0 data1]) } ∧
    (nvkm_pmu_recv w).world.obj = w.obj ∧
    Event.wake_up ∉ recv_consume w.obj.recv.base get put busy process message data0 data1
      ++ [Event.warn process message data0 data1] ∧
    (∀ p, Event.set_recv_process p ∉
      recv_consume w.obj.recv.base get put busy process message data0 data1
        ++ [Event.warn process message data0 data1]) ∧
    ((recv_consume w.obj.recv.base get put busy process message data0 data1
      ++ [Event.warn process message data0 data1]).filter
        (fun (e : Event) => !(e.isRd || e.isWr))) = [Event.warn process message data0 data1] := by
  obtain ⟨reads, polls, trace, obj⟩ := w
  simp only at hreads hkey
  subst hreads
  have hrun : nvkm_pmu_recv ⟨get :: put :: (busy ++ 2 :: process :: message :: data0 :: data1 :: rest),
      polls, trace, obj⟩ = .ok () ⟨rest, polls,
        trace ++ (recv_consume obj.recv.base get put busy process message data0 data1
          ++ [.warn process message data0 data1]), obj⟩ := by
    have hc : ¬ (¬ obj.recv.process = 0 ∧ process = obj.recv.process ∧
        message = obj.recv.message) := by
      rintro ⟨h1, h2, h3⟩
      rcases hkey with h | h | h
      · exact h1 h
      · exact h h2
      · exact h h3
    simp [nvkm_pmu_recv, bind_eq, pure_eq, nvkm_rd32, nvkm_wr32, emit, get_obj, hne,
      acquire_data_segment_append 2 busy _ polls _ obj hbusy, hc, recv_consume]
  refine ⟨hrun, ?_, ?_, ?_, ?_⟩
  · rw [hrun]; rfl
  · intro hmem
    rcases List.mem_append.mp hmem with h | h
    · exact absurd (recv_consume_port _ _ _ _ _ _ _ _ _ h) (by decide)
    · simp at h
  · intro p hmem
    rcases List.mem_append.mp hmem with h | h
    · exact absurd (recv_consume_port _ _ _ _ _ _ _ _ _ h) (by simp [Event.isRd, Event.isWr])
    · simp at h
  · rw [List.filter_append]
    have : (recv_consume obj.recv.base get put busy process message data0 data1).filter
        (fun (e : Event) => !(e.isRd || e.isWr)) = [] := by
      rw [List.filter_eq_nil_iff]
      intro e he
      simp [recv_consume_port _ _ _ _ _ _ _ _ e he]
    rw [this]
    rfl

theorem c5_unsolicited_only_warns_witness :
    nvkm_pmu_recv ⟨[1, 2, 0, 2, 0x58585858, 7, 8, 9], [], [],
        ⟨⟨0x100, 0x40⟩, ⟨0x200, 0x40, 0x54534554, 7, 3, 4⟩⟩⟩ =
      .ok () ⟨[], [],
        [.rd 0x10a4cc 1, .rd 0x10a4c8 2, .wr 0x10a580 2, .rd 0x10a580 0, .wr 0x10a580 2,
         .rd 0x10a580 2, .wr 0x10a1c0 0x02000210, .rd 0x10a1c4 0x58585858, .rd 0x10a1c4 7,
         .rd 0x10a1c4 8, .rd 0x10a1c4 9, .wr 0x10a4cc 2, .wr 0x10a580 0,
         .warn 0x58585858 7 8 9],
        ⟨⟨0x100, 0x40⟩, ⟨0x200, 0x40, 0x54534554, 7, 3, 4⟩⟩⟩ :=
  (c5_unsolicited_only_warns
    ⟨[1, 2, 0, 2, 0x58585858, 7, 8, 9], [], [],
      ⟨⟨0x100, 0x40⟩, ⟨0x200, 0x40, 0x54534554, 7, 3, 4⟩⟩⟩
    1 2 0x58585858 7 8 9 [0] [] rfl (by decide) (by decide) (Or.inr (Or.inl (by decide)))).1

/-- C6: when the ring-room poll of `nvkm_pmu_send` times out (every read of
0x10a4b0 within the budget returns PUT xor 8), the call, with or without a reply
buffer, returns `-EBUSY`; the `pmu` object (pending key included) is unchanged and
the only effects of the call are register reads: no mutex is taken and no register
is written. -/
theorem c6_send_timeout_is_busy (reply : Bool) (process message data0 data1 work : Nat)
    (w : World nvkm_pmu) (put n : Nat) (busy rest polls : List Nat)
    (hreads : w.reads = put :: (busy ++ rest)) (hpolls : w.polls = n :: polls)
    (hbusy : ∀ v ∈ busy, v = put ^^^ 8) (hlen : busy.length = n + 1) :
    nvkm_pmu_send reply process message data0 data1 work w =
      .ok (-EBUSY, none) { w with
        reads := rest, polls := polls,
        trace := w.trace ++ (Event.rd 0x10a4a0 put :: busy.map (Event.rd 0x10a4b0)) } ∧
    (nvkm_pmu_send reply process message data0 data1 work w).world.obj = w.obj ∧
    (∀ e ∈ Event.rd 0x10a4a0 put :: busy.map (Event.rd 0x10a4b0), e.isRd = true) ∧
    Event.mutex_lock ∉ Event.rd 0x10a4a0 put :: busy.map (Event.rd 0x10a4b0) ∧
    (∀ addr val, Event.wr addr val ∉ Event.rd 0x10a4a0 put :: busy.map (Event.rd 0x10a4b0)) ∧
    (∀ x, Event.set_recv_process x ∉ Event.rd 0x10a4a0 put :: busy.map (Event.rd 0x10a4b0)) ∧
    (∀ x, Event.set_recv_message x ∉
      Event.rd 0x10a4a0 put :: busy.map (Event.rd 0x10a4b0)) := by
  obtain ⟨reads, polls0, trace, obj⟩ := w
  simp only at hreads hpolls
  subst hreads hpolls
  have hp : ∀ v ∈ busy, (fun tmp => decide (tmp ≠ put ^^^ 8)) v = false := by
    intro v hv
    simp [hbusy v hv]
  have hrun : nvkm_pmu_send reply process message data0 data1 work
      ⟨put :: (busy ++ rest), n :: polls, trace, obj⟩ =
      .ok (-EBUSY, none) ⟨rest, polls,
        trace ++ (Event.rd 0x10a4a0 put :: busy.map (Event.rd 0x10a4b0)), obj⟩ := by
    simp only [nvkm_pmu_send, bind_eq, nvkm_rd32_cons, nvkm_msec_cons]
    rw [nvkm_msec_loop_timeout 0x10a4b0 (fun tmp => decide (tmp ≠ put ^^^ 8)) n busy rest
      polls _ obj hp hlen]
    simp [pure_eq, ETIMEDOUT]
  have hrd : ∀ e ∈ Event.rd 0x10a4a0 put :: busy.map (Event.rd 0x10a4b0), e.isRd = true := by
    intro e he
    simp only [List.mem_cons, List.mem_map] at he
    rcases he with rfl | ⟨v, _, rfl⟩ <;> rfl
  refine ⟨hrun, ?_, hrd, ?_, ?_, ?_, ?_⟩
  · rw [hrun]; rfl
  · intro h; exact absurd (hrd _ h) (by simp [Event.isRd])
  · intro a v h; exact absurd (hrd _ h) (by simp [Event.isRd])
  · intro x h; exact absurd (hrd _ h) (by simp [Event.isRd])
  · intro x h; exact absurd (hrd _ h) (by simp [Event.isRd])

theorem c6_send_timeout_is_busy_witness :
    nvkm_pmu_send true 0x54534554 1 5 6 1
        ⟨[3, 11, 11, 99], [1], [], ⟨⟨0x100, 0x40⟩, ⟨0x200, 0x40, 0, 0, 0, 0⟩⟩⟩ =
      .ok (-EBUSY, none) ⟨[99], [],
        [.rd 0x10a4a0 3, .rd 0x10a4b0 11, .rd 0x10a4b0 11],
        ⟨⟨0x100, 0x40⟩, ⟨0x200, 0x40, 0, 0, 0, 0⟩⟩⟩ :=
  (c6_send_timeout_is_busy true 0x54534554 1 5 6 1
    ⟨[3, 11, 11, 99], [1], [], ⟨⟨0x100, 0x40⟩, ⟨0x200, 0x40, 0, 0, 0, 0⟩⟩⟩
    3 1 [11, 11] [99] [] rfl rfl (by decide) rfl).1

/-- A send that passes the ring-room check and acquires the window: the run up to
the release of the window, then the wait for the reply when one was asked for. -/
theorem nvkm_pmu_send_issue (reply : Bool) (process message data0 data1 work : Nat)
    (put n : Nat) (busy : List Nat) (g : Nat) (spin1 rest polls : List Nat)
    (trace : List Event) (obj : nvkm_pmu)
    (hbusy : ∀ v ∈ busy, v = put ^^^ 8) (hg : g ≠ put ^^^ 8) (hlen : busy.length ≤ n)
    (hspin : ∀ v ∈ spin1, v ≠ 1) :
    nvkm_pmu_send reply process message data0 data1 work
        ⟨put :: (busy ++ g :: (spin1 ++ 1 :: rest)), n :: polls, trace, obj⟩ =
      (if reply then send_wait_reply work else pure (0, none))
        ⟨rest, polls,
          trace ++ (send_room put busy g ++ send_key reply process message ++
            handshake 1 spin1 ++ send_packet obj.send.base put process message data0 data1),
          with_key reply process message obj⟩ := by
  have hp : ∀ v ∈ busy, (fun tmp => decide (tmp ≠ put ^^^ 8)) v = false := by
    intro v hv
    simp [hbusy v hv]
  have hg2 : (fun tmp => decide (tmp ≠ put ^^^ 8)) g = true := by simp [hg]
  simp only [nvkm_pmu_send, bind_eq, nvkm_rd32_cons, nvkm_msec_cons]
  rw [nvkm_msec_loop_break 0x10a4b0 (fun tmp => decide (tmp ≠ put ^^^ 8)) n busy g _
    polls _ obj hp hg2 hlen]
  cases reply
  · simp [bind_eq, pure_eq, nvkm_wr32, emit, get_obj,
      acquire_data_segment_append 1 spin1 _ polls _ _ hspin, send_room, send_key,
      send_packet, with_key]
  · simp [bind_eq, pure_eq, nvkm_wr32, emit, get_obj, set_obj, store_recv_message,
      store_recv_process, send_wait_reply,
      acquire_data_segment_append 1 spin1 _ polls _ _ hspin, send_room, send_key,
      send_packet, with_key]

/-- The receive work on a message that matches the pending key: the reply words
are stored, the key is cleared and the waiter is woken; nothing is logged. -/
theorem nvkm_pmu_recv_match (get put process message data0 data1 : Nat)
    (busy rest polls : List Nat) (trace : List Event) (obj : nvkm_pmu)
    (hbusy : ∀ v ∈ busy, v ≠ 2) (hne : get ≠ put) (hp : obj.recv.process ≠ 0)
    (hkp : process = obj.recv.process) (hkm : message = obj.recv.message) :
    nvkm_pmu_recv
        ⟨get :: put :: (busy ++ 2 :: process :: message :: data0 :: data1 :: rest),
          polls, trace, obj⟩ =
      .ok () ⟨rest, polls,
        trace ++ (recv_consume obj.recv.base get put busy process message data0 data1 ++
          [.set_recv_data data0 data1, .set_recv_process 0, .wake_up]),
        { obj with recv := { obj.recv with data0 := data0, data1 := data1, process := 0 } }⟩ := by
  have hc : ¬ obj.recv.process = 0 ∧ process = obj.recv.process ∧
      message = obj.recv.message := ⟨hp, hkp, hkm⟩
  simp only [nvkm_pmu_recv, bind_eq, pure_eq, nvkm_rd32_cons, if_neg hne,
    acquire_data_segment_append 2 busy _ polls _ obj hbusy, get_obj, nvkm_wr32, emit, ne_eq,
    if_pos hc, store_recv_data, store_recv_process, set_obj, recv_consume]
  simp

/-- The wait ends at once when no reply is pending. -/
theorem wait_event_recv_done (work : Nat) (w : World nvkm_pmu) (h : w.obj.recv.process = 0) :
    wait_event_recv work w = .ok () w := by
  cases work <;> simp [wait_event_recv, bind_eq, pure_eq, get_obj, h]

/-- The ring-room wait consists of register reads only. -/
theorem send_room_rd (put : Nat) (busy : List Nat) (g : Nat) :
    ∀ e ∈ send_room put busy g, e.isRd = true := by
  intro e he
  simp only [send_room, List.mem_cons, List.mem_append, List.mem_map, List.mem_singleton,
    List.not_mem_nil, or_false] at he
  rcases he with rfl | ⟨v, _, rfl⟩ | rfl <;> rfl

/-- The packet consists of register writes only. -/
theorem send_packet_wr (base put process message data0 data1 : Nat) :
    ∀ e ∈ send_packet base put process message data0 data1, e.isWr = true := by
  intro e he
  simp only [send_packet, List.mem_cons, List.mem_singleton, List.not_mem_nil, or_false] at he
  rcases he with rfl | rfl | rfl | rfl | rfl | rfl | rfl <;> rfl

/-- C4: a synchronous request `(p, m, d0, d1)` with `p != 0`, followed while the
sender waits by a run of `nvkm_pmu_recv` that reads the message `(p, m, r0, r1)` from
the receive ring: the receive work stores `(r0, r1)` in `recv.data`, clears the key
(`recv.process = 0`) and wakes the waiter, no warning is logged, and
`nvkm_pmu_send` returns 0 with `reply = (r0, r1)`. -/
theorem c4_request_reply_roundtrip (p m d0 d1 r0 r1 work : Nat) (w : World nvkm_pmu)
    (put n : Nat) (busy : List Nat) (g : Nat) (spin1 : List Nat) (get put2 : Nat)
    (spin2 rest polls : List Nat)
    (hreads : w.reads = put :: (busy ++ g :: (spin1 ++ 1 ::
      (get :: put2 :: (spin2 ++ 2 :: p :: m :: r0 :: r1 :: rest)))))
    (hpolls : w.polls = n :: polls) (hp : p ≠ 0)
    (hbusy : ∀ v ∈ busy, v = put ^^^ 8) (hg : g ≠ put ^^^ 8) (hlen : busy.length ≤ n)
    (hspin1 : ∀ v ∈ spin1, v ≠ 1) (hne : get ≠ put2) (hspin2 : ∀ v ∈ spin2, v ≠ 2) :
    nvkm_pmu_send true p m d0 d1 (work + 1) w =
      .ok (0, some (r0, r1)) { w with
        reads := rest, polls := polls,
        trace := w.trace ++
          (send_room put busy g ++ [.mutex_lock, .set_recv_message m, .set_recv_process p] ++
            handshake 1 spin1 ++ send_packet w.obj.send.base put p m d0 d1 ++
            recv_consume w.obj.recv.base get put2 spin2 p m r0 r1 ++
            [.set_recv_data r0 r1, .set_recv_process 0, .wake_up, .mutex_unlock]),
        obj := { w.obj with recv := { w.obj.recv with
          message := m, process := 0, data0 := r0, data1 := r1 } } } ∧
    (∀ t o, o.recv.process = p → o.recv.message = m →
      nvkm_pmu_recv ⟨get :: put2 :: (spin2 ++ 2 :: p :: m :: r0 :: r1 :: rest), polls, t, o⟩ =
        .ok () ⟨rest, polls,
          t ++ (recv_consume o.recv.base get put2 spin2 p m r0 r1 ++
            [.set_recv_data r0 r1, .set_recv_process 0, .wake_up]),
          { o with recv := { o.recv with data0 := r0, data1 := r1, process := 0 } }⟩) ∧
    (∀ a b c d, Event.warn a b c d ∉
      send_room put busy g ++ [.mutex_lock, .set_recv_message m, .set_recv_process p] ++
        handshake 1 spin1 ++ send_packet w.obj.send.base put p m d0 d1 ++
        recv_consume w.obj.recv.base get put2 spin2 p m r0 r1 ++
        [.set_recv_data r0 r1, .set_recv_process 0, .wake_up, .mutex_unlock]) := by
  obtain ⟨reads, polls0, trace, obj⟩ := w
  simp only at hreads hpolls
  subst hreads hpolls
  have hrecv : ∀ t o, o.recv.process = p → o.recv.message = m →
      nvkm_pmu_recv ⟨get :: put2 :: (spin2 ++ 2 :: p :: m :: r0 :: r1 :: rest), polls, t, o⟩ =
        .ok () ⟨rest, polls,
          t ++ (recv_consume o.recv.base get put2 spin2 p m r0 r1 ++
            [.set_recv_data r0 r1, .set_recv_process 0, .wake_up]),
          { o with recv := { o.recv with data0 := r0, data1 := r1, process := 0 } }⟩ := by
    intro t o h1 h2
    exact nvkm_pmu_recv_match get put2 p m r0 r1 spin2 rest polls t o hspin2 hne
      (by rw [h1]; exact hp) h1.symm h2.symm
  refine ⟨?_, hrecv, ?_⟩
  · rw [nvkm_pmu_send_issue true p m d0 d1 (work + 1) put n busy g spin1 _ polls trace obj
      hbusy hg hlen hspin1]
    simp only [if_true, send_wait_reply, bind_eq, wait_event_recv, get_obj, with_key, if_neg hp,
      send_key]
    rw [hrecv _ _ rfl rfl]
    simp only []
    rw [wait_event_recv_done work _ rfl]
    simp [emit, pure_eq]
  · intro a b c d hmem
    simp only [List.mem_append] at hmem
    rcases hmem with ((((h | h) | h) | h) | h) | h
    · exact absurd (send_room_rd _ _ _ _ h) (by simp [Event.isRd])
    · simp at h
    · exact absurd (handshake_port _ _ _ h) (by simp [Event.isRd, Event.isWr])
    · exact absurd (send_packet_wr _ _ _ _ _ _ _ h) (by simp [Event.isWr])
    · exact absurd (recv_consume_port _ _ _ _ _ _ _ _ _ h) (by simp [Event.isRd, Event.isWr])
    · simp at h

theorem c4_request_reply_roundtrip_witness :
    nvkm_pmu_send true 0x54534554 1 5 6 1
        ⟨[3, 0, 1, 0, 1, 2, 0x54534554, 1, 42, 43], [10], [],
          ⟨⟨0x100, 0x40⟩, ⟨0x200, 0x40, 0, 0, 0, 0⟩⟩⟩ =
      .ok (0, some (42, 43)) ⟨[], [],
        [.rd 0x10a4a0 3, .rd 0x10a4b0 0, .mutex_lock, .set_recv_message 1,
         .set_recv_process 0x54534554, .wr 0x10a580 1, .rd 0x10a580 1,
         .wr 0x10a1c0 0x01000130, .wr 0x10a1c4 0x54534554, .wr 0x10a1c4 1, .wr 0x10a1c4 5,
         .wr 0x10a1c4 6, .wr 0x10a4a0 4, .wr 0x10a580 0,
         .rd 0x10a4cc 0, .rd 0x10a4c8 1, .wr 0x10a580 2, .rd 0x10a580 2,
         .wr 0x10a1c0 0x02000200, .rd 0x10a1c4 0x54534554, .rd 0x10a1c4 1, .rd 0x10a1c4 42,
         .rd 0x10a1c4 43, .wr 0x10a4cc 1, .wr 0x10a580 0,
         .set_recv_data 42 43, .set_recv_process 0, .wake_up, .mutex_unlock],
        ⟨⟨0x100, 0x40⟩, ⟨0x200, 0x40, 0, 1, 42, 43⟩⟩⟩ :=
  (c4_request_reply_roundtrip 0x54534554 1 5 6 42 43 0
    ⟨[3, 0, 1, 0, 1, 2, 0x54534554, 1, 42, 43], [10], [],
      ⟨⟨0x100, 0x40⟩, ⟨0x200, 0x40, 0, 0, 0, 0⟩⟩⟩
    3 10 [] 0 [] 0 1 [] [] [] rfl rfl (by decide) (by decide) (by decide) (by decide)
    (by decide) (by decide) (by decide)).1

/-- Masking with 7 or 15 is the remainder modulo 8 or 16. -/
theorem and_7_eq_mod (x : Nat) : x &&& 0x07 = x % 8 :=
  Nat.and_pow_two_sub_one_eq_mod x 3

theorem and_15_eq_mod (x : Nat) : x &&& 0x0f = x % 16 :=
  Nat.and_pow_two_sub_one_eq_mod x 4

/-- The effects of a handshake that are register writes: the code, once per round. -/
theorem handshake_writes (code : Nat) (busy : List Nat) :
    (handshake code busy).filter Event.isWr =
      List.replicate (busy.length + 1) (.wr 0x10a580 code) := by
  induction busy with
  | nil => rfl
  | cons v busy ih =>
    simp only [handshake, List.length_cons, List.replicate_succ]
    rw [List.filter_cons_of_pos (by rfl), List.filter_cons_of_neg (by simp [Event.isWr]), ih,
      List.replicate_succ]

/-- C8: in a call of `nvkm_pmu_send` that passes the ring-room check, with PUT the
value read from 0x10a4a0 at entry, once the window is acquired the register writes
are, in this order and with nothing in between: 0x10a1c0 := 0x01000000 |
(((PUT & 7) << 4) + send.base), the words process, message, data0, data1 to
0x10a1c4, 0x10a4a0 := (PUT + 1) & 0x0f (that is (PUT + 1) mod 16), 0x10a580 := 0.
Before them the call writes only the handshake code 1 to 0x10a580; after them it
returns 0 (no reply buffer) or only waits for the reply, reads it and unlocks. -/
theorem c8_send_packet_layout (reply : Bool) (p m d0 d1 work : Nat) (w : World nvkm_pmu)
    (put n : Nat) (busy : List Nat) (g : Nat) (spin1 rest polls : List Nat)
    (hreads : w.reads = put :: (busy ++ g :: (spin1 ++ 1 :: rest)))
    (hpolls : w.polls = n :: polls)
    (hbusy : ∀ v ∈ busy, v = put ^^^ 8) (hg : g ≠ put ^^^ 8) (hlen : busy.length ≤ n)
    (hspin1 : ∀ v ∈ spin1, v ≠ 1) :
    nvkm_pmu_send reply p m d0 d1 work w =
      (if reply then send_wait_reply work else pure (0, none))
        ⟨rest, polls,
          w.trace ++ (send_room put busy g ++ send_key reply p m ++ handshake 1 spin1 ++
            [.wr 0x10a1c0 (0x01000000 ||| u32 (((put &&& 0x07) <<< 4) + w.obj.send.base)),
             .wr 0x10a1c4 p, .wr 0x10a1c4 m, .wr 0x10a1c4 d0, .wr 0x10a1c4 d1,
             .wr 0x10a4a0 (u32 (put + 1) &&& 0x0f),
             .wr 0x10a580 0]),
          with_key reply p m w.obj⟩ ∧
    (∀ e ∈ send_room put busy g ++ send_key reply p m, e.isWr = false) ∧
    (handshake 1 spin1).filter Event.isWr =
      List.replicate (spin1.length + 1) (.wr 0x10a580 1) ∧
    u32 (put + 1) &&& 0x0f = (put + 1) % 16 ∧
    (put &&& 0x07) <<< 4 = 16 * (put % 8) ∧
    (w.obj.send.base ≤ 0xffff →
      u32 (((put &&& 0x07) <<< 4) + w.obj.send.base) =
        ((put &&& 0x07) <<< 4) + w.obj.send.base) ∧
    (∀ (t : List Event) (o : nvkm_pmu),
      (send_wait_reply 0 ⟨rest, polls, t, o⟩).world.trace =
        t ++ (if o.recv.process = 0 then [.mutex_unlock] else [])) := by
  obtain ⟨reads, polls0, trace, obj⟩ := w
  simp only at hreads hpolls
  subst hreads hpolls
  have hoff : (put &&& 0x07) <<< 4 = 16 * (put % 8) := by
    rw [and_7_eq_mod, Nat.shiftLeft_eq]
    omega
  refine ⟨?_, ?_, handshake_writes 1 spin1, ?_, hoff, ?_, ?_⟩
  · rw [nvkm_pmu_send_issue reply p m d0 d1 work put n busy g spin1 rest polls trace obj
      hbusy hg hlen hspin1]
    rfl
  · intro e he
    rcases List.mem_append.mp he with h | h
    · have := send_room_rd _ _ _ e h
      cases e <;> simp_all [Event.isRd, Event.isWr]
    · cases reply
      · simp [send_key] at h
      · simp only [send_key, if_true, List.mem_cons, List.mem_singleton, List.not_mem_nil,
          or_false] at h
        rcases h with rfl | rfl | rfl <;> rfl
  · rw [and_15_eq_mod]
    unfold u32
    omega
  · intro hb
    simp only at hb ⊢
    rw [hoff]
    unfold u32
    omega
  · intro t o
    by_cases h0 : o.recv.process = 0
    · simp [send_wait_reply, wait_event_recv, bind_eq, pure_eq, get_obj, emit, h0, Res.world]
    · simp [send_wait_reply, wait_event_recv, bind_eq, pure_eq, get_obj, emit, h0, Res.world,
        block]

theorem c8_send_packet_layout_witness :
    nvkm_pmu_send false 0x54534554 1 5 6 0
        ⟨[3, 11, 0, 0, 1, 77], [10], [], ⟨⟨0x100, 0x40⟩, ⟨0x200, 0x40, 0, 0, 0, 0⟩⟩⟩ =
      .ok (0, none) ⟨[77], [],
        [.rd 0x10a4a0 3, .rd 0x10a4b0 11, .rd 0x10a4b0 0, .wr 0x10a580 1, .rd 0x10a580 0,
         .wr 0x10a580 1, .rd 0x10a580 1,
         .wr 0x10a1c0 0x01000130, .wr 0x10a1c4 0x54534554, .wr 0x10a1c4 1, .wr 0x10a1c4 5,
         .wr 0x10a1c4 6, .wr 0x10a4a0 4, .wr 0x10a580 0],
        ⟨⟨0x100, 0x40⟩, ⟨0x200, 0x40, 0, 0, 0, 0⟩⟩⟩ :=
  (c8_send_packet_layout false 0x54534554 1 5 6 0
    ⟨[3, 11, 0, 0, 1, 77], [10], [], ⟨⟨0x100, 0x40⟩, ⟨0x200, 0x40, 0, 0, 0, 0⟩⟩⟩
    3 10 [11] 0 [0] [77] [] rfl rfl (by decide) (by decide) (by decide) (by decide)).1

/-! ### Effects are only ever added -/

theorem extends_pure {σ α : Type} (a : α) : Extends (pure a : M σ α) :=
  fun _ => ⟨[], by simp [pure_eq, Res.world]⟩

theorem extends_bind {σ α β : Type} {m : M σ α} {f : α → M σ β} (hm : Extends m)
    (hf : ∀ a, Extends (f a)) : Extends (m >>= f) := by
  intro w
  obtain ⟨t1, h1⟩ := hm w
  rw [bind_eq]
  cases hmw : m w with
  | ok a w1 =>
    rw [hmw] at h1
    obtain ⟨t2, h2⟩ := hf a w1
    refine ⟨t1 ++ t2, ?_⟩
    simp only [Res.world] at h1
    simp only [h2, h1, List.append_assoc]
  | stuck w1 =>
    rw [hmw] at h1
    exact ⟨t1, h1⟩

theorem extends_ite {σ α : Type} (c : Prop) [Decidable c] {m1 m2 : M σ α} (h1 : Extends m1)
    (h2 : Extends m2) : Extends (if c then m1 else m2) := by
  split_ifs
  · exact h1
  · exact h2

theorem extends_emit {σ : Type} (e : Event) : Extends (emit e : M σ Unit) :=
  fun _ => ⟨[e], rfl⟩

theorem extends_block {σ α : Type} : Extends (block : M σ α) :=
  fun _ => ⟨[], by simp [block, Res.world]⟩

theorem extends_get_obj {σ : Type} : Extends (get_obj : M σ σ) :=
  fun _ => ⟨[], by simp [get_obj, Res.world]⟩

theorem extends_set_obj {σ : Type} (o : σ) : Extends (set_obj o : M σ Unit) :=
  fun _ => ⟨[], by simp [set_obj, Res.world]⟩

theorem extends_rd32 {σ : Type} (addr : Nat) : Extends (nvkm_rd32 addr : M σ Nat) := by
  intro w
  obtain ⟨reads, polls, trace, obj⟩ := w
  cases reads with
  | nil => exact ⟨[], by simp [nvkm_rd32, Res.world]⟩
  | cons v rest => exact ⟨[.rd addr v], rfl⟩

theorem extends_wr32 {σ : Type} (addr val : Nat) : Extends (nvkm_wr32 addr val : M σ Unit) :=
  extends_emit _

theorem extends_acquire {σ : Type} (code : Nat) :
    Extends (acquire_data_segment code : M σ Unit) := by
  intro w
  refine ⟨(spin code w.reads).1, ?_⟩
  unfold acquire_data_segment
  cases (spin code w.reads).2 <;> rfl

theorem extends_msec_loop {σ : Type} {cond : M σ Bool} (hc : Extends cond) (n : Nat) :
    Extends (nvkm_msec_loop cond n) := by
  induction n with
  | zero =>
    unfold nvkm_msec_loop
    exact extends_bind hc (fun _ => extends_ite _ (extends_pure _) (extends_pure _))
  | succ n ih =>
    unfold nvkm_msec_loop
    exact extends_bind hc (fun _ => extends_ite _ (extends_pure _) ih)

theorem extends_msec {σ : Type} {cond : M σ Bool} (hc : Extends cond) :
    Extends (nvkm_msec cond) := by
  intro w
  obtain ⟨reads, polls, trace, obj⟩ := w
  cases polls with
  | nil => exact ⟨[], by simp [nvkm_msec, Res.world]⟩
  | cons n polls => exact extends_msec_loop hc n ⟨reads, polls, trace, obj⟩

theorem extends_store_recv_message (x : Nat) : Extends (store_recv_message x) :=
  extends_bind extends_get_obj
    (fun _ => extends_bind (extends_set_obj _) (fun _ => extends_emit _))

theorem extends_store_recv_process (x : Nat) : Extends (store_recv_process x) :=
  extends_bind extends_get_obj
    (fun _ => extends_bind (extends_set_obj _) (fun _ => extends_emit _))

theorem extends_store_recv_data (x y : Nat) : Extends (store_recv_data x y) :=
  extends_bind extends_get_obj
    (fun _ => extends_bind (extends_set_obj _) (fun _ => extends_emit _))

theorem extends_nvkm_pmu_recv : Extends nvkm_pmu_recv := by
  unfold nvkm_pmu_recv
  refine extends_bind (extends_rd32 _) (fun addr => ?_)
  refine extends_bind (extends_rd32 _) (fun put => ?_)
  refine extends_ite _ (extends_pure _) ?_
  refine extends_bind (extends_acquire _) (fun _ => ?_)
  refine extends_bind extends_get_obj (fun _ => ?_)
  refine extends_bind (extends_wr32 _ _) (fun _ => ?_)
  refine extends_bind (extends_rd32 _) (fun _ => ?_)
  refine extends_bind (extends_rd32 _) (fun _ => ?_)
  refine extends_bind (extends_rd32 _) (fun _ => ?_)
  refine extends_bind (extends_rd32 _) (fun _ => ?_)
  refine extends_bind (extends_wr32 _ _) (fun _ => ?_)
  refine extends_bind (extends_wr32 _ _) (fun _ => ?_)
  refine extends_bind extends_get_obj (fun _ => ?_)
  refine extends_ite _ ?_ (extends_emit _)
  exact extends_bind (extends_store_recv_data _ _)
    (fun _ => extends_bind (extends_store_recv_process _) (fun _ => extends_emit _))

theorem extends_wait_event_recv (work : Nat) : Extends (wait_event_recv work) := by
  induction work with
  | zero =>
    unfold wait_event_recv
    exact extends_bind extends_get_obj (fun _ => extends_ite _ (extends_pure _) extends_block)
  | succ work ih =>
    unfold wait_event_recv
    exact extends_bind extends_get_obj
      (fun _ => extends_ite _ (extends_pure _) (extends_bind extends_nvkm_pmu_recv (fun _ => ih)))

theorem extends_send_rest (reply : Bool) (addr p m d0 d1 work : Nat) :
    Extends (send_rest reply addr p m d0 d1 work) := by
  unfold send_rest
  refine extends_bind (extends_acquire _) (fun _ => ?_)
  refine extends_bind extends_get_obj (fun _ => ?_)
  refine extends_bind (extends_wr32 _ _) (fun _ => ?_)
  refine extends_bind (extends_wr32 _ _) (fun _ => ?_)
  refine extends_bind (extends_wr32 _ _) (fun _ => ?_)
  refine extends_bind (extends_wr32 _ _) (fun _ => ?_)
  refine extends_bind (extends_wr32 _ _) (fun _ => ?_)
  refine extends_bind (extends_wr32 _ _) (fun _ => ?_)
  refine extends_bind (extends_wr32 _ _) (fun _ => ?_)
  refine extends_ite _ ?_ (extends_pure _)
  refine extends_bind (extends_wait_event_recv _) (fun _ => ?_)
  exact extends_bind extends_get_obj
    (fun _ => extends_bind (extends_emit _) (fun _ => extends_pure _))

/-- When a list that starts with the write-free `l` is split just before one of
its register writes, the part before the write starts with `l`. -/
theorem starts_before_write (l post pre suf : List Event) (x : Event)
    (hl : ∀ e ∈ l, e.isWr = false) (hx : x.isWr = true)
    (h : l ++ post = pre ++ x :: suf) : ∃ l2, pre = l ++ l2 := by
  rcases List.append_eq_append_iff.mp h with ⟨a, ha, _⟩ | ⟨c, hc, hd⟩
  · exact ⟨a, ha⟩
  · cases c with
    | nil => exact ⟨[], by simp [hc]⟩
    | cons y c =>
      simp only [List.cons_append, List.cons.injEq] at hd
      have hy : y ∈ l := by rw [hc]; simp
      have := hl y hy
      rw [← hd.1, hx] at this
      exact absurd this (by decide)

/-- Unfolding: `nvkm_pmu_send` is the ring-room wait, the registration of the waiter and
`send_rest`. -/
theorem nvkm_pmu_send_eq (reply : Bool) (p m d0 d1 work : Nat) :
    nvkm_pmu_send reply p m d0 d1 work = (do
      let addr ← nvkm_rd32 0x10a4a0
      let taken ← nvkm_msec (do
        let tmp ← nvkm_rd32 0x10a4b0
        pure (decide (tmp ≠ addr ^^^ 8)))
      if taken < 0 then
        pure (-EBUSY, none)
      else do
        if reply then do
          emit .mutex_lock
          store_recv_message m
          store_recv_process p
        send_rest reply addr p m d0 d1 work) := rfl

/-- C7: in every call of `nvkm_pmu_send` with a reply buffer that passes the
ring-room check, whether or not it then returns, the effects of the call are the
register reads of the ring-room wait, then the mutex acquisition and the
assignments `recv.message := message`, `recv.process := process`, then everything
else: no register write (so none of the four words to 0x10a1c4 and no write of PUT
to 0x10a4a0) comes before the lock and the key. -/
theorem c7_key_before_write (p m d0 d1 work : Nat) (w : World nvkm_pmu)
    (put n : Nat) (busy : List Nat) (g : Nat) (rest polls : List Nat)
    (hreads : w.reads = put :: (busy ++ g :: rest)) (hpolls : w.polls = n :: polls)
    (hbusy : ∀ v ∈ busy, v = put ^^^ 8) (hg : g ≠ put ^^^ 8) (hlen : busy.length ≤ n) :
    (∃ post, (nvkm_pmu_send true p m d0 d1 work w).world.trace =
      w.trace ++ (send_room put busy g ++
        [.mutex_lock, .set_recv_message m, .set_recv_process p] ++ post)) ∧
    (∀ e ∈ send_room put busy g, e.isWr = false) ∧
    (∀ pre a v suf, (nvkm_pmu_send true p m d0 d1 work w).world.trace =
        w.trace ++ (pre ++ Event.wr a v :: suf) →
      ∃ l2, pre = send_room put busy g ++
        [.mutex_lock, .set_recv_message m, .set_recv_process p] ++ l2) := by
  obtain ⟨reads, polls0, trace, obj⟩ := w
  simp only at hreads hpolls
  subst hreads hpolls
  have hp : ∀ v ∈ busy, (fun tmp => decide (tmp ≠ put ^^^ 8)) v = false := by
    intro v hv
    simp [hbusy v hv]
  have hg2 : (fun tmp => decide (tmp ≠ put ^^^ 8)) g = true := by simp [hg]
  have hnw : ∀ e ∈ send_room put busy g, e.isWr = false := by
    intro e he
    have := send_room_rd _ _ _ e he
    cases e <;> simp_all [Event.isRd, Event.isWr]
  have hex : ∃ post, (nvkm_pmu_send true p m d0 d1 work
      ⟨put :: (busy ++ g :: rest), n :: polls, trace, obj⟩).world.trace =
      trace ++ (send_room put busy g ++
        [.mutex_lock, .set_recv_message m, .set_recv_process p] ++ post) := by
    rw [nvkm_pmu_send_eq]
    simp only [bind_eq, nvkm_rd32_cons, nvkm_msec_cons]
    rw [nvkm_msec_loop_break 0x10a4b0 (fun tmp => decide (tmp ≠ put ^^^ 8)) n busy g _
      polls _ obj hp hg2 hlen]
    simp only [if_true, lt_self_iff_false, if_false, emit, store_recv_message,
      store_recv_process, bind_eq, get_obj, set_obj]
    obtain ⟨t, ht⟩ := extends_send_rest true put p m d0 d1 work
      ⟨rest, polls,
        trace ++ [Event.rd 0x10a4a0 put] ++
          (busy.map (Event.rd 0x10a4b0) ++ [Event.rd 0x10a4b0 g]) ++ [Event.mutex_lock] ++
          [Event.set_recv_message m] ++ [Event.set_recv_process p],
        { send := obj.send,
          recv := { base := obj.recv.base, size := obj.recv.size, process := p, message := m,
                    data0 := obj.recv.data0, data1 := obj.recv.data1 } }⟩
    refine ⟨t, ?_⟩
    rw [ht]
    simp [send_room]
  refine ⟨hex, hnw, ?_⟩
  intro pre a v suf hsplit
  obtain ⟨post, hpost⟩ := hex
  rw [hpost] at hsplit
  have heq := List.append_cancel_left hsplit
  refine starts_before_write _ post pre suf (.wr a v) ?_ rfl heq
  intro e he
  rcases List.mem_append.mp he with h | h
  · exact hnw e h
  · simp only [List.mem_cons, List.mem_singleton, List.not_mem_nil, or_false] at h
    rcases h with rfl | rfl | rfl <;> rfl

theorem c7_key_before_write_witness :
    ∃ post, (nvkm_pmu_send true 0x54534554 1 5 6 0
        ⟨[3, 11, 0], [10], [], ⟨⟨0x100, 0x40⟩, ⟨0x200, 0x40, 0, 0, 0, 0⟩⟩⟩).world.trace =
      [] ++ (send_room 3 [11] 0 ++
        [.mutex_lock, .set_recv_message 1, .set_recv_process 0x54534554] ++ post) :=
  (c7_key_before_write 0x54534554 1 5 6 0
    ⟨[3, 11, 0], [10], [], ⟨⟨0x100, 0x40⟩, ⟨0x200, 0x40, 0, 0, 0, 0⟩⟩⟩
    3 10 [11] 0 [] [] rfl rfl (by decide) (by decide) (by decide)).1


/-! ## Theorems: falcon bootstrap -/

theorem emits_pure {σ α : Type} (Q : Event → Prop) (a : α) : Emits Q (pure a : M σ α) :=
  fun w => ⟨a, [], by simp [pure_eq], by simp⟩

theorem emits_bind {σ α β : Type} {Q : Event → Prop} {m : M σ α} {f : α → M σ β}
    (hm : Emits Q m) (hf : ∀ a, Emits Q (f a)) : Emits Q (m >>= f) := by
  intro w
  obtain ⟨a, t1, h1, q1⟩ := hm w
  obtain ⟨b, t2, h2, q2⟩ := hf a ⟨w.reads, w.polls, w.trace ++ t1, w.obj⟩
  refine ⟨b, t1 ++ t2, ?_, ?_⟩
  · rw [bind_eq, h1]
    simp only [h2, List.append_assoc]
  · intro e he
    rcases List.mem_append.mp he with h | h
    · exact q1 e h
    · exact q2 e h

theorem emits_ite {σ α : Type} {Q : Event → Prop} (c : Prop) [Decidable c] {m1 m2 : M σ α}
    (h1 : Emits Q m1) (h2 : Emits Q m2) : Emits Q (if c then m1 else m2) := by
  split_ifs
  · exact h1
  · exact h2

theorem emits_emits {σ : Type} {Q : Event → Prop} (es : List Event) (h : ∀ e ∈ es, Q e) :
    Emits Q (emits es : M σ Unit) :=
  fun _ => ⟨(), es, rfl, h⟩

theorem emits_emit {σ : Type} {Q : Event → Prop} (e : Event) (h : Q e) :
    Emits Q (emit e : M σ Unit) :=
  fun _ => ⟨(), [e], rfl, by simpa using h⟩

theorem emits_wr32 {σ : Type} {Q : Event → Prop} (addr val : Nat) (h : Q (.wr addr val)) :
    Emits Q (nvkm_wr32 addr val : M σ Unit) :=
  emits_emit _ h

theorem emits_get_obj {σ : Type} (Q : Event → Prop) : Emits Q (get_obj : M σ σ) :=
  fun w => ⟨w.obj, [], by simp [get_obj], by simp⟩

/-- The effects of a loop are effects of its body. -/
theorem for_loop_mem (step : Nat) (body : Nat → List Event) (fuel i bound : Nat) :
    ∀ e ∈ for_loop step body fuel i bound, ∃ j, e ∈ body j := by
  induction fuel generalizing i with
  | zero => intro e he; simp [for_loop] at he
  | succ fuel ih =>
    intro e he
    unfold for_loop at he
    split_ifs at he
    · rcases List.mem_append.mp he with h | h
      · exact ⟨i, h⟩
      · exact ih _ e h
    · simp at he

/-- The start sequence, the data upload and the code upload are register writes
and at most an error line: they ask for no firmware. -/
theorem emits_falcon_start : Emits (fun e => e.requested = none) falcon_start := by
  unfold falcon_start
  refine emits_bind (emits_get_obj _) (fun _ => ?_)
  refine emits_bind (emits_wr32 _ _ rfl) (fun _ => ?_)
  refine emits_bind (emits_wr32 _ _ rfl) (fun _ => ?_)
  refine emits_bind (emits_wr32 _ _ rfl) (fun _ => ?_)
  exact emits_bind (emits_wr32 _ _ rfl) (fun _ => emits_pure _ _)

theorem emits_falcon_upload_data : Emits (fun e => e.requested = none) falcon_upload_data := by
  unfold falcon_upload_data
  refine emits_bind (emits_get_obj _) (fun falcon => ?_)
  refine emits_ite _ ?_ ?_
  · refine emits_bind (emits_wr32 _ _ rfl) (fun _ => ?_)
    refine emits_bind (emits_emits _ ?_) (fun _ => ?_)
    · intro e he
      obtain ⟨j, hj⟩ := for_loop_mem _ _ _ _ _ e he
      simp only [List.mem_singleton] at hj
      rw [hj]; rfl
    refine emits_bind (emits_emits _ ?_) (fun _ => emits_falcon_start)
    intro e he
    obtain ⟨j, hj⟩ := for_loop_mem _ _ _ _ _ e he
    simp only [List.mem_singleton] at hj
    rw [hj]; rfl
  · refine emits_bind (emits_wr32 _ _ rfl) (fun _ => ?_)
    refine emits_bind (emits_emits _ ?_) (fun _ => ?_)
    · intro e he
      obtain ⟨j, hj⟩ := for_loop_mem _ _ _ _ _ e he
      simp only [List.mem_singleton] at hj
      rw [hj]; rfl
    refine emits_bind (emits_emits _ ?_) (fun _ => emits_falcon_start)
    intro e he
    obtain ⟨j, hj⟩ := for_loop_mem _ _ _ _ _ e he
    simp only [List.mem_singleton] at hj
    rw [hj]; rfl

theorem emits_falcon_upload (env : falcon_env) :
    Emits (fun e => e.requested = none) (falcon_upload env) := by
  unfold falcon_upload
  refine emits_bind (emits_get_obj _) (fun falcon => ?_)
  split
  · dsimp only
    split_ifs
    · refine emits_bind (emits_wr32 _ _ rfl) (fun _ => ?_)
      refine emits_bind (emits_wr32 _ _ rfl) (fun _ => ?_)
      refine emits_bind (emits_wr32 _ _ rfl) (fun _ => ?_)
      refine emits_bind (emits_wr32 _ _ rfl) (fun _ => ?_)
      exact emits_bind (emits_wr32 _ _ rfl) (fun _ => emits_falcon_upload_data)
    · refine emits_bind (emits_wr32 _ _ rfl) (fun _ => ?_)
      refine emits_bind (emits_wr32 _ _ rfl) (fun _ => ?_)
      refine emits_bind (emits_wr32 _ _ rfl) (fun _ => ?_)
      refine emits_bind (emits_wr32 _ _ rfl) (fun _ => ?_)
      exact emits_bind (emits_wr32 _ _ rfl) (fun _ => emits_falcon_upload_data)
  · refine emits_ite _ ?_ (emits_ite _ ?_ ?_)
    · exact emits_bind (emits_emit _ rfl) (fun _ => emits_pure _ _)
    · refine emits_bind (emits_wr32 _ _ rfl) (fun _ => ?_)
      refine emits_bind (emits_emits _ ?_) (fun _ => emits_falcon_upload_data)
      intro e he
      obtain ⟨j, hj⟩ := for_loop_mem _ _ _ _ _ e he
      simp only [List.mem_singleton] at hj
      rw [hj]; rfl
    · refine emits_bind (emits_wr32 _ _ rfl) (fun _ => ?_)
      refine emits_bind (emits_emits _ ?_) (fun _ => emits_falcon_upload_data)
      intro e he
      obtain ⟨j, hj⟩ := for_loop_mem _ _ _ _ _ e he
      simp only [List.mem_append, List.mem_singleton] at hj
      rcases hj with h | h
      · split_ifs at h
        · simp only [List.mem_singleton] at h
          rw [h]; rfl
        · simp at h
      · rw [h]; rfl

/-- Without a core buffer, an image over a limit ends the upload at the size check:
one error line, `-EINVAL`, nothing written. -/
theorem falcon_upload_exceeds (env : falcon_env) (w : World nvkm_falcon)
    (hcore : w.obj.core = none) (hex : exceeds_limits w.obj) :
    falcon_upload env w =
      .ok (-EINVAL) ⟨w.reads, w.polls, w.trace ++ [.error .ucode_exceeds_falcon_limits],
        w.obj⟩ := by
  unfold exceeds_limits at hex
  simp [falcon_upload, bind_eq, pure_eq, get_obj, hcore, hex, emit]

/-- The core buffer stage and what follows it: the run returns, only `core` may
have changed, no firmware is asked for, and when it ends without a core buffer on
a falcon with a data image over a limit, it is at the size check. -/
theorem falcon_core_spec (env : falcon_env) (w : World nvkm_falcon) :
    ∃ ret t core, falcon_core env w =
        .ok ret ⟨w.reads, w.polls, w.trace ++ t, { w.obj with core := core }⟩ ∧
      (∀ e ∈ t, e.requested = none) ∧
      (core = none → w.obj.data.data ≠ none → exceeds_limits w.obj →
        ret = -EINVAL ∧ t = [.error .ucode_exceeds_falcon_limits]) := by
  obtain ⟨reads, polls, trace, falcon⟩ := w
  by_cases hA : falcon.data.data.isNone = true ∧ falcon.core.isNone = true
  · by_cases hret : env.gpuobj_new.1 = 0
    · obtain ⟨a, t, h, q⟩ := emits_falcon_upload env
        ⟨reads, polls,
          trace ++ [.gpuobj_new falcon.code.size] ++
            for_loop 4 (fun i => [.wo32 i (word falcon.code.data (i / 4))])
              falcon.code.size 0 falcon.code.size,
          { falcon with core := some env.gpuobj_new.2 }⟩
      refine ⟨a, [.gpuobj_new falcon.code.size] ++
        for_loop 4 (fun i => [.wo32 i (word falcon.code.data (i / 4))])
          falcon.code.size 0 falcon.code.size ++ t, some env.gpuobj_new.2, ?_, ?_, ?_⟩
      · simp only [falcon_core, bind_eq, get_obj, hA, and_self, if_true, emit, hret, ne_eq,
          not_true_eq_false, if_false, set_obj, emits]
        simp only [List.append_assoc] at h ⊢
        exact h
      · intro e he
        simp only [List.mem_append, List.mem_singleton] at he
        rcases he with (rfl | he) | he
        · rfl
        · obtain ⟨j, hj⟩ := for_loop_mem _ _ _ _ _ e he
          simp only [List.mem_singleton] at hj
          rw [hj]; rfl
        · exact q e he
      · intro hc; exact absurd hc (by simp)
    · refine ⟨env.gpuobj_new.1, [.gpuobj_new falcon.code.size, .error .core_allocation_failed],
        falcon.core, ?_, ?_, ?_⟩
      · simp only [Option.isNone_iff_eq_none] at hA
        simp [falcon_core, bind_eq, pure_eq, get_obj, hA, emit, hret]
        cases falcon
        simp_all
      · intro e he
        simp only [List.mem_cons, List.mem_singleton, List.not_mem_nil, or_false] at he
        rcases he with rfl | rfl <;> rfl
      · intro _ hd
        simp only at hd
        rw [Option.isNone_iff_eq_none] at hA
        exact absurd hA.1 hd
  · have hrun : falcon_core env ⟨reads, polls, trace, falcon⟩ =
        falcon_upload env ⟨reads, polls, trace, falcon⟩ := by
      simp only [Option.isNone_iff_eq_none] at hA
      simp [falcon_core, bind_eq, get_obj, hA]
    by_cases hx : falcon.core = none ∧ exceeds_limits falcon
    · refine ⟨-EINVAL, [.error .ucode_exceeds_falcon_limits], falcon.core, ?_, ?_, ?_⟩
      · rw [hrun, falcon_upload_exceeds env _ hx.1 hx.2]
      · intro e he
        simp only [List.mem_singleton] at he
        rw [he]; rfl
      · intro _ _ _
        exact ⟨rfl, rfl⟩
    · obtain ⟨a, t, h, q⟩ := emits_falcon_upload env ⟨reads, polls, trace, falcon⟩
      refine ⟨a, t, falcon.core, ?_, q, ?_⟩
      · rw [hrun, h]
      · intro hc _ hex
        exact absurd ⟨hc, hex⟩ hx

/-! ### The paths of the firmware resolution -/

theorem split_supplied (env : falcon_env) (w : World nvkm_falcon)
    (h : w.obj.code.data ≠ none) : falcon_firmware_split env w = falcon_core env w := by
  simp [falcon_firmware_split, bind_eq, get_obj, h]

theorem split_no_data (env : falcon_env) (w : World nvkm_falcon)
    (h : w.obj.code.data = none) (hd : env.request_firmware .d = none) :
    falcon_firmware_split env w =
      .ok (-ENODEV) ⟨w.reads, w.polls,
        w.trace ++ [.request_firmware .d, .error .unable_to_load_firmware_data], w.obj⟩ := by
  simp [falcon_firmware_split, bind_eq, pure_eq, get_obj, h, hd, emit]

theorem split_data_nomem (env : falcon_env) (w : World nvkm_falcon) (fd : firmware)
    (h : w.obj.code.data = none) (hd : env.request_firmware .d = some fd)
    (hok : env.vmemdup_ok .d = false) :
    falcon_firmware_split env w =
      .ok (-ENOMEM) ⟨w.reads, w.polls, w.trace ++ [.request_firmware .d],
        with_data w.obj false fd⟩ := by
  simp [falcon_firmware_split, bind_eq, pure_eq, get_obj, set_obj, h, hd, hok, emit, vmemdup,
    with_data]

theorem split_no_code (env : falcon_env) (w : World nvkm_falcon) (fd : firmware)
    (h : w.obj.code.data = none) (hd : env.request_firmware .d = some fd)
    (hok : env.vmemdup_ok .d = true) (hc : env.request_firmware .c = none) :
    falcon_firmware_split env w =
      .ok (-ENODEV) ⟨w.reads, w.polls,
        w.trace ++ [.request_firmware .d, .request_firmware .c,
          .error .unable_to_load_firmware_code],
        with_data w.obj true fd⟩ := by
  simp [falcon_firmware_split, bind_eq, pure_eq, get_obj, set_obj, h, hd, hok, hc, emit,
    vmemdup, with_data]

theorem split_code_nomem (env : falcon_env) (w : World nvkm_falcon) (fd fc : firmware)
    (h : w.obj.code.data = none) (hd : env.request_firmware .d = some fd)
    (hok : env.vmemdup_ok .d = true) (hc : env.request_firmware .c = some fc)
    (hokc : env.vmemdup_ok .c = false) :
    falcon_firmware_split env w =
      .ok (-ENOMEM) ⟨w.reads, w.polls,
        w.trace ++ [.request_firmware .d, .request_firmware .c],
        with_code (with_data w.obj true fd) false fc⟩ := by
  simp [falcon_firmware_split, bind_eq, pure_eq, get_obj, set_obj, h, hd, hok, hc, hokc, emit,
    vmemdup, with_data, with_code]

theorem split_both (env : falcon_env) (w : World nvkm_falcon) (fd fc : firmware)
    (h : w.obj.code.data = none) (hd : env.request_firmware .d = some fd)
    (hok : env.vmemdup_ok .d = true) (hc : env.request_firmware .c = some fc)
    (hokc : env.vmemdup_ok .c = true) :
    falcon_firmware_split env w =
      falcon_core env ⟨w.reads, w.polls,
        w.trace ++ [.request_firmware .d, .request_firmware .c],
        with_code (with_data w.obj true fd) true fc⟩ := by
  simp [falcon_firmware_split, bind_eq, get_obj, set_obj, h, hd, hok, hc, hokc, emit,
    vmemdup, with_data, with_code]

theorem firmware_supplied (env : falcon_env) (w : World nvkm_falcon)
    (h : w.obj.code.data ≠ none) : falcon_firmware env w = falcon_firmware_split env w := by
  simp [falcon_firmware, bind_eq, get_obj, h]

theorem firmware_self (env : falcon_env) (w : World nvkm_falcon) (fw : firmware)
    (h : w.obj.code.data = none) (hs : env.request_firmware .self = some fw) :
    falcon_firmware env w =
      falcon_firmware_split env ⟨w.reads, w.polls, w.trace ++ [.request_firmware .self],
        with_self w.obj (env.vmemdup_ok .self) fw⟩ := by
  simp [falcon_firmware, bind_eq, get_obj, set_obj, h, hs, emit, with_self]

theorem firmware_no_self (env : falcon_env) (w : World nvkm_falcon)
    (h : w.obj.code.data = none) (hs : env.request_firmware .self = none) :
    falcon_firmware env w =
      falcon_firmware_split env ⟨w.reads, w.polls, w.trace ++ [.request_firmware .self],
        { w.obj with external := true }⟩ := by
  simp [falcon_firmware, bind_eq, get_obj, set_obj, h, hs, emit]

/-- A poll whose body reads one register returns when the script holds a value for
each of its rounds; it only adds register reads. -/
theorem nvkm_msec_loop_total {σ : Type} (addr : Nat) (p : Nat → Bool) (n : Nat)
    (reads polls : List Nat) (trace : List Event) (obj : σ) (h : n + 1 ≤ reads.length) :
    ∃ r k, k ≤ n + 1 ∧
      nvkm_msec_loop (nvkm_rd32 addr >>= fun tmp => pure (p tmp)) n
          (⟨reads, polls, trace, obj⟩ : World σ) =
        .ok r ⟨reads.drop k, polls, trace ++ (reads.take k).map (Event.rd addr), obj⟩ := by
  induction n generalizing reads trace with
  | zero =>
    match reads, h with
    | v :: rest, _ =>
      refine ⟨if p v = true then 0 else -ETIMEDOUT, 1, le_refl _, ?_⟩
      cases hv : p v <;> simp [nvkm_msec_loop, bind_eq, nvkm_rd32, pure_eq, hv]
  | succ n ih =>
    match reads, h with
    | v :: rest, h =>
      cases hv : p v
      · obtain ⟨r, k, hk, hrun⟩ := ih rest (trace ++ [.rd addr v]) (by simpa using h)
        refine ⟨r, k + 1, by omega, ?_⟩
        simp [nvkm_msec_loop, bind_eq, nvkm_rd32, pure_eq, hv, hrun]
      · exact ⟨0, 1, by omega, by simp [nvkm_msec_loop, bind_eq, nvkm_rd32, pure_eq, hv]⟩

theorem filter_wr_reads (addr : Nat) (l : List Nat) :
    (l.map (Event.rd addr)).filter Event.isWr = [] := by
  rw [List.filter_eq_nil_iff]
  intro e he
  obtain ⟨v, _, rfl⟩ := List.mem_map.mp he
  simp [Event.isWr]

theorem requests_reads (addr : Nat) (l : List Nat) : requests (l.map (Event.rd addr)) = [] := by
  unfold requests
  rw [List.filterMap_eq_nil_iff]
  intro e he
  obtain ⟨v, _, rfl⟩ := List.mem_map.mp he
  rfl

theorem requests_append (t1 t2 : List Event) :
    requests (t1 ++ t2) = requests t1 ++ requests t2 := by
  unfold requests
  exact List.filterMap_append _ _ _

/-- Effects that are no firmware request add nothing to the blobs asked for. -/
theorem requests_eq_nil (t : List Event) (h : ∀ e ∈ t, e.requested = none) :
    requests t = [] := by
  unfold requests
  rw [List.filterMap_eq_nil_iff]
  exact h

/-- The halt wait and the interrupt mask: with a budget for the poll and a value
for each of its rounds the stage reaches the firmware resolution with the falcon
unchanged, having written only the halt acknowledgement (when it waited for the
halt) and the interrupt mask. -/
theorem falcon_halt_wait_spec (env : falcon_env) (n : Nat) (reads polls : List Nat)
    (trace : List Event) (falcon : nvkm_falcon) (h : n + 1 ≤ reads.length) :
    ∃ reads1 polls1 t, falcon_halt_wait env ⟨reads, n :: polls, trace, falcon⟩ =
        falcon_firmware env ⟨reads1, polls1, trace ++ t, falcon⟩ ∧
      t.filter Event.isWr =
        (if falcon.secret ≠ 0 ∧ falcon.version < 4 then
          [Event.wr (reg falcon.addr 0x004) 0x00000010] else []) ++
        [.wr (reg falcon.addr 0x014) 0xffffffff] ∧
      requests t = [] := by
  by_cases hs : falcon.secret ≠ 0 ∧ falcon.version < 4
  · by_cases hv : falcon.version = 0
    · obtain ⟨r, k, _, hrun⟩ := nvkm_msec_loop_total (reg falcon.addr 0x008)
        (fun v => decide (v &&& 0x00000010 ≠ 0)) n reads polls trace falcon h
      refine ⟨reads.drop k, polls,
        (reads.take k).map (Event.rd (reg falcon.addr 0x008)) ++
          [.wr (reg falcon.addr 0x004) 0x00000010, .wr (reg falcon.addr 0x014) 0xffffffff],
        ?_, ?_, ?_⟩
      · simp only [falcon_halt_wait, bind_eq, get_obj, if_pos hs, if_pos hv,
          nvkm_msec_cons, hrun, pure_eq, nvkm_wr32, emit, List.append_assoc,
          List.singleton_append]
      · rw [List.filter_append, filter_wr_reads, if_pos hs]
        rfl
      · rw [requests_append, requests_reads]
        rfl
    · obtain ⟨r, k, _, hrun⟩ := nvkm_msec_loop_total (reg falcon.addr 0x180)
        (fun v => decide (v &&& 0x80000000 = 0)) n reads polls trace falcon h
      refine ⟨reads.drop k, polls,
        (reads.take k).map (Event.rd (reg falcon.addr 0x180)) ++
          [.wr (reg falcon.addr 0x004) 0x00000010, .wr (reg falcon.addr 0x014) 0xffffffff],
        ?_, ?_, ?_⟩
      · simp only [falcon_halt_wait, bind_eq, get_obj, if_pos hs, if_neg hv,
          nvkm_msec_cons, hrun, pure_eq, nvkm_wr32, emit, List.append_assoc,
          List.singleton_append]
      · rw [List.filter_append, filter_wr_reads, if_pos hs]
        rfl
      · rw [requests_append, requests_reads]
        rfl
  · refine ⟨reads, n :: polls, [.wr (reg falcon.addr 0x014) 0xffffffff], ?_, ?_, rfl⟩
    · simp only [falcon_halt_wait, bind_eq, get_obj, if_neg hs, pure_eq, nvkm_wr32, emit]
    · rw [if_neg hs]
      rfl

/-- Power-up succeeded and the script answers: `_nvkm_falcon_init` reaches the
firmware resolution, having probed the falcon and written only the halt
acknowledgement (when it waited for the halt) and the interrupt mask. -/
theorem falcon_init_reaches_firmware (env : falcon_env) (w : World nvkm_falcon)
    (hinit : env.engine_init_old = 0) (hscript : script_ok w) :
    ∃ w1 t, _nvkm_falcon_init env w = falcon_firmware env w1 ∧
      w1.trace = w.trace ++ t ∧
      t.filter Event.isWr =
        (if w1.obj.secret ≠ 0 ∧ w1.obj.version < 4 then
          [Event.wr (reg w.obj.addr 0x004) 0x00000010] else []) ++
        [.wr (reg w.obj.addr 0x014) 0xffffffff] ∧
      requests t = [] ∧
      w1.obj.addr = w.obj.addr ∧
      w1.obj.code.data = w.obj.code.data ∧ w1.obj.code.size = w.obj.code.size ∧
      w1.obj.data.data = w.obj.data.data ∧ w1.obj.data.size = w.obj.data.size ∧
      w1.obj.core = w.obj.core ∧ w1.obj.external = w.obj.external := by
  obtain ⟨reads, polls0, trace, falcon⟩ := w
  match polls0, reads, hscript with
  | n :: polls, c0 :: c1 :: reads, hlen =>
    simp only [script_ok] at hlen
    by_cases hchip : env.chipset < 0xa3 ∨ env.chipset = 0xaa ∨ env.chipset = 0xac
    · obtain ⟨reads1, polls1, t, hrun, hwr, hreq⟩ := falcon_halt_wait_spec env n (c1 :: reads)
        polls (trace ++ [.rd (reg falcon.addr 0x108) c0])
        { falcon with
          version := 0, secret := if falcon.addr = 0x087000 then 1 else 0,
          code := { falcon.code with limit := (c0 &&& 0x000001ff) <<< 8 },
          data := { falcon.data with limit := (c0 &&& 0x0003fe00) >>> 1 } }
        (by simp only [List.length_cons] at hlen ⊢; omega)
      simp only at hwr
      refine ⟨⟨reads1, polls1, trace ++ [.rd (reg falcon.addr 0x108) c0] ++ t,
        { falcon with
          version := 0, secret := if falcon.addr = 0x087000 then 1 else 0,
          code := { falcon.code with limit := (c0 &&& 0x000001ff) <<< 8 },
          data := { falcon.data with limit := (c0 &&& 0x0003fe00) >>> 1 } }⟩,
        [.rd (reg falcon.addr 0x108) c0] ++ t, ?_, ?_, ?_, ?_, rfl, rfl, rfl, rfl, rfl,
        rfl, rfl⟩
      · simp only [_nvkm_falcon_init, hinit, ne_eq, not_true_eq_false, if_false, bind_eq,
          get_obj, if_pos hchip, set_obj, nvkm_rd32_cons]
        exact hrun
      · simp only [List.append_assoc]
      · rw [List.filter_append, hwr]
        rfl
      · rw [requests_append, hreq]
        rfl
    · obtain ⟨reads1, polls1, t, hrun, hwr, hreq⟩ := falcon_halt_wait_spec env n reads
        polls (trace ++ [.rd (reg falcon.addr 0x12c) c0] ++ [.rd (reg falcon.addr 0x108) c1])
        { falcon with
          version := c0 &&& 0x0000000f, secret := (c0 &&& 0x00000030) >>> 4,
          code := { falcon.code with limit := (c1 &&& 0x000001ff) <<< 8 },
          data := { falcon.data with limit := (c1 &&& 0x0003fe00) >>> 1 } }
        (by simp only [List.length_cons] at hlen ⊢; omega)
      simp only at hwr
      refine ⟨⟨reads1, polls1,
        trace ++ [.rd (reg falcon.addr 0x12c) c0] ++ [.rd (reg falcon.addr 0x108) c1] ++ t,
        { falcon with
          version := c0 &&& 0x0000000f, secret := (c0 &&& 0x00000030) >>> 4,
          code := { falcon.code with limit := (c1 &&& 0x000001ff) <<< 8 },
          data := { falcon.data with limit := (c1 &&& 0x0003fe00) >>> 1 } }⟩,
        [.rd (reg falcon.addr 0x12c) c0, .rd (reg falcon.addr 0x108) c1] ++ t,
        ?_, ?_, ?_, ?_, rfl, rfl, rfl, rfl, rfl, rfl, rfl⟩
      · simp only [_nvkm_falcon_init, hinit, ne_eq, not_true_eq_false, if_false, bind_eq,
          get_obj, if_neg hchip, set_obj, nvkm_rd32_cons]
        exact hrun
      · simp only [List.append_assoc, List.singleton_append, List.cons_append, List.nil_append]
      · rw [List.filter_append, hwr]
        rfl
      · rw [requests_append, hreq]
        rfl


/-- The core buffer stage, seen from the firmware resolution: the run returns, the
images are those it started with and no firmware is asked for. -/
theorem falcon_core_keeps_images (env : falcon_env) (w : World nvkm_falcon) :
    ∃ ret w2 t, falcon_core env w = .ok ret w2 ∧ w2.trace = w.trace ++ t ∧
      requests t = [] ∧ w2.obj.code = w.obj.code ∧ w2.obj.data = w.obj.data ∧
      w2.obj.external = w.obj.external := by
  obtain ⟨ret, t, core, hrun, hreq, _⟩ := falcon_core_spec env w
  exact ⟨ret, _, t, hrun, rfl, requests_eq_nil t hreq, rfl, rfl, rfl⟩

/-- The split images, for a falcon without a code image: the data blob is asked
for first and the code blob only once the data blob is there; a missing blob
ends the init with `-ENODEV`, a failed copy with `-ENOMEM`, and with both blobs
the falcon has a data and a code image. -/
theorem falcon_firmware_split_spec (env : falcon_env) (w : World nvkm_falcon)
    (h : w.obj.code.data = none) :
    ∃ ret w2 t, falcon_firmware_split env w = .ok ret w2 ∧ w2.trace = w.trace ++ t ∧
      (env.request_firmware .d = none →
        ret = -ENODEV ∧ requests t = [.d] ∧
        Event.error .unable_to_load_firmware_data ∈ t) ∧
      (∀ fd, env.request_firmware .d = some fd → env.vmemdup_ok .d = false →
        ret = -ENOMEM ∧ requests t = [.d]) ∧
      (∀ fd, env.request_firmware .d = some fd → env.vmemdup_ok .d = true →
        (env.request_firmware .c = none →
          ret = -ENODEV ∧ requests t = [.d, .c] ∧
          Event.error .unable_to_load_firmware_code ∈ t) ∧
        (∀ fc, env.request_firmware .c = some fc → env.vmemdup_ok .c = false →
          ret = -ENOMEM ∧ requests t = [.d, .c]) ∧
        (∀ fc, env.request_firmware .c = some fc → env.vmemdup_ok .c = true →
          requests t = [.d, .c] ∧
          w2.obj.data.data = some fd.data ∧ w2.obj.data.size = fd.size ∧
          w2.obj.code.data = some fc.data ∧ w2.obj.code.size = fc.size)) := by
  cases hd : env.request_firmware .d with
  | none =>
    refine ⟨_, _, _, split_no_data env w h hd, rfl, ?_, ?_, ?_⟩
    · intro _; exact ⟨rfl, rfl, by simp⟩
    · intro fd hfd; exact absurd hfd (by simp)
    · intro fd hfd; exact absurd hfd (by simp)
  | some fd =>
    cases hok : env.vmemdup_ok .d with
    | false =>
      refine ⟨_, _, _, split_data_nomem env w fd h hd hok, rfl, ?_, ?_, ?_⟩
      · intro hn; exact absurd hn (by simp)
      · intro _ _ _; exact ⟨rfl, rfl⟩
      · intro _ _ hf; exact absurd hf (by simp)
    | true =>
      cases hc : env.request_firmware .c with
      | none =>
        refine ⟨_, _, _, split_no_code env w fd h hd hok hc, rfl, ?_, ?_, ?_⟩
        · intro hn; exact absurd hn (by simp)
        · intro _ _ hf; exact absurd hf (by simp)
        · intro fd2 hfd2 _
          refine ⟨fun _ => ⟨rfl, rfl, by simp⟩, ?_, ?_⟩
          · intro fc hfc; exact absurd hfc (by simp)
          · intro fc hfc; exact absurd hfc (by simp)
      | some fc =>
        cases hokc : env.vmemdup_ok .c with
        | false =>
          refine ⟨_, _, _, split_code_nomem env w fd fc h hd hok hc hokc, rfl, ?_, ?_, ?_⟩
          · intro hn; exact absurd hn (by simp)
          · intro _ _ hf; exact absurd hf (by simp)
          · intro fd2 hfd2 _
            refine ⟨fun hn => absurd hn (by simp), ?_, ?_⟩
            · intro _ _ _; exact ⟨rfl, rfl⟩
            · intro _ _ hf; exact absurd hf (by simp)
        | true =>
          obtain ⟨ret, w2, t, hrun, htr, hreq, hcode, hdata, _⟩ := falcon_core_keeps_images env
            ⟨w.reads, w.polls, w.trace ++ [.request_firmware .d, .request_firmware .c],
              with_code (with_data w.obj true fd) true fc⟩
          refine ⟨ret, w2, [.request_firmware .d, .request_firmware .c] ++ t, ?_, ?_, ?_, ?_, ?_⟩
          · rw [split_both env w fd fc h hd hok hc hokc, hrun]
          · rw [htr]; simp only [List.append_assoc]
          · intro hn; exact absurd hn (by simp)
          · intro _ _ hf; exact absurd hf (by simp)
          · intro fd2 hfd2 _
            have e1 : fd2 = fd := by simpa using hfd2.symm
            subst e1
            refine ⟨fun hn => absurd hn (by simp), ?_, ?_⟩
            · intro _ _ hf; exact absurd hf (by simp)
            · intro fc2 hfc2 _
              have e2 : fc2 = fc := by simpa using hfc2.symm
              subst e2
              refine ⟨?_, ?_, ?_, ?_, ?_⟩
              · rw [requests_append, hreq]; rfl
              · rw [hdata]; rfl
              · rw [hdata]; rfl
              · rw [hcode]; rfl
              · rw [hcode]; rfl

/-- C9: a falcon that enters `_nvkm_falcon_init` without a code image (power-up
succeeded, the hardware answers the probe), for every answer of the firmware
loader. The self-bootstrapping blob is asked for first. If it is there and is
copied, it is the only blob asked for and the falcon ends with it as code image
(`code.size` its size), `data.data = NULL` and `data.size = 0`. If it is not there,
the `d` blob is asked for and then, once it is there and copied, the `c` blob; the
init returns `-ENODEV` at the first of the two that is missing (`-ENOMEM` when a
copy fails), and with both the falcon ends with a data and a code image. The `d`
and `c` blobs are asked for only when the self-bootstrapping blob was not
obtained. -/
theorem c9_firmware_resolution (env : falcon_env) (w : World nvkm_falcon)
    (hinit : env.engine_init_old = 0) (hscript : script_ok w)
    (hcode : w.obj.code.data = none) :
    ∃ ret w2 t, _nvkm_falcon_init env w = .ok ret w2 ∧ w2.trace = w.trace ++ t ∧
      (requests t).head? = some .self ∧
      (∀ fw, env.request_firmware .self = some fw → env.vmemdup_ok .self = true →
        requests t = [.self] ∧
        w2.obj.code.data = some fw.data ∧ w2.obj.code.size = fw.size ∧
        w2.obj.data.data = none ∧ w2.obj.data.size = 0 ∧ w2.obj.external = true) ∧
      (env.request_firmware .self = none →
        (env.request_firmware .d = none →
          ret = -ENODEV ∧ requests t = [.self, .d] ∧
          Event.error .unable_to_load_firmware_data ∈ t) ∧
        (∀ fd, env.request_firmware .d = some fd → env.vmemdup_ok .d = false →
          ret = -ENOMEM ∧ requests t = [.self, .d]) ∧
        (∀ fd, env.request_firmware .d = some fd → env.vmemdup_ok .d = true →
          (env.request_firmware .c = none →
            ret = -ENODEV ∧ requests t = [.self, .d, .c] ∧
            Event.error .unable_to_load_firmware_code ∈ t) ∧
          (∀ fc, env.request_firmware .c = some fc → env.vmemdup_ok .c = false →
            ret = -ENOMEM ∧ requests t = [.self, .d, .c]) ∧
          (∀ fc, env.request_firmware .c = some fc → env.vmemdup_ok .c = true →
            requests t = [.self, .d, .c] ∧
            w2.obj.data.data = some fd.data ∧ w2.obj.data.size = fd.size ∧
            w2.obj.code.data = some fc.data ∧ w2.obj.code.size = fc.size))) ∧
      (Seg.d ∈ requests t ∨ Seg.c ∈ requests t →
        env.request_firmware .self = none ∨ env.vmemdup_ok .self = false) := by
  obtain ⟨w1, t0, hrun, htr0, _, hreq0, _, hcd, _, _, _, _, _⟩ :=
    falcon_init_reaches_firmware env w hinit hscript
  have h1 : w1.obj.code.data = none := by rw [hcd]; exact hcode
  cases hs : env.request_firmware .self with
  | some fw =>
    cases hok : env.vmemdup_ok .self with
    | true =>
      have hne : (with_self w1.obj true fw).code.data ≠ none := by simp [with_self, vmemdup]
      obtain ⟨ret, w2, t2, hr2, htr2, hreq2, hc2, hd2, he2⟩ := falcon_core_keeps_images env
        ⟨w1.reads, w1.polls, w1.trace ++ [.request_firmware .self], with_self w1.obj true fw⟩
      have hreq : requests (t0 ++ [.request_firmware .self] ++ t2) = [.self] := by
        rw [requests_append, requests_append, hreq0, hreq2]; rfl
      refine ⟨ret, w2, t0 ++ [.request_firmware .self] ++ t2, ?_, ?_, ?_, ?_, ?_, ?_⟩
      · rw [hrun, firmware_self env w1 fw h1 hs, hok, split_supplied env _ hne, hr2]
      · rw [htr2, htr0]; simp only [List.append_assoc]
      · rw [hreq]; rfl
      · intro fw2 hfw2 _
        have e : fw2 = fw := by simpa using hfw2.symm
        subst e
        refine ⟨hreq, ?_, ?_, ?_, ?_, ?_⟩
        · rw [hc2]; rfl
        · rw [hc2]; rfl
        · rw [hd2]; rfl
        · rw [hd2]; rfl
        · rw [he2]; rfl
      · intro hn; exact absurd hn (by simp)
      · intro hmem
        rw [hreq] at hmem
        simp at hmem
    | false =>
      have hnone : (with_self w1.obj false fw).code.data = none := by simp [with_self, vmemdup]
      obtain ⟨ret, w2, t2, hr2, htr2, _⟩ := falcon_firmware_split_spec env
        ⟨w1.reads, w1.polls, w1.trace ++ [.request_firmware .self], with_self w1.obj false fw⟩
        hnone
      refine ⟨ret, w2, t0 ++ [.request_firmware .self] ++ t2, ?_, ?_, ?_, ?_, ?_, ?_⟩
      · rw [hrun, firmware_self env w1 fw h1 hs, hok, hr2]
      · rw [htr2, htr0]; simp only [List.append_assoc]
      · rw [requests_append, requests_append, hreq0]; rfl
      · intro _ _ hf; exact absurd hf (by simp)
      · intro hn; exact absurd hn (by simp)
      · intro _; exact Or.inr rfl
  | none =>
    obtain ⟨ret, w2, t2, hr2, htr2, k1, k2, k3⟩ := falcon_firmware_split_spec env
      ⟨w1.reads, w1.polls, w1.trace ++ [.request_firmware .self],
        { w1.obj with external := true }⟩ h1
    have hreq : requests (t0 ++ [.request_firmware .self] ++ t2) = .self :: requests t2 := by
      rw [requests_append, requests_append, hreq0]; rfl
    refine ⟨ret, w2, t0 ++ [.request_firmware .self] ++ t2, ?_, ?_, ?_, ?_, ?_, ?_⟩
    · rw [hrun, firmware_no_self env w1 h1 hs, hr2]
    · rw [htr2, htr0]; simp only [List.append_assoc]
    · rw [hreq]; rfl
    · intro _ hf; exact absurd hf (by simp)
    · intro _
      refine ⟨?_, ?_, ?_⟩
      · intro hd
        obtain ⟨a, b, c⟩ := k1 hd
        exact ⟨a, by rw [hreq, b], by simp [c]⟩
      · intro fd hfd hokd
        obtain ⟨a, b⟩ := k2 fd hfd hokd
        exact ⟨a, by rw [hreq, b]⟩
      · intro fd hfd hokd
        obtain ⟨m1, m2, m3⟩ := k3 fd hfd hokd
        refine ⟨?_, ?_, ?_⟩
        · intro hc
          obtain ⟨a, b, c⟩ := m1 hc
          exact ⟨a, by rw [hreq, b], by simp [c]⟩
        · intro fc hfc hokc
          obtain ⟨a, b⟩ := m2 fc hfc hokc
          exact ⟨a, by rw [hreq, b]⟩
        · intro fc hfc hokc
          obtain ⟨b, c1, c2, c3, c4⟩ := m3 fc hfc hokc
          exact ⟨by rw [hreq, b], c1, c2, c3, c4⟩
    · intro _; exact Or.inl rfl

theorem c9_firmware_resolution_witness :
    ∃ ret w2, _nvkm_falcon_init env_self_blob
        ⟨[0, 1, 0], [0], [], ⟨0x84000, 0, 0, ⟨none, 0, 0⟩, ⟨none, 0, 0⟩, false, none⟩⟩ =
        .ok ret w2 ∧
      w2.obj.code.data = some [0xf0, 0xf1] ∧ w2.obj.code.size = 8 ∧
      w2.obj.data.data = none ∧ w2.obj.data.size = 0 :=
  match c9_firmware_resolution env_self_blob
      ⟨[0, 1, 0], [0], [], ⟨0x84000, 0, 0, ⟨none, 0, 0⟩, ⟨none, 0, 0⟩, false, none⟩⟩
      rfl (by decide) rfl with
  | ⟨ret, w2, _, hrun, _, _, hself, _⟩ =>
    ⟨ret, w2, hrun, (hself ⟨8, [0xf0, 0xf1]⟩ rfl rfl).2.1, (hself ⟨8, [0xf0, 0xf1]⟩ rfl rfl).2.2.1,
      (hself ⟨8, [0xf0, 0xf1]⟩ rfl rfl).2.2.2.1, (hself ⟨8, [0xf0, 0xf1]⟩ rfl rfl).2.2.2.2.1⟩

/-! ### The data upload -/

/-- A loop with step 1 whose body writes one word per round. -/
theorem for_loop_one (f : Nat → Event) (fuel i bound : Nat) (h : bound - i ≤ fuel) :
    for_loop 1 (fun j => [f j]) fuel i bound = (List.range' i (bound - i)).map f := by
  induction fuel generalizing i with
  | zero =>
    have : bound - i = 0 := by omega
    simp [for_loop, this]
  | succ fuel ih =>
    unfold for_loop
    by_cases hi : i < bound
    · have e : bound - i = (bound - (i + 1)) + 1 := by omega
      rw [if_pos hi, ih (i + 1) (by omega), e, List.range'_succ]
      simp
    · have : bound - i = 0 := by omega
      simp [hi, this]

/-- A loop with step 1 whose body writes the same word in every round. -/
theorem for_loop_one_const (e : Event) (fuel i bound : Nat) (h : bound - i ≤ fuel) :
    for_loop 1 (fun _ => [e]) fuel i bound = List.replicate (bound - i) e := by
  induction fuel generalizing i with
  | zero =>
    have : bound - i = 0 := by omega
    simp [for_loop, this]
  | succ fuel ih =>
    unfold for_loop
    by_cases hi : i < bound
    · have e1 : bound - i = (bound - (i + 1)) + 1 := by omega
      rw [if_pos hi, ih (i + 1) (by omega), e1, List.replicate_succ]
      simp
    · have : bound - i = 0 := by omega
      simp [hi, this]

/-- A loop with step 4 whose body writes the same word in every round. -/
theorem for_loop_four_const (e : Event) (fuel i bound : Nat) (h : bound - i ≤ fuel) :
    for_loop 4 (fun _ => [e]) fuel i bound = List.replicate ((bound - i + 3) / 4) e := by
  induction fuel generalizing i with
  | zero =>
    have : (bound - i + 3) / 4 = 0 := by omega
    simp [for_loop, this]
  | succ fuel ih =>
    unfold for_loop
    by_cases hi : i < bound
    · have e1 : (bound - i + 3) / 4 = (bound - (i + 4) + 3) / 4 + 1 := by omega
      rw [if_pos hi, ih (i + 4) (by omega), e1, List.replicate_succ]
      simp
    · have : (bound - i + 3) / 4 = 0 := by omega
      simp [hi, this]

/-- The data upload, whatever the falcon: the select write, the `data_words` words
of the image in order, `zero_words` zeros, all to the data port, then the start. -/
theorem falcon_upload_data_eq (w : World nvkm_falcon) :
    falcon_upload_data w =
      falcon_start ⟨w.reads, w.polls,
        w.trace ++ (data_select w.obj ::
          ((List.range (data_words w.obj)).map
              (fun i => Event.wr (data_port w.obj) (word w.obj.data.data i)) ++
            List.replicate (zero_words w.obj) (.wr (data_port w.obj) 0))),
        w.obj⟩ := by
  obtain ⟨reads, polls, trace, falcon⟩ := w
  by_cases hv : falcon.version < 3
  · simp only [falcon_upload_data, bind_eq, get_obj, if_pos hv, nvkm_wr32, emit, emits,
      data_select, data_port, data_words, zero_words]
    rw [for_loop_one (fun i => Event.wr (reg falcon.addr 0xff4) (word falcon.data.data i))
        _ 0 _ (by omega),
      for_loop_four_const _ falcon.data.limit _ falcon.data.limit (by omega)]
    simp [List.range_eq_range']
  · simp only [falcon_upload_data, bind_eq, get_obj, if_neg hv, nvkm_wr32, emit, emits,
      data_select, data_port, data_words, zero_words]
    rw [for_loop_one (fun i => Event.wr (reg falcon.addr 0x1c4) (word falcon.data.data i))
        _ 0 _ (by omega),
      for_loop_one_const _ (falcon.data.limit / 4) _ (falcon.data.limit / 4) (by omega)]
    simp [List.range_eq_range']

/-- C11, as the code has it: the data upload of a falcon without a core buffer, with
`data.size` and `data.limit` multiples of 4 and `data.size <= data.limit`, writes to
the data port the `data.size / 4` words of the data image in order and then zeros.
From version 3 on the zeros are `(data.limit - data.size) / 4` and the upload is
`data.limit / 4` words. Before version 3 the zero-fill loop goes on from the word
count with step 4 up to the limit in bytes: the zeros are
`data.limit / 4 - data.size / 16` and the upload is
`data.limit / 4 + (data.size / 4 - data.size / 16)` words, more than
`data.limit / 4` as soon as the image is not empty. -/
theorem c11_data_upload_words (w : World nvkm_falcon) (hcore : w.obj.core = none)
    (hsize : w.obj.data.size % 4 = 0) (hlimit : w.obj.data.limit % 4 = 0)
    (hle : w.obj.data.size ≤ w.obj.data.limit) :
    falcon_upload_data w =
      falcon_start ⟨w.reads, w.polls,
        w.trace ++ (data_select w.obj ::
          ((List.range (w.obj.data.size / 4)).map
              (fun i => Event.wr (data_port w.obj) (word w.obj.data.data i)) ++
            List.replicate (zero_words w.obj) (.wr (data_port w.obj) 0))),
        w.obj⟩ ∧
    (¬ w.obj.version < 3 →
      zero_words w.obj = (w.obj.data.limit - w.obj.data.size) / 4 ∧
      w.obj.data.size / 4 + zero_words w.obj = w.obj.data.limit / 4) ∧
    (w.obj.version < 3 →
      zero_words w.obj = w.obj.data.limit / 4 - w.obj.data.size / 16 ∧
      w.obj.data.size / 4 + zero_words w.obj =
        w.obj.data.limit / 4 + (w.obj.data.size / 4 - w.obj.data.size / 16) ∧
      (0 < w.obj.data.size →
        w.obj.data.limit / 4 < w.obj.data.size / 4 + zero_words w.obj)) := by
  have hw : data_words w.obj = w.obj.data.size / 4 := by simp [data_words, hcore]
  refine ⟨?_, ?_, ?_⟩
  · rw [falcon_upload_data_eq, hw]
  · intro hv
    simp only [zero_words, if_neg hv, hw]
    omega
  · intro hv
    simp only [zero_words, if_pos hv, hw]
    omega

theorem c11_data_upload_words_witness :
    (zero_words (falcon_two_words 0 256) = 256 / 4 - 8 / 16 ∧
      8 / 4 + zero_words (falcon_two_words 0 256) = 256 / 4 + (8 / 4 - 8 / 16) ∧
      (0 < 8 → 256 / 4 < 8 / 4 + zero_words (falcon_two_words 0 256))) ∧
    _nvkm_falcon_init env_legacy ⟨[0x201], [], [], falcon_two_words 0 0⟩ =
      .ok 0 ⟨[], [],
        [.rd 0x84108 0x201, .wr 0x84014 0xffffffff, .wr 0x84ff8 0x00100000,
         .wr 0x84ff4 0xc0de, .wr 0x84ff8 0, .wr 0x84ff4 7, .wr 0x84ff4 9] ++
        List.replicate 64 (.wr 0x84ff4 0) ++
        [.wr 0x8410c 1, .wr 0x84104 0, .wr 0x84100 2, .wr 0x84048 3],
        falcon_two_words 0 256⟩ :=
  ⟨(c11_data_upload_words ⟨[], [], [], falcon_two_words 0 256⟩ rfl rfl rfl
      (by decide)).2.2 (by decide),
    rfl⟩

/-! ### The size check -/

/-- The halt wait and the interrupt mask: the stage goes on to the firmware
resolution, having added only register reads and writes. -/
theorem falcon_halt_wait_run (env : falcon_env) (n : Nat) (reads polls : List Nat)
    (trace : List Event) (falcon : nvkm_falcon) (h : n + 1 ≤ reads.length) :
    ∃ reads1 polls1 t, falcon_halt_wait env ⟨reads, n :: polls, trace, falcon⟩ =
        falcon_firmware env ⟨reads1, polls1, trace ++ t, falcon⟩ ∧
      t.filter Event.isWr = halt_mask_writes falcon ∧
      (∀ e ∈ t, e.isRd = true ∨ e.isWr = true) := by
  unfold halt_mask_writes
  by_cases hs : falcon.secret ≠ 0 ∧ falcon.version < 4
  · by_cases hv : falcon.version = 0
    · obtain ⟨r, k, _, hrun⟩ := nvkm_msec_loop_total (reg falcon.addr 0x008)
        (fun v => decide (v &&& 0x00000010 ≠ 0)) n reads polls trace falcon h
      refine ⟨reads.drop k, polls,
        (reads.take k).map (Event.rd (reg falcon.addr 0x008)) ++
          [.wr (reg falcon.addr 0x004) 0x00000010, .wr (reg falcon.addr 0x014) 0xffffffff],
        ?_, ?_, ?_⟩
      · simp only [falcon_halt_wait, bind_eq, get_obj, if_pos hs, if_pos hv,
          nvkm_msec_cons, hrun, pure_eq, nvkm_wr32, emit, List.append_assoc,
          List.singleton_append]
      · rw [List.filter_append, filter_wr_reads, if_pos hs]
        rfl
      · intro e he
        simp only [List.mem_append, List.mem_map, List.mem_cons, List.mem_singleton,
          List.not_mem_nil, or_false] at he
        rcases he with ⟨v, _, rfl⟩ | rfl | rfl
        · exact Or.inl rfl
        · exact Or.inr rfl
        · exact Or.inr rfl
    · obtain ⟨r, k, _, hrun⟩ := nvkm_msec_loop_total (reg falcon.addr 0x180)
        (fun v => decide (v &&& 0x80000000 = 0)) n reads polls trace falcon h
      refine ⟨reads.drop k, polls,
        (reads.take k).map (Event.rd (reg falcon.addr 0x180)) ++
          [.wr (reg falcon.addr 0x004) 0x00000010, .wr (reg falcon.addr 0x014) 0xffffffff],
        ?_, ?_, ?_⟩
      · simp only [falcon_halt_wait, bind_eq, get_obj, if_pos hs, if_neg hv,
          nvkm_msec_cons, hrun, pure_eq, nvkm_wr32, emit, List.append_assoc,
          List.singleton_append]
      · rw [List.filter_append, filter_wr_reads, if_pos hs]
        rfl
      · intro e he
        simp only [List.mem_append, List.mem_map, List.mem_cons, List.mem_singleton,
          List.not_mem_nil, or_false] at he
        rcases he with ⟨v, _, rfl⟩ | rfl | rfl
        · exact Or.inl rfl
        · exact Or.inr rfl
        · exact Or.inr rfl
  · refine ⟨reads, n :: polls, [.wr (reg falcon.addr 0x014) 0xffffffff], ?_, ?_, ?_⟩
    · simp only [falcon_halt_wait, bind_eq, get_obj, if_neg hs, pure_eq, nvkm_wr32, emit]
    · rw [if_neg hs]
      rfl
    · intro e he
      simp only [List.mem_singleton] at he
      rw [he]
      exact Or.inr rfl

/-- Power-up succeeded and the script answers: `_nvkm_falcon_init` reaches the
firmware resolution on the probed falcon, having added only register reads and
the writes of the halt acknowledgement and of the interrupt mask. -/
theorem falcon_init_probe (env : falcon_env) (w : World nvkm_falcon)
    (hinit : env.engine_init_old = 0) (hscript : script_ok w) :
    ∃ reads1 polls1 t, _nvkm_falcon_init env w =
        falcon_firmware env ⟨reads1, polls1, w.trace ++ t, falcon_probed env w.reads w.obj⟩ ∧
      t.filter Event.isWr = halt_mask_writes (falcon_probed env w.reads w.obj) ∧
      (∀ e ∈ t, e.isRd = true ∨ e.isWr = true) := by
  obtain ⟨reads, polls0, trace, falcon⟩ := w
  match polls0, reads, hscript with
  | n :: polls, c0 :: c1 :: reads, hlen =>
    simp only [script_ok] at hlen
    by_cases hchip : env.chipset < 0xa3 ∨ env.chipset = 0xaa ∨ env.chipset = 0xac
    · have hp : falcon_probed env (c0 :: c1 :: reads) falcon =
          { falcon with
            version := 0, secret := if falcon.addr = 0x087000 then 1 else 0,
            code := { falcon.code with limit := (c0 &&& 0x000001ff) <<< 8 },
            data := { falcon.data with limit := (c0 &&& 0x0003fe00) >>> 1 } } := by
        simp [falcon_probed, probed_caps, hchip]
      obtain ⟨reads1, polls1, t, hrun, hwr, hev⟩ := falcon_halt_wait_run env n (c1 :: reads)
        polls (trace ++ [.rd (reg falcon.addr 0x108) c0])
        (falcon_probed env (c0 :: c1 :: reads) falcon)
        (by simp only [List.length_cons] at hlen ⊢; omega)
      refine ⟨reads1, polls1, [.rd (reg falcon.addr 0x108) c0] ++ t, ?_, ?_, ?_⟩
      · simp only [_nvkm_falcon_init, hinit, ne_eq, not_true_eq_false, if_false, bind_eq,
          get_obj, if_pos hchip, set_obj, nvkm_rd32_cons]
        rw [← hp, hrun, List.append_assoc]
      · rw [List.filter_append, hwr]
        rfl
      · intro e he
        simp only [List.mem_append, List.mem_singleton] at he
        rcases he with rfl | he
        · exact Or.inl rfl
        · exact hev e he
    · have hp : falcon_probed env (c0 :: c1 :: reads) falcon =
          { falcon with
            version := c0 &&& 0x0000000f, secret := (c0 &&& 0x00000030) >>> 4,
            code := { falcon.code with limit := (c1 &&& 0x000001ff) <<< 8 },
            data := { falcon.data with limit := (c1 &&& 0x0003fe00) >>> 1 } } := by
        simp [falcon_probed, probed_caps, hchip]
      obtain ⟨reads1, polls1, t, hrun, hwr, hev⟩ := falcon_halt_wait_run env n reads
        polls (trace ++ [.rd (reg falcon.addr 0x12c) c0] ++ [.rd (reg falcon.addr 0x108) c1])
        (falcon_probed env (c0 :: c1 :: reads) falcon)
        (by simp only [List.length_cons] at hlen ⊢; omega)
      refine ⟨reads1, polls1,
        [.rd (reg falcon.addr 0x12c) c0, .rd (reg falcon.addr 0x108) c1] ++ t, ?_, ?_, ?_⟩
      · simp only [_nvkm_falcon_init, hinit, ne_eq, not_true_eq_false, if_false, bind_eq,
          get_obj, if_neg hchip, set_obj, nvkm_rd32_cons]
        rw [← hp, hrun]
        simp only [List.append_assoc, List.singleton_append, List.cons_append,
          List.nil_append]
      · rw [List.filter_append, hwr]
        rfl
      · intro e he
        simp only [List.mem_append, List.mem_cons, List.mem_singleton, List.not_mem_nil,
          or_false] at he
        rcases he with (rfl | rfl) | he
        · exact Or.inl rfl
        · exact Or.inl rfl
        · exact hev e he

/-- With a data image or a core buffer the core buffer stage allocates nothing. -/
theorem falcon_core_skip (env : falcon_env) (w : World nvkm_falcon)
    (h : w.obj.data.data ≠ none ∨ w.obj.core ≠ none) :
    falcon_core env w = falcon_upload env w := by
  have hA : ¬ (w.obj.data.data.isNone = true ∧ w.obj.core.isNone = true) := by
    simp only [Option.isNone_iff_eq_none]
    rintro ⟨h1, h2⟩
    rcases h with h | h
    · exact h h1
    · exact h h2
  simp only [falcon_core, bind_eq, get_obj, if_neg hA]

theorem falcon_start_eq (w : World nvkm_falcon) :
    falcon_start w =
      .ok 0 ⟨w.reads, w.polls,
        w.trace ++ [.wr (reg w.obj.addr 0x10c) 0x00000001, .wr (reg w.obj.addr 0x104) 0x00000000,
          .wr (reg w.obj.addr 0x100) 0x00000002, .wr (reg w.obj.addr 0x048) 0x00000003],
        w.obj⟩ := by
  simp [falcon_start, bind_eq, pure_eq, get_obj, nvkm_wr32, emit]

/-- With a core buffer the upload checks no size: it points the falcon at the
buffer, zeroes the data segment, starts the falcon and returns 0. -/
theorem falcon_upload_core (env : falcon_env) (w : World nvkm_falcon) (c : Nat)
    (hcore : w.obj.core = some c) :
    falcon_upload env w =
      .ok 0 ⟨w.reads, w.polls, w.trace ++ core_boot_writes env w.obj c, w.obj⟩ := by
  obtain ⟨reads, polls, trace, falcon⟩ := w
  simp only at hcore
  have hw : data_words falcon = 0 := by simp [data_words, hcore]
  by_cases hct : env.card_type < NV_C0
  · simp only [falcon_upload, bind_eq, get_obj, hcore, if_pos hct, nvkm_wr32, emit,
      falcon_upload_data_eq, falcon_start_eq, hw, core_boot_writes]
    simp
  · simp only [falcon_upload, bind_eq, get_obj, hcore, if_neg hct, nvkm_wr32, emit,
      falcon_upload_data_eq, falcon_start_eq, hw, core_boot_writes]
    simp

theorem core_boot_writes_wr (env : falcon_env) (falcon : nvkm_falcon) (c : Nat) :
    ∀ e ∈ core_boot_writes env falcon c, e.isWr = true := by
  intro e he
  simp only [core_boot_writes, data_select, List.mem_append, List.mem_cons,
    List.mem_singleton, List.not_mem_nil, or_false, List.mem_replicate] at he
  rcases he with ((rfl | rfl | rfl | rfl | rfl) | (rfl | ⟨_, rfl⟩)) | (rfl | rfl | rfl | rfl)
  all_goals first | rfl | (split <;> rfl)

theorem falcon_core_unchecked (env : falcon_env) (w : World nvkm_falcon) (c : Nat)
    (hcore : w.obj.core = some c) :
    ∃ ret w2 t, falcon_core env w = .ok ret w2 ∧ w2.trace = w.trace ++ t ∧
      ret ≠ -EINVAL ∧ Event.error .ucode_exceeds_falcon_limits ∉ t := by
  refine ⟨0, ⟨w.reads, w.polls, w.trace ++ core_boot_writes env w.obj c, w.obj⟩,
    core_boot_writes env w.obj c, ?_, rfl, by decide, ?_⟩
  · rw [falcon_core_skip env w (Or.inr (by simp [hcore])), falcon_upload_core env w c hcore]
  · intro h
    have := core_boot_writes_wr env w.obj c _ h
    simp [Event.isWr] at this

theorem falcon_firmware_split_unchecked (env : falcon_env) (w : World nvkm_falcon) (c : Nat)
    (hcore : w.obj.core = some c) :
    ∃ ret w2 t, falcon_firmware_split env w = .ok ret w2 ∧ w2.trace = w.trace ++ t ∧
      ret ≠ -EINVAL ∧ Event.error .ucode_exceeds_falcon_limits ∉ t := by
  by_cases h : w.obj.code.data = none
  · cases hd : env.request_firmware .d with
    | none => exact ⟨_, _, _, split_no_data env w h hd, rfl, by decide, by decide⟩
    | some fd =>
      cases hok : env.vmemdup_ok .d with
      | false => exact ⟨_, _, _, split_data_nomem env w fd h hd hok, rfl, by decide, by decide⟩
      | true =>
        cases hc : env.request_firmware .c with
        | none => exact ⟨_, _, _, split_no_code env w fd h hd hok hc, rfl, by decide, by decide⟩
        | some fc =>
          cases hokc : env.vmemdup_ok .c with
          | false =>
            exact ⟨_, _, _, split_code_nomem env w fd fc h hd hok hc hokc, rfl, by decide,
              by decide⟩
          | true =>
            obtain ⟨ret, w2, t, hrun, htr, hret, hno⟩ := falcon_core_unchecked env
              ⟨w.reads, w.polls, w.trace ++ [.request_firmware .d, .request_firmware .c],
                with_code (with_data w.obj true fd) true fc⟩ c hcore
            refine ⟨ret, w2, [.request_firmware .d, .request_firmware .c] ++ t, ?_, ?_, hret,
              ?_⟩
            · rw [split_both env w fd fc h hd hok hc hokc, hrun]
            · rw [htr, List.append_assoc]
            · intro hm
              simp only [List.mem_append, List.mem_cons, List.not_mem_nil, or_false] at hm
              rcases hm with (hm | hm) | hm
              · exact absurd hm (by decide)
              · exact absurd hm (by decide)
              · exact hno hm
  · obtain ⟨ret, w2, t, hrun, htr, hret, hno⟩ := falcon_core_unchecked env w c hcore
    exact ⟨ret, w2, t, by rw [split_supplied env w h, hrun], htr, hret, hno⟩

theorem falcon_firmware_unchecked (env : falcon_env) (w : World nvkm_falcon) (c : Nat)
    (hcore : w.obj.core = some c) :
    ∃ ret w2 t, falcon_firmware env w = .ok ret w2 ∧ w2.trace = w.trace ++ t ∧
      ret ≠ -EINVAL ∧ Event.error .ucode_exceeds_falcon_limits ∉ t := by
  by_cases h : w.obj.code.data = none
  · cases hs : env.request_firmware .self with
    | none =>
      obtain ⟨ret, w2, t, hrun, htr, hret, hno⟩ := falcon_firmware_split_unchecked env
        ⟨w.reads, w.polls, w.trace ++ [.request_firmware .self],
          { w.obj with external := true }⟩ c hcore
      refine ⟨ret, w2, [.request_firmware .self] ++ t, ?_, ?_, hret, ?_⟩
      · rw [firmware_no_self env w h hs, hrun]
      · rw [htr, List.append_assoc]
      · intro hm
        simp only [List.mem_append, List.mem_singleton] at hm
        rcases hm with hm | hm
        · exact absurd hm (by decide)
        · exact hno hm
    | some fw =>
      obtain ⟨ret, w2, t, hrun, htr, hret, hno⟩ := falcon_firmware_split_unchecked env
        ⟨w.reads, w.polls, w.trace ++ [.request_firmware .self],
          with_self w.obj (env.vmemdup_ok .self) fw⟩ c hcore
      refine ⟨ret, w2, [.request_firmware .self] ++ t, ?_, ?_, hret, ?_⟩
      · rw [firmware_self env w fw h hs, hrun]
      · rw [htr, List.append_assoc]
      · intro hm
        simp only [List.mem_append, List.mem_singleton] at hm
        rcases hm with hm | hm
        · exact absurd hm (by decide)
        · exact hno hm
  · obtain ⟨ret, w2, t, hrun, htr, hret, hno⟩ := falcon_firmware_split_unchecked env w c hcore
    exact ⟨ret, w2, t, by rw [firmware_supplied env w h, hrun], htr, hret, hno⟩

theorem not_error_of_rd_wr (t : List Event) (h : ∀ e ∈ t, e.isRd = true ∨ e.isWr = true)
    (msg : Msg) : Event.error msg ∉ t := by
  intro hm
  rcases h _ hm with h | h
  · simp [Event.isRd] at h
  · simp [Event.isWr] at h

/-- C3, as the code has it. Power-up succeeded and the hardware answers the probe;
the limits are those probed from `base + 0x108`.
(1) A falcon called with a code image and a data image and no core buffer, with
`code.size > code.limit` or `data.size > data.limit`, gets `-EINVAL`, the last
effect being the line "ucode exceeds falcon limit(s)"; the register writes made
before are the acknowledgement of the halt (`base + 0x004 := 0x10`, only when
`secret` is set and `version < 4`) and the interrupt mask
(`base + 0x014 := 0xffffffff`): nothing was uploaded, the falcon was not started.
(2) The same when the two images are the blobs `d` and `c` of the firmware loader,
the error line directly following the three requests.
(3) A falcon called with a core buffer and a code image is not size-checked,
whatever the sizes: the init writes `core_boot_writes` (the upload through the
buffer, zeros to the data segment, the start) and returns 0.
(4) No falcon called with a core buffer is size-checked: the init returns
something else than `-EINVAL` and does not log the line. -/
theorem c3_limit_violation_fails_before_upload (env : falcon_env) (w : World nvkm_falcon)
    (hinit : env.engine_init_old = 0) (hscript : script_ok w) :
    (w.obj.core = none → w.obj.code.data ≠ none → w.obj.data.data ≠ none →
      (w.obj.code.size > (probed_caps env w.reads &&& 0x000001ff) <<< 8 ∨
        w.obj.data.size > (probed_caps env w.reads &&& 0x0003fe00) >>> 1) →
      ∃ reads1 polls1 t, _nvkm_falcon_init env w =
          .ok (-EINVAL) ⟨reads1, polls1,
            w.trace ++ (t ++ [.error .ucode_exceeds_falcon_limits]),
            falcon_probed env w.reads w.obj⟩ ∧
        t.filter Event.isWr = halt_mask_writes (falcon_probed env w.reads w.obj)) ∧
    (∀ fd fc, w.obj.core = none → w.obj.code.data = none →
      env.request_firmware .self = none →
      env.request_firmware .d = some fd → env.vmemdup_ok .d = true →
      env.request_firmware .c = some fc → env.vmemdup_ok .c = true →
      (fc.size > (probed_caps env w.reads &&& 0x000001ff) <<< 8 ∨
        fd.size > (probed_caps env w.reads &&& 0x0003fe00) >>> 1) →
      ∃ reads1 polls1 t, _nvkm_falcon_init env w =
          .ok (-EINVAL) ⟨reads1, polls1,
            w.trace ++ (t ++ [.request_firmware .self, .request_firmware .d,
              .request_firmware .c, .error .ucode_exceeds_falcon_limits]),
            with_code (with_data
              { falcon_probed env w.reads w.obj with external := true } true fd) true fc⟩ ∧
        t.filter Event.isWr = halt_mask_writes (falcon_probed env w.reads w.obj)) ∧
    (∀ c, w.obj.core = some c → w.obj.code.data ≠ none →
      ∃ reads1 polls1 t, _nvkm_falcon_init env w =
          .ok 0 ⟨reads1, polls1,
            w.trace ++ (t ++ core_boot_writes env (falcon_probed env w.reads w.obj) c),
            falcon_probed env w.reads w.obj⟩ ∧
        t.filter Event.isWr = halt_mask_writes (falcon_probed env w.reads w.obj) ∧
        Event.error .ucode_exceeds_falcon_limits ∉
          t ++ core_boot_writes env (falcon_probed env w.reads w.obj) c) ∧
    (∀ c, w.obj.core = some c →
      ∃ ret w2 t, _nvkm_falcon_init env w = .ok ret w2 ∧ w2.trace = w.trace ++ t ∧
        ret ≠ -EINVAL ∧ Event.error .ucode_exceeds_falcon_limits ∉ t) := by
  obtain ⟨reads1, polls1, t0, hrun, hwr, hev⟩ := falcon_init_probe env w hinit hscript
  refine ⟨?_, ?_, ?_, ?_⟩
  · intro hcore hcode hdata hex
    refine ⟨reads1, polls1, t0, ?_, hwr⟩
    rw [hrun,
      firmware_supplied env ⟨reads1, polls1, w.trace ++ t0, falcon_probed env w.reads w.obj⟩
        hcode,
      split_supplied env ⟨reads1, polls1, w.trace ++ t0, falcon_probed env w.reads w.obj⟩
        hcode,
      falcon_core_skip env ⟨reads1, polls1, w.trace ++ t0, falcon_probed env w.reads w.obj⟩
        (Or.inl hdata),
      falcon_upload_exceeds env
        ⟨reads1, polls1, w.trace ++ t0, falcon_probed env w.reads w.obj⟩ hcore hex,
      List.append_assoc]
  · intro fd fc hcore hcode hself hd hokd hc hokc hex
    refine ⟨reads1, polls1, t0, ?_, hwr⟩
    refine hrun.trans ((firmware_no_self env
      ⟨reads1, polls1, w.trace ++ t0, falcon_probed env w.reads w.obj⟩ hcode hself).trans
      ((split_both env
        ⟨reads1, polls1, w.trace ++ t0 ++ [.request_firmware .self],
          { falcon_probed env w.reads w.obj with external := true }⟩
        fd fc hcode hd hokd hc hokc).trans
      ((falcon_core_skip env
        ⟨reads1, polls1,
          w.trace ++ t0 ++ [.request_firmware .self] ++
            [.request_firmware .d, .request_firmware .c],
          with_code (with_data
            { falcon_probed env w.reads w.obj with external := true } true fd) true fc⟩
        (Or.inl (by simp [with_code, with_data, vmemdup]))).trans
      ((falcon_upload_exceeds env
        ⟨reads1, polls1,
          w.trace ++ t0 ++ [.request_firmware .self] ++
            [.request_firmware .d, .request_firmware .c],
          with_code (with_data
            { falcon_probed env w.reads w.obj with external := true } true fd) true fc⟩
        hcore hex).trans ?_))))
    simp only [List.append_assoc, List.singleton_append, List.cons_append, List.nil_append]
  · intro c hcore hcode
    refine ⟨reads1, polls1, t0, ?_, hwr, ?_⟩
    · rw [hrun,
        firmware_supplied env
          ⟨reads1, polls1, w.trace ++ t0, falcon_probed env w.reads w.obj⟩ hcode,
        split_supplied env
          ⟨reads1, polls1, w.trace ++ t0, falcon_probed env w.reads w.obj⟩ hcode,
        falcon_core_skip env
          ⟨reads1, polls1, w.trace ++ t0, falcon_probed env w.reads w.obj⟩
          (Or.inr (by simp [falcon_probed, hcore])),
        falcon_upload_core env
          ⟨reads1, polls1, w.trace ++ t0, falcon_probed env w.reads w.obj⟩ c hcore,
        List.append_assoc]
    · intro hm
      rcases List.mem_append.mp hm with hm | hm
      · exact not_error_of_rd_wr t0 hev _ hm
      · have := core_boot_writes_wr env _ c _ hm
        simp [Event.isWr] at this
  · intro c hcore
    obtain ⟨ret, w2, t, hrun2, htr, hret, hno⟩ := falcon_firmware_unchecked env
      ⟨reads1, polls1, w.trace ++ t0, falcon_probed env w.reads w.obj⟩ c hcore
    refine ⟨ret, w2, t0 ++ t, by rw [hrun, hrun2], by rw [htr, List.append_assoc], hret, ?_⟩
    intro hm
    rcases List.mem_append.mp hm with hm | hm
    · exact not_error_of_rd_wr t0 hev _ hm
    · exact hno hm

theorem c3_limit_violation_fails_before_upload_witness :
    ∃ reads1 polls1 t, _nvkm_falcon_init env_no_blob
        ⟨[0x13, 0x001, 0], [0], [],
          ⟨0x84000, 0, 0, ⟨some [1, 2], 257, 0⟩, ⟨some [], 0, 0⟩, false, none⟩⟩ =
        .ok (-EINVAL) ⟨reads1, polls1,
          [] ++ (t ++ [.error .ucode_exceeds_falcon_limits]),
          ⟨0x84000, 3, 1, ⟨some [1, 2], 257, 256⟩, ⟨some [], 0, 0⟩, false, none⟩⟩ ∧
      t.filter Event.isWr =
        [.wr 0x84004 0x00000010, .wr 0x84014 0xffffffff] :=
  (c3_limit_violation_fails_before_upload env_no_blob
    ⟨[0x13, 0x001, 0], [0], [],
      ⟨0x84000, 0, 0, ⟨some [1, 2], 257, 0⟩, ⟨some [], 0, 0⟩, false, none⟩⟩
    rfl (by decide)).1 rfl (by decide) (by decide) (by decide)

/-- C3 fails as stated: (1) a falcon with a supplied code image of
`code.limit + 1 = 257` bytes and no core buffer gets `-EINVAL`, but only after the
interrupt mask was written to `base + 0x014`; (2) the same falcon with a core
buffer is not checked at all: the call uploads and returns 0. -/
theorem c3_counterexample :
    (_nvkm_falcon_init env_no_blob
        ⟨[0, 0x001], [], [],
          ⟨0x84000, 0, 0, ⟨some [1, 2], 257, 0⟩, ⟨some [], 0, 0⟩, false, none⟩⟩ =
      .ok (-EINVAL) ⟨[], [],
        [.rd 0x8412c 0, .rd 0x84108 0x001, .wr 0x84014 0xffffffff,
         .error .ucode_exceeds_falcon_limits],
        ⟨0x84000, 0, 0, ⟨some [1, 2], 257, 256⟩, ⟨some [], 0, 0⟩, false, none⟩⟩) ∧
    (_nvkm_falcon_init env_no_blob
        ⟨[0, 0x001], [], [],
          ⟨0x84000, 0, 0, ⟨some [1, 2], 257, 0⟩, ⟨some [], 0, 0⟩, false,
            some 0x1000⟩⟩ =
      .ok 0 ⟨[], [],
        [.rd 0x8412c 0, .rd 0x84108 0x001, .wr 0x84014 0xffffffff,
         .wr 0x84618 0x00000114, .wr 0x8411c 0, .wr 0x84110 0x10, .wr 0x84114 0,
         .wr 0x84118 0x00006610, .wr 0x84ff8 0,
         .wr 0x8410c 1, .wr 0x84104 0, .wr 0x84100 2, .wr 0x84048 3],
        ⟨0x84000, 0, 0, ⟨some [1, 2], 257, 256⟩, ⟨some [], 0, 0⟩, false,
          some 0x1000⟩⟩) := by
  constructor <;> rfl

/-! ## Theorems: the index arithmetic of the send ring -/

theorem xor_8_eq (put : Nat) (h : put < 16) : put ^^^ 8 = (put + 8) % 16 := by
  interval_cases put <;> rfl

theorem next_index_eq (addr : Nat) : next_index addr = (addr + 1) % 16 := by
  unfold next_index
  rw [and_15_eq_mod]
  unfold u32
  omega

/-- What the room check, the slot and the next index are on indices in range. -/
theorem ring_facts (put get : Nat) (hput : put < 16) (hget : get < 16)
    (hocc : occupancy put get ≤ 8) :
    (room_check put get = true ↔ occupancy put get < 8) ∧
    (room_check put get = true →
      (∀ j, j < occupancy put get → send_slot put ≠ (get + j) &&& 0x07) ∧
      next_index put < 16 ∧
      occupancy (next_index put) get = occupancy put get + 1 ∧
      occupancy (next_index put) get ≤ 8) ∧
    (get ≠ put →
      next_index get < 16 ∧
      occupancy put (next_index get) + 1 = occupancy put get ∧
      occupancy put (next_index get) ≤ 8) := by
  have hx := xor_8_eq put hput
  have hn := next_index_eq put
  have hg := next_index_eq get
  have hroom : room_check put get = true ↔ occupancy put get < 8 := by
    simp only [room_check, decide_eq_true_eq, hx, occupancy] at hocc ⊢
    omega
  refine ⟨hroom, ?_, ?_⟩
  · intro hr
    have hlt := hroom.mp hr
    refine ⟨?_, ?_, ?_, ?_⟩
    · intro j hj
      simp only [send_slot, and_7_eq_mod, occupancy] at hj hlt ⊢
      omega
    · rw [hn]; omega
    · simp only [hn, occupancy] at hlt ⊢
      omega
    · simp only [hn, occupancy] at hlt ⊢
      omega
  · intro hne
    simp only [hg, occupancy] at hocc ⊢
    omega

/-- One step of the ring keeps the invariant. -/
theorem ring_step_inv (s : Nat × Nat) (op : RingOp) (h : RingInv s) :
    RingInv (ring_step s op) := by
  obtain ⟨put, get⟩ := s
  obtain ⟨hput, hget, hocc⟩ := h
  obtain ⟨_, hsend, hcons⟩ := ring_facts put get hput hget hocc
  cases op with
  | send =>
    simp only [ring_step]
    split_ifs with hr
    · obtain ⟨_, h1, _, h2⟩ := hsend hr
      exact ⟨h1, hget, h2⟩
    · exact ⟨hput, hget, hocc⟩
  | consume =>
    simp only [ring_step]
    split_ifs with he
    · exact ⟨hput, hget, hocc⟩
    · obtain ⟨h1, _, h2⟩ := hcons he
      exact ⟨hput, h1, h2⟩

/-- Every run of the ring keeps the invariant. -/
theorem ring_run_inv (ops : List RingOp) (s : Nat × Nat) (h : RingInv s) :
    RingInv (ops.foldl ring_step s) := by
  induction ops generalizing s with
  | nil => exact h
  | cons op ops ih => exact ih _ (ring_step_inv s op h)

/-- A send whose ring-room wait times out returns `-EBUSY` with the `pmu` object as
it was. -/
theorem nvkm_pmu_send_busy (reply : Bool) (p m d0 d1 work : Nat) (put n : Nat)
    (busy rest polls : List Nat) (trace : List Event) (obj : nvkm_pmu)
    (hbusy : ∀ v ∈ busy, v = put ^^^ 8) (hlen : busy.length = n + 1) :
    nvkm_pmu_send reply p m d0 d1 work ⟨put :: (busy ++ rest), n :: polls, trace, obj⟩ =
      .ok (-EBUSY, none) ⟨rest, polls,
        trace ++ (Event.rd 0x10a4a0 put :: busy.map (Event.rd 0x10a4b0)), obj⟩ := by
  have hp : ∀ v ∈ busy, (fun tmp => decide (tmp ≠ put ^^^ 8)) v = false := by
    intro v hv
    simp [hbusy v hv]
  simp only [nvkm_pmu_send, bind_eq, nvkm_rd32_cons, nvkm_msec_cons]
  rw [nvkm_msec_loop_timeout 0x10a4b0 (fun tmp => decide (tmp ≠ put ^^^ 8)) n busy rest
    polls _ obj hp hlen]
  simp [pure_eq, ETIMEDOUT]

/-- C14: for PUT, GET in [0, 16) with occupancy `n = (PUT - GET) mod 16 <= 8`: the
room check of `nvkm_pmu_send` holds iff `n < 8`, and a send that finds GET at its
one read of 0x10a4b0 returns 0 iff it holds and `-EBUSY` otherwise; when it holds,
the slot written, `PUT & 7`, differs from every unconsumed slot `(GET + j) & 7`,
`j < n`, the send writes the new index `(PUT + 1) & 0x0f` to 0x10a4a0 and the
occupancy becomes `n + 1 <= 8`; a consume (GET != PUT) takes the occupancy to
`n - 1`; and over every sequence of sends and consumes started there the
invariant `n <= 8` is kept, so that no send overwrites an unconsumed slot. -/
theorem c14_send_ring_invariant (put get : Nat) (hput : put < 16) (hget : get < 16)
    (hocc : occupancy put get ≤ 8) :
    (room_check put get = true ↔ occupancy put get < 8) ∧
    (∀ (p m d0 d1 : Nat) (rest polls : List Nat) (trace : List Event) (obj : nvkm_pmu),
      nvkm_pmu_send false p m d0 d1 0 ⟨put :: get :: 1 :: rest, 0 :: polls, trace, obj⟩ =
        if room_check put get = true then
          .ok (0, none) ⟨rest, polls,
            trace ++ [.rd 0x10a4a0 put, .rd 0x10a4b0 get, .wr 0x10a580 1, .rd 0x10a580 1,
              .wr 0x10a1c0 (0x01000000 ||| u32 ((send_slot put <<< 4) + obj.send.base)),
              .wr 0x10a1c4 p, .wr 0x10a1c4 m, .wr 0x10a1c4 d0, .wr 0x10a1c4 d1,
              .wr 0x10a4a0 (next_index put), .wr 0x10a580 0], obj⟩
        else
          .ok (-EBUSY, none) ⟨1 :: rest, polls,
            trace ++ [.rd 0x10a4a0 put, .rd 0x10a4b0 get], obj⟩) ∧
    (room_check put get = true →
      (∀ j, j < occupancy put get → send_slot put ≠ (get + j) &&& 0x07) ∧
      next_index put < 16 ∧
      occupancy (next_index put) get = occupancy put get + 1 ∧
      occupancy (next_index put) get ≤ 8) ∧
    (get ≠ put →
      next_index get < 16 ∧
      occupancy put (next_index get) + 1 = occupancy put get ∧
      occupancy put (next_index get) ≤ 8) ∧
    (∀ ops : List RingOp,
      RingInv (ops.foldl ring_step (put, get)) ∧
      (room_check (ops.foldl ring_step (put, get)).1 (ops.foldl ring_step (put, get)).2 = true →
        ∀ j, j < occupancy (ops.foldl ring_step (put, get)).1
            (ops.foldl ring_step (put, get)).2 →
          send_slot (ops.foldl ring_step (put, get)).1 ≠
            ((ops.foldl ring_step (put, get)).2 + j) &&& 0x07)) := by
  obtain ⟨h1, h2, h3⟩ := ring_facts put get hput hget hocc
  refine ⟨h1, ?_, h2, h3, ?_⟩
  · intro p m d0 d1 rest polls trace obj
    by_cases hr : room_check put get = true
    · rw [if_pos hr]
      have hg : get ≠ put ^^^ 8 := by simpa [room_check] using hr
      have := nvkm_pmu_send_issue false p m d0 d1 0 put 0 [] get [] rest polls trace obj
        (by simp) hg (by simp) (by simp)
      simp only [List.nil_append] at this
      rw [this]
      rfl
    · rw [if_neg hr]
      have hg : get = put ^^^ 8 := by simpa [room_check] using hr
      have := nvkm_pmu_send_busy false p m d0 d1 0 put 0 [get] (1 :: rest) polls trace obj
        (by simp [hg]) rfl
      simp only [List.singleton_append] at this
      rw [this]
      rfl
  · intro ops
    have hinv := ring_run_inv ops (put, get) ⟨hput, hget, hocc⟩
    refine ⟨hinv, ?_⟩
    intro hr
    exact ((ring_facts _ _ hinv.1 hinv.2.1 hinv.2.2).2.1 hr).1

theorem c14_send_ring_invariant_witness :
    (room_check 11 3 = true ↔ occupancy 11 3 < 8) ∧
    (room_check 10 3 = true →
      (∀ j, j < occupancy 10 3 → send_slot 10 ≠ (3 + j) &&& 0x07) ∧
      next_index 10 < 16 ∧
      occupancy (next_index 10) 3 = occupancy 10 3 + 1 ∧
      occupancy (next_index 10) 3 ≤ 8) :=
  ⟨(c14_send_ring_invariant 11 3 (by decide) (by decide) (by decide)).1,
    (c14_send_ring_invariant 10 3 (by decide) (by decide) (by decide)).2.2.1⟩


/-! ## Theorems: the interrupt handler -/

theorem and_bit_ne_zero (x k : Nat) : x &&& 2 ^ k ≠ 0 ↔ x.testBit k = true := by
  rw [Nat.and_two_pow]
  cases h : x.testBit k
  · simp
  · simp

theorem testBit_not32 (c i : Nat) :
    (not32 c).testBit i = (decide (i < 32) && !c.testBit i) := by
  have e : (0xffffffff : Nat) = 2 ^ 32 - 1 := by norm_num
  have e2 : (4294967296 : Nat) = 2 ^ 32 := by norm_num
  unfold not32 u32
  rw [e, e2, Nat.testBit_xor, Nat.testBit_two_pow_sub_one, Nat.testBit_mod_two_pow]
  cases decide (i < 32) <;> cases c.testBit i <;> rfl

/-- Clearing one bit does not change the test of another one. -/
theorem clear_keeps (x j k : Nat) (h : j ≠ k) (hk : k < 32) :
    (x &&& not32 (2 ^ j)) &&& 2 ^ k = x &&& 2 ^ k := by
  apply Nat.eq_of_testBit_eq
  intro i
  simp only [Nat.testBit_and, testBit_not32, Nat.testBit_two_pow]
  by_cases hi : k = i
  · have : ¬ j = i := by omega
    have : i < 32 := by omega
    simp [*]
  · simp [hi]

theorem clear20_40 (x : Nat) : (x &&& not32 0x20) &&& 0x40 = x &&& 0x40 :=
  clear_keeps x 5 6 (by decide) (by decide)

theorem clear20_80 (x : Nat) : (x &&& not32 0x20) &&& 0x80 = x &&& 0x80 :=
  clear_keeps x 5 7 (by decide) (by decide)

theorem clear40_80 (x : Nat) : (x &&& not32 0x40) &&& 0x80 = x &&& 0x80 :=
  clear_keeps x 6 7 (by decide) (by decide)

/-- The interrupts seen by the handler fit in 32 bits. -/
theorem intr_of_lt (disp status : Nat) : intr_of disp status < 2 ^ 32 := by
  unfold intr_of
  apply Nat.and_lt_two_pow
  unfold not32
  exact Nat.xor_lt_two_pow (by norm_num) (by unfold u32; omega)

/-- The tests of the message block and of the debug block see the bits of the
original `intr`. -/
theorem intr_after_tests (intr stat : Nat) :
    intr_after_fault intr stat &&& 0x40 = intr &&& 0x40 ∧
    intr_after_recv (intr_after_fault intr stat) &&& 0x80 = intr &&& 0x80 := by
  unfold intr_after_recv intr_after_fault
  split_ifs <;> simp only [clear20_40, clear20_80, clear40_80, and_self]

/-- The bits left for the last block are those of `intr` outside the handled ones,
and together with the bits acknowledged or cleared before they make up `intr`. -/
theorem intr_rest_covered (intr stat : Nat) (h : intr < 2 ^ 32) :
    intr_rest intr stat = intr &&& not32 (intr_handled intr stat) ∧
    intr_covered intr stat = intr := by
  have hhi : ∀ i, ¬ i < 32 → intr.testBit i = false := by
    intro i hi
    apply Nat.testBit_lt_two_pow
    calc intr < 2 ^ 32 := h
      _ ≤ 2 ^ i := Nat.pow_le_pow_right (by norm_num) (by omega)
  have tb5 : ∀ i, (0x20 : Nat).testBit i = decide (5 = i) := fun i => @Nat.testBit_two_pow 5 i
  have tb6 : ∀ i, (0x40 : Nat).testBit i = decide (6 = i) := fun i => @Nat.testBit_two_pow 6 i
  have tb7 : ∀ i, (0x80 : Nat).testBit i = decide (7 = i) := fun i => @Nat.testBit_two_pow 7 i
  have b5 : intr &&& 0x20 ≠ 0 ↔ intr.testBit 5 = true := and_bit_ne_zero intr 5
  have b6 : intr &&& 0x40 ≠ 0 ↔ intr.testBit 6 = true := and_bit_ne_zero intr 6
  have b7 : intr &&& 0x80 ≠ 0 ↔ intr.testBit 7 = true := and_bit_ne_zero intr 7
  have t1 := (intr_after_tests intr stat).1
  have t2 := (intr_after_tests intr stat).2
  have hf : fault_taken intr stat = true → intr.testBit 5 = true := by
    intro hft
    simp only [fault_taken, Bool.and_eq_true, decide_eq_true_eq] at hft
    exact b5.mp hft.1
  have x6 : ¬ intr &&& 0x40 ≠ 0 → intr.testBit 6 = false := by
    intro hc
    cases hb : intr.testBit 6
    · rfl
    · exact absurd (b6.mpr hb) hc
  have x7 : ¬ intr &&& 0x80 ≠ 0 → intr.testBit 7 = false := by
    intro hc
    cases hb : intr.testBit 7
    · rfl
    · exact absurd (b7.mpr hb) hc
  have hrest : ∀ i, (intr_rest intr stat).testBit i =
      (intr.testBit i && !(decide (fault_taken intr stat = true ∧ i = 5) ||
        decide (i = 6) || decide (i = 7))) := by
    intro i
    unfold intr_rest intr_after_wr32
    rw [t2]
    unfold intr_after_recv
    rw [t1]
    unfold intr_after_fault
    have hi32 := hhi i
    by_cases c5 : fault_taken intr stat = true <;> by_cases c6 : intr &&& 0x40 ≠ 0 <;>
      by_cases c7 : intr &&& 0x80 ≠ 0 <;>
      simp only [c5, if_pos c6, if_neg c6, if_pos c7, if_neg c7, if_true, if_false,
        Nat.testBit_and, testBit_not32, tb5, tb6, tb7, true_and, false_and] <;>
      by_cases i5 : i = 5 <;> by_cases i6 : i = 6 <;> by_cases i7 : i = 7 <;>
      first
      | omega
      | (subst i5; simp)
      | (subst i6; simp [x6 c6])
      | (subst i6; simp)
      | (subst i7; simp [x7 c7])
      | (subst i7; simp)
      | (by_cases hi : i < 32
         · simp [i5, i6, i7, hi, Ne.symm i5, Ne.symm i6, Ne.symm i7]
         · simp [i5, i6, i7, hi32 hi])
  constructor
  · apply Nat.eq_of_testBit_eq
    intro i
    rw [hrest i]
    have hi32 := hhi i
    unfold intr_handled
    by_cases c5 : fault_taken intr stat = true <;>
      simp only [c5, if_true, if_false, Nat.testBit_and, Nat.testBit_or, testBit_not32, tb5,
        tb6, tb7, true_and, false_and, Nat.zero_testBit] <;>
      by_cases i5 : i = 5 <;> by_cases i6 : i = 6 <;> by_cases i7 : i = 7 <;>
      first
      | omega
      | (subst i5; simp)
      | (subst i6; simp)
      | (subst i7; simp)
      | (by_cases hi : i < 32
         · simp [i5, i6, i7, hi, Ne.symm i5, Ne.symm i6, Ne.symm i7]
         · simp [i5, i6, i7, hi32 hi])
  · apply Nat.eq_of_testBit_eq
    intro i
    unfold intr_covered
    simp only [Nat.testBit_or, Nat.testBit_and, hrest i]
    by_cases c5 : fault_taken intr stat = true <;>
      simp only [c5, if_true, if_false, tb5, tb6, tb7, true_and, false_and,
        Nat.zero_testBit] <;>
      by_cases i5 : i = 5 <;> by_cases i6 : i = 6 <;> by_cases i7 : i = 7 <;>
      first
      | omega
      | (subst i5; simp [hf c5])
      | (subst i5; simp)
      | (subst i6; simp)
      | (subst i7; simp)
      | simp [i5, i6, i7, Ne.symm i5, Ne.symm i6, Ne.symm i7]


/-- The run of the handler: the two reads that give `intr`, then the four blocks. -/
theorem nvkm_pmu_intr_run (disp status stat addr dbg_addr dbg_val : Nat)
    (rest polls : List Nat) (trace : List Event) (obj : nvkm_pmu) :
    nvkm_pmu_intr
        ⟨disp :: status ::
          (intr_reads (intr_of disp status) stat addr dbg_addr dbg_val ++ rest),
          polls, trace, obj⟩ =
      .ok () ⟨rest, polls,
        trace ++ ([.rd 0x10a01c disp, .rd 0x10a008 status] ++
          intr_fault_part (intr_of disp status) stat addr ++
          intr_recv_part (intr_of disp status) ++
          intr_wr32_part (intr_of disp status) dbg_addr dbg_val ++
          intr_rest_part (intr_of disp status) stat), obj⟩ := by
  have t1 := (intr_after_tests (intr_of disp status) stat).1
  have t2 := (intr_after_tests (intr_of disp status) stat).2
  have hI : status &&& disp &&& not32 (disp >>> 16) = intr_of disp status := rfl
  simp only [nvkm_pmu_intr, bind_eq, nvkm_rd32_cons, hI]
  generalize intr_of disp status = intr at t1 t2 ⊢
  by_cases h5 : intr &&& 0x20 ≠ 0 <;> by_cases hs : stat &&& 0x80000000 ≠ 0 <;>
    by_cases h6 : intr &&& 0x40 ≠ 0 <;> by_cases h7 : intr &&& 0x80 ≠ 0 <;>
    simp only [intr_reads, intr_fault_part, intr_recv_part, intr_wr32_part, intr_rest_part,
      intr_rest, intr_after_wr32, intr_after_recv, intr_after_fault, fault_taken,
      clear20_40, clear20_80, clear40_80, if_pos h5, if_neg h5, if_pos hs, if_neg hs,
      if_pos h6, if_neg h6, if_pos h7, if_neg h7, bind_eq, pure_eq, nvkm_rd32_cons, emit,
      nvkm_wr32, List.cons_append, List.nil_append, List.append_nil, decide_True,
      decide_False, Bool.and_self, Bool.and_true, Bool.and_false, Bool.true_and,
      Bool.false_and, if_true, if_false] <;>
    simp only [h5, hs, h6, h7, ne_eq, not_false_eq_true, not_true_eq_false, decide_True,
      decide_False, Bool.and_self, Bool.and_true, Bool.and_false, Bool.true_and,
      Bool.false_and, Bool.false_eq_true, clear20_40, clear20_80, clear40_80, if_true,
      if_false] <;>
    split_ifs <;>
    simp [bind_eq, pure_eq, emit]

/-- C12, as the code has it: with `disp = reg[0x10a01c]` and
`intr = reg[0x10a008] & disp & ~(disp >> 16)`, the handler returns after the fault
block, the message block, the debug block and the last block, in this order. The
receive work is scheduled iff bit 0x40 of `intr` is set, and bits 0x40 and 0x80 are
each acknowledged by their own write to 0x10a004. When bit 0x20 is set the fault
status 0x10a16c is read; only if bit 31 of that status is set are the fault address
0x10a168 read and 0x10a16c cleared, and otherwise bit 0x20 stays among the
remaining bits. The remaining bits, `intr` without 0x40, 0x80 and (when the fault
was cleared) 0x20, are acknowledged in one write of exactly those bits to 0x10a004
when there are any. The handler never reads the ring data port 0x10a1c4, and the
bits it acknowledges or clears are exactly the bits of `intr`. -/
theorem c12_intr_dispatch (w : World nvkm_pmu) (disp status stat addr dbg_addr dbg_val : Nat)
    (rest : List Nat)
    (hreads : w.reads = disp :: status ::
      (intr_reads (intr_of disp status) stat addr dbg_addr dbg_val ++ rest)) :
    nvkm_pmu_intr w = .ok () { w with
      reads := rest,
      trace := w.trace ++ ([.rd 0x10a01c disp, .rd 0x10a008 status] ++
        intr_fault_part (intr_of disp status) stat addr ++
        intr_recv_part (intr_of disp status) ++
        intr_wr32_part (intr_of disp status) dbg_addr dbg_val ++
        intr_rest_part (intr_of disp status) stat) } ∧
    (Event.schedule_work ∈
        intr_fault_part (intr_of disp status) stat addr ++
        intr_recv_part (intr_of disp status) ++
        intr_wr32_part (intr_of disp status) dbg_addr dbg_val ++
        intr_rest_part (intr_of disp status) stat ↔
      intr_of disp status &&& 0x40 ≠ 0) ∧
    (Event.wr 0x10a16c 0 ∈
        intr_fault_part (intr_of disp status) stat addr ++
        intr_recv_part (intr_of disp status) ++
        intr_wr32_part (intr_of disp status) dbg_addr dbg_val ++
        intr_rest_part (intr_of disp status) stat ↔
      intr_of disp status &&& 0x20 ≠ 0 ∧ stat &&& 0x80000000 ≠ 0) ∧
    (∀ v, Event.rd 0x10a1c4 v ∉
        [Event.rd 0x10a01c disp, Event.rd 0x10a008 status] ++
        intr_fault_part (intr_of disp status) stat addr ++
        intr_recv_part (intr_of disp status) ++
        intr_wr32_part (intr_of disp status) dbg_addr dbg_val ++
        intr_rest_part (intr_of disp status) stat) ∧
    intr_rest (intr_of disp status) stat =
      intr_of disp status &&& not32 (intr_handled (intr_of disp status) stat) ∧
    (intr_of disp status &&& 0x20 ≠ 0 → ¬ stat &&& 0x80000000 ≠ 0 →
      intr_rest (intr_of disp status) stat &&& 0x20 ≠ 0) ∧
    intr_covered (intr_of disp status) stat = intr_of disp status := by
  obtain ⟨reads, polls, trace, obj⟩ := w
  simp only at hreads
  subst hreads
  obtain ⟨hrest, hcov⟩ := intr_rest_covered (intr_of disp status) stat (intr_of_lt disp status)
  refine ⟨nvkm_pmu_intr_run disp status stat addr dbg_addr dbg_val rest polls trace obj,
    ?_, ?_, ?_, hrest, ?_, hcov⟩
  · simp only [List.mem_append, intr_fault_part, intr_recv_part, intr_wr32_part,
      intr_rest_part]
    split_ifs <;> simp_all
  · simp only [List.mem_append, intr_fault_part, intr_recv_part, intr_wr32_part,
      intr_rest_part]
    split_ifs <;> simp_all
  · intro v
    simp only [List.mem_append, intr_fault_part, intr_recv_part, intr_wr32_part,
      intr_rest_part]
    split_ifs <;> simp
  · intro h5 hs
    have hft : fault_taken (intr_of disp status) stat = false := by
      simp only [fault_taken, Bool.and_eq_false_iff, decide_eq_false_iff_not]
      exact Or.inr hs
    have hk : not32 (0 ||| 0x00000040 ||| 0x00000080) &&& 0x20 = 0x20 := by rfl
    rw [hrest]
    unfold intr_handled
    rw [hft]
    simp only [Bool.false_eq_true, if_false]
    rw [Nat.and_assoc, hk]
    exact h5

theorem c12_intr_dispatch_witness :
    nvkm_pmu_intr ⟨[0xffff, 0x1e0, 0x80000123, 0x55, 1, 2], [], [],
        ⟨⟨0, 0⟩, ⟨0, 0, 0, 0, 0, 0⟩⟩⟩ =
      .ok () ⟨[], [],
        [.rd 0x10a01c 0xffff, .rd 0x10a008 0x1e0, .rd 0x10a16c 0x80000123, .rd 0x10a168 0x55,
         .error_uas 0x123 0x55, .wr 0x10a16c 0, .schedule_work, .wr 0x10a004 0x40,
         .rd 0x10a7a0 1, .rd 0x10a7a4 2, .info_wr32 1 2, .wr 0x10a004 0x80,
         .error_intr 0x100, .wr 0x10a004 0x100],
        ⟨⟨0, 0⟩, ⟨0, 0, 0, 0, 0, 0⟩⟩⟩ :=
  (c12_intr_dispatch ⟨[0xffff, 0x1e0, 0x80000123, 0x55, 1, 2], [], [],
      ⟨⟨0, 0⟩, ⟨0, 0, 0, 0, 0, 0⟩⟩⟩ 0xffff 0x1e0 0x80000123 0x55 1 2 [] rfl).1

/-- C12 fails as stated: with `disp = 0x20`, `reg[0x10a008] = 0x20` (so
`intr = 0x20`) and a fault status 0 in 0x10a16c, the handler reads 0x10a16c only; it
does not read the fault address 0x10a168 and does not clear 0x10a16c, and bit 0x20
is acknowledged as an unknown interrupt by the last write to 0x10a004. -/
theorem c12_counterexample :
    intr_of 0x20 0x20 = 0x20 ∧
    nvkm_pmu_intr ⟨[0x20, 0x20, 0], [], [], ⟨⟨0, 0⟩, ⟨0, 0, 0, 0, 0, 0⟩⟩⟩ =
      .ok () ⟨[], [],
        [.rd 0x10a01c 0x20, .rd 0x10a008 0x20, .rd 0x10a16c 0, .error_intr 0x20,
         .wr 0x10a004 0x20],
        ⟨⟨0, 0⟩, ⟨0, 0, 0, 0, 0, 0⟩⟩⟩ ∧
    Event.wr 0x10a16c 0 ∉
      (nvkm_pmu_intr ⟨[0x20, 0x20, 0], [], [], ⟨⟨0, 0⟩, ⟨0, 0, 0, 0, 0, 0⟩⟩⟩).world.trace := by
  refine ⟨rfl, rfl, ?_⟩
  decide

/-! ## Theorems: timeouts of the polls -/

/-- C13 at failing inputs: three of the five polls do not surface their timeout.
(1) The halt wait of `_nvkm_falcon_init` times out (budget of two rounds, the halt
bit 0x10 never read) and the init goes on, uploads, starts the falcon and returns 0.
(2) The command-ring idle poll of `_nvkm_pmu_init` times out (0x10a04c never reads
0) and the init goes on and returns 0. (3) The same for the post-reset poll
(0x10a10c keeps bits 0x6). (4), (5) The two ring descriptor polls do surface
their timeout: the init returns `-EBUSY`. -/
theorem c13_timeouts_not_surfaced :
    ((nvkm_msec (do
        let v ← nvkm_rd32 (reg 0x087000 0x008)
        pure (decide (v &&& 0x00000010 ≠ 0))) ⟨[0, 0], [1], [], falcon_secret⟩).ret? =
      some (-ETIMEDOUT) ∧
     _nvkm_falcon_init env_legacy ⟨[0x201, 0, 0], [1], [], falcon_secret⟩ =
      .ok 0 ⟨[], [],
        [.rd 0x87108 0x201, .rd 0x87008 0, .rd 0x87008 0, .wr 0x87004 0x10,
         .wr 0x87014 0xffffffff, .wr 0x87ff8 0x00100000, .wr 0x87ff4 0xc0de,
         .wr 0x87ff8 0, .wr 0x87ff4 0xda7a] ++
        List.replicate 64 (.wr 0x87ff4 0) ++
        [.wr 0x8710c 1, .wr 0x87104 0, .wr 0x87100 2, .wr 0x87048 3],
        { falcon_secret with
          secret := 1, code := ⟨some [0xc0de], 4, 256⟩, data := ⟨some [0xda7a], 4, 256⟩ }⟩) ∧
    ((nvkm_msec (do
        let v ← nvkm_rd32 0x10a04c
        pure (decide (v = 0))) ⟨[5, 5], [1], [], pmu0⟩).ret? = some (-ETIMEDOUT) ∧
     _nvkm_pmu_init 0 impl_one_word
        ⟨[5, 5, 0x2100, 0x100, 0x2100, 0, 0x00400100, 0x00400100, 0x00400100, 0x00400200,
          0x00400200, 0x00400200], [1, 0, 0, 0], [], pmu0⟩ =
      .ok 0 ⟨[], [],
        [.wr 0x10a014 0xffff, .rd 0x10a04c 5, .rd 0x10a04c 5, .rd 0x200 0x2100,
         .wr 0x200 0x100, .rd 0x200 0x100, .wr 0x200 0x2100, .rd 0x200 0x2100,
         .rd 0x10a10c 0, .wr 0x10a1c0 0x01000000, .wr 0x10a1c4 0xda7a,
         .wr 0x10a180 0x01000000, .wr 0x10a188 0, .wr 0x10a184 0xc0de, .wr 0x10a10c 0,
         .wr 0x10a104 0, .wr 0x10a100 2, .rd 0x10a4d0 0x00400100, .rd 0x10a4d0 0x00400100,
         .rd 0x10a4d0 0x00400100, .rd 0x10a4dc 0x00400200, .rd 0x10a4dc 0x00400200,
         .rd 0x10a4dc 0x00400200, .wr 0x10a010 0xe0],
        ⟨⟨0x100, 0x40⟩, ⟨0x200, 0x40, 0, 0, 0, 0⟩⟩⟩) ∧
    ((nvkm_msec (do
        let v ← nvkm_rd32 0x10a10c
        pure (decide (v &&& 0x00000006 = 0))) ⟨[6, 2], [1], [], pmu0⟩).ret? =
      some (-ETIMEDOUT) ∧
     (_nvkm_pmu_init 0 impl_one_word
        ⟨[0, 0x2100, 0x100, 0x2100, 6, 2, 0x00400100, 0x00400100, 0x00400100, 0x00400200,
          0x00400200, 0x00400200], [1, 1, 0, 0], [], pmu0⟩).ret? = some 0) ∧
    ((_nvkm_pmu_init 0 impl_one_word
        ⟨[0, 0x2100, 0x100, 0x2100, 0, 0, 0], [1, 0, 1], [], pmu0⟩).ret? = some (-EBUSY)) ∧
    ((_nvkm_pmu_init 0 impl_one_word
        ⟨[0, 0x2100, 0x100, 0x2100, 0, 0x00400100, 0x00400100, 0x00400100, 0, 0],
          [1, 0, 0, 1], [], pmu0⟩).ret? = some (-EBUSY)) := by
  refine ⟨⟨rfl, rfl⟩, ⟨rfl, ?_⟩, ⟨rfl, ?_⟩, ?_, ?_⟩ <;>
    (simp [_nvkm_pmu_init, bind_eq, pure_eq, nvkm_rd32, nvkm_wr32, emit, emits, nvkm_msec,
      nvkm_msec_loop, nvkm_mask, for_loop, impl_one_word, pmu0, not32, u32, ETIMEDOUT, EBUSY,
      get_obj, set_obj, Res.ret?]; try decide)

end Nvkm
